import Mathlib

/-!
# goquarkchain: chain accessors (`core/rawdb/accessors_chain.go`) and the
# block-sync scheduler (`cluster/sync/sync.go`)

A shallow embedding of the two source files and theorems about them.

* Byte strings are lists of bytes, `common.Hash` is a 32-byte array.
* The key-value store is a finite map from keys to values together with the set
  of keys on which a `Put`/`Delete` returns an error; `log.Crit` ends the
  process, which is the `Outcome.fatal` result of a write accessor.
* Go `for` loops that may run forever are functions with a fuel argument;
  `Exec.timeout` is the answer of a run that used up its fuel.
-/

namespace Rawdb

/-! ## Bytes, hashes, integers -/

abbrev Bytes := List (Fin 256)

/-- Length of `common.Hash` in bytes. -/
abbrev HashLength : Nat := 32

/-- The Go type `common.Hash`, a `[32]byte`. -/
def Hash : Type := { l : Bytes // l.length = HashLength }

instance : DecidableEq Hash := inferInstanceAs (DecidableEq { l : Bytes // l.length = HashLength })

/-- The method `Hash.Bytes`: the 32 bytes of the hash. -/
def Hash.Bytes (h : Hash) : Bytes := h.val

/-- The zero value `common.Hash{}`. -/
def Hash.zero : Hash := ⟨List.replicate HashLength 0, by simp⟩

/-- The function `common.BytesToHash`: a longer input is cropped from the left, a
shorter one is right-aligned in a zeroed array. -/
def BytesToHash (b : Bytes) : Hash :=
  ⟨List.replicate (HashLength - (b.drop (b.length - HashLength)).length) 0
      ++ b.drop (b.length - HashLength), by
    simp only [List.length_append, List.length_replicate, List.length_drop, HashLength]
    omega⟩

/-- The Go call `binary.BigEndian.PutUint64` on a fresh 8-byte slice. -/
def putUint64 (n : Nat) : Bytes :=
  [Fin.ofNat (n / 2 ^ 56), Fin.ofNat (n / 2 ^ 48), Fin.ofNat (n / 2 ^ 40), Fin.ofNat (n / 2 ^ 32),
   Fin.ofNat (n / 2 ^ 24), Fin.ofNat (n / 2 ^ 16), Fin.ofNat (n / 2 ^ 8), Fin.ofNat n]

/-- Big-endian value of a byte string (`binary.BigEndian.Uint64` on 8 bytes,
`big.Int.SetBytes` in general). -/
def bigEndian (data : Bytes) : Nat :=
  data.foldl (fun acc b => acc * 256 + b.val) 0

/-- Modelled from the spec: `encodeBlockNumber` of `schema.go`, which is not among the
sources; block numbers are encoded big-endian in a fixed width of 8 bytes (section 4.2). -/
def encodeBlockNumber (number : Nat) : Bytes := putUint64 (number % 2 ^ 64)

/-! ## Key space -/

/-- Modelled from the spec: `ChainType` of `schema.go` is a one-byte tag. -/
abbrev ChainType := Nat

/-- Modelled from the spec: the key scheme of `schema.go`, which is not among the sources.
Section 4.2 gives one namespace per kind of entity and four singleton keys; the
constructors carry the names of the key functions the accessors call. -/
inductive Key where
  | headerHashKey (chainType : ChainType) (number : Nat)
  | headerNumberKey (hash : Hash)
  | headerKey (hash : Hash)
  | blockKey (hash : Hash)
  | headerTDKey (hash : Hash)
  | blockReceiptsKey (hash : Hash)
  | headHeaderKey
  | headBlockKey
  | headFastBlockKey
  | fastTrieProgressKey
deriving DecidableEq

open Key

/-! ## The key-value capability -/

/-- Modelled from the spec: the key-value capability of section 6 (the interfaces
`DatabaseReader`, `DatabaseWriter` and `DatabaseDeleter` are declared in a file that is
not among the sources). State of the store: its content, and the keys on which a
write (`Put` or `Delete`) returns an error. -/
structure Database where
  entries : Key → Option Bytes
  writeErr : Key → Bool

/-- The store with no entry. -/
def Database.empty (writeErr : Key → Bool) : Database :=
  { entries := fun _ => none, writeErr := writeErr }

/-- Method `Get` of `DatabaseReader`: the value and whether an error is returned
(a missing key is the not-found error, with no data). -/
def Database.Get (db : Database) (key : Key) : Bytes × Bool :=
  match db.entries key with
  | some v => (v, false)
  | none => ([], true)

/-- Method `Has` of `DatabaseReader`. -/
def Database.Has (db : Database) (key : Key) : Bool × Bool :=
  ((db.entries key).isSome, false)

/-- Method `Put` of `DatabaseWriter`; `none` is a returned error. -/
def Database.Put (db : Database) (key : Key) (value : Bytes) : Option Database :=
  if db.writeErr key then none
  else some { db with entries := fun k => if k = key then some value else db.entries k }

/-- Method `Delete` of `DatabaseDeleter`; `none` is a returned error. -/
def Database.Delete (db : Database) (key : Key) : Option Database :=
  if db.writeErr key then none
  else some { db with entries := fun k => if k = key then none else db.entries k }

/-- Result of a write accessor: it returned with the store in state `db`, or it
called `log.Crit`, which ends the process with the store left in state `db`. -/
inductive Outcome where
  | ok (db : Database)
  | fatal (db : Database)

/-- The store in which an accessor left the database. -/
def Outcome.state : Outcome → Database
  | .ok db => db
  | .fatal db => db

/-- Sequencing of write accessors: nothing runs after `log.Crit`. -/
def Outcome.andThen (o : Outcome) (f : Database → Outcome) : Outcome :=
  match o with
  | .ok db => f db
  | .fatal db => .fatal db

/-! ## Chain entities -/

/-- Modelled from the spec: `types.MinorBlockHeader` is not among the sources; a
header has a height, a parent hash and chain-specific fields opaque to this
package (section 3). `Number` is a `uint64`. -/
structure MinorBlockHeader where
  Number : Nat
  ParentHash : Hash
  Extra : Bytes
deriving DecidableEq

/-- Modelled from the spec: `types.RootBlockHeader`, as for the minor header. -/
structure RootBlockHeader where
  Number : Nat
  ParentHash : Hash
  Extra : Bytes
deriving DecidableEq

/-- The method `RootBlockHeader.NumberU64`. -/
def RootBlockHeader.NumberU64 (h : RootBlockHeader) : Nat := h.Number

/-- Modelled from the spec: `types.MinorBlock`, a header plus a payload. -/
structure MinorBlock where
  header : MinorBlockHeader
  body : Bytes
deriving DecidableEq

/-- Modelled from the spec: `types.RootBlock`, a header plus a payload. -/
structure RootBlock where
  header : RootBlockHeader
  body : Bytes
deriving DecidableEq

/-- The method `MinorBlock.Header`. -/
def MinorBlock.Header (b : MinorBlock) : MinorBlockHeader := b.header

/-- The method `RootBlock.Header`. -/
def RootBlock.Header (b : RootBlock) : RootBlockHeader := b.header

/-- Modelled from the spec: `types.Receipt`, a per-transaction outcome opaque to this
package; `types.ReceiptForStorage` is the same struct under another name. -/
structure Receipt where
  raw : Bytes
deriving DecidableEq

abbrev ReceiptForStorage := Receipt
abbrev Receipts := List Receipt

/-- The external codec and the content hashes, none of which is among the
sources: `Hash()` of headers and blocks, `serialize.SerializeToBytes` and
`serialize.Deserialize` at each type, and the RLP codec of receipts. A `none`
is a returned error. -/
structure Codec where
  hashMinorHeader : MinorBlockHeader → Hash
  hashRootHeader : RootBlockHeader → Hash
  hashMinorBlock : MinorBlock → Hash
  hashRootBlock : RootBlock → Hash
  serializeMinorHeader : MinorBlockHeader → Option Bytes
  deserializeMinorHeader : Bytes → Option MinorBlockHeader
  serializeRootHeader : RootBlockHeader → Option Bytes
  deserializeRootHeader : Bytes → Option RootBlockHeader
  serializeMinorBlock : MinorBlock → Option Bytes
  deserializeMinorBlock : Bytes → Option MinorBlock
  serializeRootBlock : RootBlock → Option Bytes
  deserializeRootBlock : Bytes → Option RootBlock
  serializeTd : Int → Option Bytes
  deserializeTd : Bytes → Option Int
  rlpEncodeReceipts : List ReceiptForStorage → Option Bytes
  rlpDecodeReceipts : Bytes → Option (List ReceiptForStorage)

/-! ## Accessors (`accessors_chain.go`) -/

/-- ReadCanonicalHash retrieves the hash assigned to a canonical block number. -/
def ReadCanonicalHash (db : Database) (chainType : ChainType) (number : Nat) : Hash :=
  let data := (db.Get (headerHashKey chainType number)).1
  if data.length = 0 then Hash.zero else BytesToHash data

/-- WriteCanonicalHash stores the hash assigned to a canonical block number. -/
def WriteCanonicalHash (db : Database) (chainType : ChainType) (hash : Hash) (number : Nat) :
    Outcome :=
  match db.Put (headerHashKey chainType number) hash.Bytes with
  | none => .fatal db
  | some db1 => .ok db1

/-- DeleteCanonicalHash removes the number to hash canonical mapping. -/
def DeleteCanonicalHash (db : Database) (chainType : ChainType) (number : Nat) : Outcome :=
  match db.Delete (headerHashKey chainType number) with
  | none => .fatal db
  | some db1 => .ok db1

/-- ReadHeaderNumber returns the header number assigned to a hash (`nil` is `none`). -/
def ReadHeaderNumber (db : Database) (hash : Hash) : Option Nat :=
  let data := (db.Get (headerNumberKey hash)).1
  if data.length ≠ 8 then none else some (bigEndian data)

/-- ReadHeadHeaderHash retrieves the hash of the current canonical head header. -/
def ReadHeadHeaderHash (db : Database) : Hash :=
  let data := (db.Get headHeaderKey).1
  if data.length = 0 then Hash.zero else BytesToHash data

/-- WriteHeadHeaderHash stores the hash of the current canonical head header. -/
def WriteHeadHeaderHash (db : Database) (hash : Hash) : Outcome :=
  match db.Put headHeaderKey hash.Bytes with
  | none => .fatal db
  | some db1 => .ok db1

/-- ReadHeadBlockHash retrieves the hash of the current canonical head block. -/
def ReadHeadBlockHash (db : Database) : Hash :=
  let data := (db.Get headBlockKey).1
  if data.length = 0 then Hash.zero else BytesToHash data

/-- WriteHeadBlockHash stores the head block hash. -/
def WriteHeadBlockHash (db : Database) (hash : Hash) : Outcome :=
  match db.Put headBlockKey hash.Bytes with
  | none => .fatal db
  | some db1 => .ok db1

/-- ReadHeadFastBlockHash retrieves the hash of the current fast-sync head block. -/
def ReadHeadFastBlockHash (db : Database) : Hash :=
  let data := (db.Get headFastBlockKey).1
  if data.length = 0 then Hash.zero else BytesToHash data

/-- WriteHeadFastBlockHash stores the hash of the current fast-sync head block. -/
def WriteHeadFastBlockHash (db : Database) (hash : Hash) : Outcome :=
  match db.Put headFastBlockKey hash.Bytes with
  | none => .fatal db
  | some db1 => .ok db1

/-- The Go expression `new(big.Int).SetUint64(count).Bytes()`: the big-endian bytes of
a `uint64` without leading zeros, empty for 0. -/
def bigBytes (count : Nat) : Bytes :=
  (putUint64 (count % 2 ^ 64)).dropWhile fun b => b = 0

/-- ReadFastTrieProgress retrieves the number of tries nodes fast synced. -/
def ReadFastTrieProgress (db : Database) : Nat :=
  let data := (db.Get fastTrieProgressKey).1
  if data.length = 0 then 0 else bigEndian data % 2 ^ 64

/-- WriteFastTrieProgress stores the fast sync trie process counter. -/
def WriteFastTrieProgress (db : Database) (count : Nat) : Outcome :=
  match db.Put fastTrieProgressKey (bigBytes count) with
  | none => .fatal db
  | some db1 => .ok db1

/-- HasHeader verifies the existence of a block header corresponding to the hash. -/
def HasHeader (db : Database) (hash : Hash) : Bool :=
  let (has, err) := db.Has (headerKey hash)
  if !has || err then false else true

/-- ReadMinorBlockHeader retrieves the block header corresponding to the hash. -/
def ReadMinorBlockHeader (c : Codec) (db : Database) (hash : Hash) : Option MinorBlockHeader :=
  let data := (db.Get (headerKey hash)).1
  if data.length = 0 then none
  else
    match c.deserializeMinorHeader data with
    | none => none
    | some header => some header

/-- WriteMinorBlockHeader stores the hash to number mapping and then the header. -/
def WriteMinorBlockHeader (c : Codec) (db : Database) (header : MinorBlockHeader) : Outcome :=
  let hash := c.hashMinorHeader header
  let encoded := encodeBlockNumber header.Number
  match db.Put (headerNumberKey hash) encoded with
  | none => .fatal db
  | some db1 =>
    match c.serializeMinorHeader header with
    | none => .fatal db1
    | some data =>
      match db1.Put (headerKey hash) data with
      | none => .fatal db1
      | some db2 => .ok db2

/-- DeleteMinorBlockHeader removes all block header data associated with a hash. -/
def DeleteMinorBlockHeader (db : Database) (hash : Hash) : Outcome :=
  match db.Delete (headerKey hash) with
  | none => .fatal db
  | some db1 =>
    match db1.Delete (headerNumberKey hash) with
    | none => .fatal db1
    | some db2 => .ok db2

/-- ReadRootBlockHeader retrieves the block header corresponding to the hash. -/
def ReadRootBlockHeader (c : Codec) (db : Database) (hash : Hash) : Option RootBlockHeader :=
  let data := (db.Get (headerKey hash)).1
  if data.length = 0 then none
  else
    match c.deserializeRootHeader data with
    | none => none
    | some header => some header

/-- WriteRootBlockHeader stores a block header into the database and also stores the
hash-to-number mapping. -/
def WriteRootBlockHeader (c : Codec) (db : Database) (header : RootBlockHeader) : Outcome :=
  let hash := c.hashRootHeader header
  let encoded := encodeBlockNumber header.NumberU64
  match db.Put (headerNumberKey hash) encoded with
  | none => .fatal db
  | some db1 =>
    match c.serializeRootHeader header with
    | none => .fatal db1
    | some data =>
      match db1.Put (headerKey hash) data with
      | none => .fatal db1
      | some db2 => .ok db2

/-- DeleteRootBlockHeader removes all block header data associated with a hash. -/
def DeleteRootBlockHeader (db : Database) (hash : Hash) : Outcome :=
  match db.Delete (headerKey hash) with
  | none => .fatal db
  | some db1 =>
    match db1.Delete (headerNumberKey hash) with
    | none => .fatal db1
    | some db2 => .ok db2

/-- HasBlock verifies the existence of a block body corresponding to the hash. -/
def HasBlock (db : Database) (hash : Hash) : Bool :=
  let (has, err) := db.Has (blockKey hash)
  if !has || err then false else true

/-- ReadMinorBlock retrieves the block body corresponding to the hash. -/
def ReadMinorBlock (c : Codec) (db : Database) (hash : Hash) : Option MinorBlock :=
  let data := (db.Get (blockKey hash)).1
  if data.length = 0 then none
  else
    match c.deserializeMinorBlock data with
    | none => none
    | some block => some block

/-- WriteMinorBlock stores the header and then the block body. -/
def WriteMinorBlock (c : Codec) (db : Database) (block : MinorBlock) : Outcome :=
  (WriteMinorBlockHeader c db block.Header).andThen fun db1 =>
    match c.serializeMinorBlock block with
    | none => .fatal db1
    | some data =>
      match db1.Put (blockKey (c.hashMinorBlock block)) data with
      | none => .fatal db1
      | some db2 => .ok db2

/-- ReadRootBlock retrieves the root block corresponding to the hash. -/
def ReadRootBlock (c : Codec) (db : Database) (hash : Hash) : Option RootBlock :=
  let data := (db.Get (blockKey hash)).1
  if data.length = 0 then none
  else
    match c.deserializeRootBlock data with
    | none => none
    | some block => some block

/-- WriteRootBlock stores the header and then the root block. -/
def WriteRootBlock (c : Codec) (db : Database) (block : RootBlock) : Outcome :=
  (WriteRootBlockHeader c db block.Header).andThen fun db1 =>
    match c.serializeRootBlock block with
    | none => .fatal db1
    | some data =>
      match db1.Put (blockKey (c.hashRootBlock block)) data with
      | none => .fatal db1
      | some db2 => .ok db2

/-- DeleteBlock removes block data associated with a hash. -/
def DeleteBlock (db : Database) (hash : Hash) : Outcome :=
  match db.Delete (blockKey hash) with
  | none => .fatal db
  | some db1 => .ok db1

/-- ReadTd retrieves the total difficulty of a block corresponding to the hash. -/
def ReadTd (c : Codec) (db : Database) (hash : Hash) : Option Int :=
  let data := (db.Get (headerTDKey hash)).1
  if data.length = 0 then none
  else
    match c.deserializeTd data with
    | none => none
    | some td => some td

/-- WriteTd stores the total difficulty of a block into the database. -/
def WriteTd (c : Codec) (db : Database) (hash : Hash) (td : Int) : Outcome :=
  match c.serializeTd td with
  | none => .fatal db
  | some data =>
    match db.Put (headerTDKey hash) data with
    | none => .fatal db
    | some db1 => .ok db1

/-- DeleteTd removes all block total difficulty data associated with a hash. -/
def DeleteTd (db : Database) (hash : Hash) : Outcome :=
  match db.Delete (headerTDKey hash) with
  | none => .fatal db
  | some db1 => .ok db1

/-- HasReceipts verifies the existence of all the transaction receipts belonging
to a block. -/
def HasReceipts (db : Database) (hash : Hash) : Bool :=
  let (has, err) := db.Has (blockReceiptsKey hash)
  if !has || err then false else true

/-- ReadReceipts retrieves all the transaction receipts belonging to a block
(`nil` is `none`). -/
def ReadReceipts (c : Codec) (db : Database) (hash : Hash) : Option Receipts :=
  let data := (db.Get (blockReceiptsKey hash)).1
  if data.length = 0 then none
  else
    match c.rlpDecodeReceipts data with
    | none => none
    | some storageReceipts => some (storageReceipts.map fun receipt => receipt)

/-- WriteReceipts stores all the transaction receipts belonging to a block. -/
def WriteReceipts (c : Codec) (db : Database) (hash : Hash) (receipts : Receipts) : Outcome :=
  let storageReceipts : List ReceiptForStorage := receipts.map fun receipt => receipt
  match c.rlpEncodeReceipts storageReceipts with
  | none => .fatal db
  | some bytes =>
    match db.Put (blockReceiptsKey hash) bytes with
    | none => .fatal db
    | some db1 => .ok db1

/-- DeleteReceipts removes all receipt data associated with a block hash. -/
def DeleteReceipts (db : Database) (hash : Hash) : Outcome :=
  match db.Delete (blockReceiptsKey hash) with
  | none => .fatal db
  | some db1 => .ok db1

/-- DeleteMinorBlock removes all block data associated with a hash. -/
def DeleteMinorBlock (db : Database) (hash : Hash) : Outcome :=
  (DeleteReceipts db hash).andThen fun db1 =>
    (DeleteMinorBlockHeader db1 hash).andThen fun db2 =>
      (DeleteBlock db2 hash).andThen fun db3 =>
        DeleteTd db3 hash

/-- DeleteRootBlock removes all block data associated with a hash. -/
def DeleteRootBlock (db : Database) (hash : Hash) : Outcome :=
  (DeleteRootBlockHeader db hash).andThen fun db1 =>
    (DeleteBlock db1 hash).andThen fun db2 =>
      DeleteTd db2 hash

/-! ## Ancestor search -/

/-- Answer of a run with fuel: `timeout` when the fuel ran out before the code
returned, `ret r` when it returned `r` (`none` is the Go `nil`). -/
inductive Exec (α : Type) where
  | timeout
  | ret (r : Option α)
deriving DecidableEq

/-- First loop of FindCommonMinorAncestor: `for bn := b.Number; a.Number > bn; { ... }`.
The answer `ret none` is the `return nil` inside the loop, `ret (some a)` the
value of `a` when the loop is left. -/
def minorLoopA (c : Codec) (db : Database) (bn : Nat) :
    Nat → MinorBlockHeader → Exec MinorBlockHeader
  | 0, a => if a.Number > bn then .timeout else .ret (some a)
  | fuel + 1, a =>
    if a.Number > bn then
      match ReadMinorBlockHeader c db a.ParentHash with
      | none => .ret none
      | some a1 => minorLoopA c db bn fuel a1
    else .ret (some a)

/-- Second loop of FindCommonMinorAncestor: `for an := a.Number; an < b.Number; { ... }`. -/
def minorLoopB (c : Codec) (db : Database) (an : Nat) :
    Nat → MinorBlockHeader → Exec MinorBlockHeader
  | 0, b => if an < b.Number then .timeout else .ret (some b)
  | fuel + 1, b =>
    if an < b.Number then
      match ReadMinorBlockHeader c db b.ParentHash with
      | none => .ret none
      | some b1 => minorLoopB c db an fuel b1
    else .ret (some b)

/-- Third loop of FindCommonMinorAncestor, `for a.Hash() != b.Hash() { ... }`, and the
final `return a`. -/
def minorLoopAB (c : Codec) (db : Database) :
    Nat → MinorBlockHeader → MinorBlockHeader → Exec MinorBlockHeader
  | 0, a, b => if c.hashMinorHeader a ≠ c.hashMinorHeader b then .timeout else .ret (some a)
  | fuel + 1, a, b =>
    if c.hashMinorHeader a ≠ c.hashMinorHeader b then
      match ReadMinorBlockHeader c db a.ParentHash with
      | none => .ret none
      | some a1 =>
        match ReadMinorBlockHeader c db b.ParentHash with
        | none => .ret none
        | some b1 => minorLoopAB c db fuel a1 b1
    else .ret (some a)

/-- FindCommonMinorAncestor returns the last common ancestor of two block headers.
Each of the three loops may run for `fuel` iterations. -/
def FindCommonMinorAncestor (c : Codec) (db : Database) (fuel : Nat)
    (a b : MinorBlockHeader) : Exec MinorBlockHeader :=
  match minorLoopA c db b.Number fuel a with
  | .timeout => .timeout
  | .ret none => .ret none
  | .ret (some a1) =>
    match minorLoopB c db a1.Number fuel b with
    | .timeout => .timeout
    | .ret none => .ret none
    | .ret (some b1) => minorLoopAB c db fuel a1 b1

/-- First loop of FindCommonRootAncestor: `for bn := b.NumberU64(); a.NumberU64() > bn; { ... }`. -/
def rootLoopA (c : Codec) (db : Database) (bn : Nat) :
    Nat → RootBlockHeader → Exec RootBlockHeader
  | 0, a => if a.NumberU64 > bn then .timeout else .ret (some a)
  | fuel + 1, a =>
    if a.NumberU64 > bn then
      match ReadRootBlockHeader c db a.ParentHash with
      | none => .ret none
      | some a1 => rootLoopA c db bn fuel a1
    else .ret (some a)

/-- Second loop of FindCommonRootAncestor:
`for an := a.NumberU64(); an < b.NumberU64(); { ... }`. -/
def rootLoopB (c : Codec) (db : Database) (an : Nat) :
    Nat → RootBlockHeader → Exec RootBlockHeader
  | 0, b => if an < b.NumberU64 then .timeout else .ret (some b)
  | fuel + 1, b =>
    if an < b.NumberU64 then
      match ReadRootBlockHeader c db b.ParentHash with
      | none => .ret none
      | some b1 => rootLoopB c db an fuel b1
    else .ret (some b)

/-- Third loop of FindCommonRootAncestor, `for a.Hash() != b.Hash() { ... }`, and the
final `return a`. -/
def rootLoopAB (c : Codec) (db : Database) :
    Nat → RootBlockHeader → RootBlockHeader → Exec RootBlockHeader
  | 0, a, b => if c.hashRootHeader a ≠ c.hashRootHeader b then .timeout else .ret (some a)
  | fuel + 1, a, b =>
    if c.hashRootHeader a ≠ c.hashRootHeader b then
      match ReadRootBlockHeader c db a.ParentHash with
      | none => .ret none
      | some a1 =>
        match ReadRootBlockHeader c db b.ParentHash with
        | none => .ret none
        | some b1 => rootLoopAB c db fuel a1 b1
    else .ret (some a)

/-- FindCommonRootAncestor returns the last common ancestor of two block headers.
Each of the three loops may run for `fuel` iterations. -/
def FindCommonRootAncestor (c : Codec) (db : Database) (fuel : Nat)
    (a b : RootBlockHeader) : Exec RootBlockHeader :=
  match rootLoopA c db b.NumberU64 fuel a with
  | .timeout => .timeout
  | .ret none => .ret none
  | .ret (some a1) =>
    match rootLoopB c db a1.NumberU64 fuel b with
    | .timeout => .timeout
    | .ret none => .ret none
    | .ret (some b1) => rootLoopAB c db fuel a1 b1

/-! ### The resolver of section 4.3, once for both hierarchies

The design notes of the specification describe the resolver as one function over
the capability set `{height, parentHash, hash, parentLookup}`. It is written
here from those words; `FindCommonMinorAncestor` and `FindCommonRootAncestor`
are shown below to be its two instances, and the properties of the two
functions are proved on it. -/

/-- The capability set of the generic resolver. -/
structure Chain (H : Type) where
  height : H → Nat
  parentHash : H → Hash
  hash : H → Hash
  parentLookup : Hash → Option H

namespace Chain

variable {H : Type} (ch : Chain H)

/-- While the height of `x` exceeds `bound`, replace `x` with its parent. -/
def descend (bound : Nat) : Nat → H → Exec H
  | 0, x => if ch.height x > bound then .timeout else .ret (some x)
  | fuel + 1, x =>
    if ch.height x > bound then
      match ch.parentLookup (ch.parentHash x) with
      | none => .ret none
      | some x1 => descend bound fuel x1
    else .ret (some x)

/-- While the hashes differ, replace both headers with their parents, in lockstep. -/
def lockstep : Nat → H → H → Exec H
  | 0, a, b => if ch.hash a ≠ ch.hash b then .timeout else .ret (some a)
  | fuel + 1, a, b =>
    if ch.hash a ≠ ch.hash b then
      match ch.parentLookup (ch.parentHash a) with
      | none => .ret none
      | some a1 =>
        match ch.parentLookup (ch.parentHash b) with
        | none => .ret none
        | some b1 => lockstep fuel a1 b1
    else .ret (some a)

/-- The generic ancestor resolver. -/
def resolve (fuel : Nat) (a b : H) : Exec H :=
  match ch.descend (ch.height b) fuel a with
  | .timeout => .timeout
  | .ret none => .ret none
  | .ret (some a1) =>
    match ch.descend (ch.height a1) fuel b with
    | .timeout => .timeout
    | .ret none => .ret none
    | .ret (some b1) => ch.lockstep fuel a1 b1

/-- The header reached from `x` after `n` parent lookups, if all of them succeed. -/
def ancestorAt : Nat → H → Option H
  | 0, x => some x
  | n + 1, x =>
    match ch.parentLookup (ch.parentHash x) with
    | none => none
    | some p => ancestorAt n p

/-- The header `x` lies on the parent chain of `a`. -/
def OnChain (a x : H) : Prop := ∃ n, ch.ancestorAt n a = some x

/-- Each header is stored under its own hash, and the parent of a stored header has
height exactly one less. -/
structure WellFormed : Prop where
  ownHash : ∀ k h, ch.parentLookup k = some h → ch.hash h = k
  parentHeight : ∀ k h p, ch.parentLookup k = some h →
    ch.parentLookup (ch.parentHash h) = some p → ch.height p + 1 = ch.height h

/-- The header `x` is in the store (under its hash). -/
def Stored (x : H) : Prop := ch.parentLookup (ch.hash x) = some x

/-- Along the parent chain of `a` no parent is higher than its child. -/
def Descending (a : H) : Prop :=
  ∀ y p, ch.OnChain a y → ch.parentLookup (ch.parentHash y) = some p →
    ch.height p ≤ ch.height y

end Chain

/-- The minor hierarchy as an instance of the capability set. -/
def minorChain (c : Codec) (db : Database) : Chain MinorBlockHeader :=
  { height := fun h => h.Number
    parentHash := fun h => h.ParentHash
    hash := c.hashMinorHeader
    parentLookup := ReadMinorBlockHeader c db }

/-- The root hierarchy as an instance of the capability set. -/
def rootChain (c : Codec) (db : Database) : Chain RootBlockHeader :=
  { height := fun h => h.NumberU64
    parentHash := fun h => h.ParentHash
    hash := c.hashRootHeader
    parentLookup := ReadRootBlockHeader c db }

/-! ## Sequences of accessor operations -/

/-- The write and delete operations of the accessor layer, with their arguments. -/
inductive Op where
  | writeCanonicalHash (chainType : ChainType) (hash : Hash) (number : Nat)
  | deleteCanonicalHash (chainType : ChainType) (number : Nat)
  | writeHeadHeaderHash (hash : Hash)
  | writeHeadBlockHash (hash : Hash)
  | writeHeadFastBlockHash (hash : Hash)
  | writeFastTrieProgress (count : Nat)
  | writeMinorBlockHeader (header : MinorBlockHeader)
  | deleteMinorBlockHeader (hash : Hash)
  | writeRootBlockHeader (header : RootBlockHeader)
  | deleteRootBlockHeader (hash : Hash)
  | writeMinorBlock (block : MinorBlock)
  | writeRootBlock (block : RootBlock)
  | deleteBlock (hash : Hash)
  | writeTd (hash : Hash) (td : Int)
  | deleteTd (hash : Hash)
  | writeReceipts (hash : Hash) (receipts : Receipts)
  | deleteReceipts (hash : Hash)
  | deleteMinorBlock (hash : Hash)
  | deleteRootBlock (hash : Hash)

/-- Run one operation. -/
def Op.run (c : Codec) (db : Database) : Op → Outcome
  | .writeCanonicalHash chainType hash number => WriteCanonicalHash db chainType hash number
  | .deleteCanonicalHash chainType number => DeleteCanonicalHash db chainType number
  | .writeHeadHeaderHash hash => WriteHeadHeaderHash db hash
  | .writeHeadBlockHash hash => WriteHeadBlockHash db hash
  | .writeHeadFastBlockHash hash => WriteHeadFastBlockHash db hash
  | .writeFastTrieProgress count => WriteFastTrieProgress db count
  | .writeMinorBlockHeader header => WriteMinorBlockHeader c db header
  | .deleteMinorBlockHeader hash => DeleteMinorBlockHeader db hash
  | .writeRootBlockHeader header => WriteRootBlockHeader c db header
  | .deleteRootBlockHeader hash => DeleteRootBlockHeader db hash
  | .writeMinorBlock block => WriteMinorBlock c db block
  | .writeRootBlock block => WriteRootBlock c db block
  | .deleteBlock hash => DeleteBlock db hash
  | .writeTd hash td => WriteTd c db hash td
  | .deleteTd hash => DeleteTd db hash
  | .writeReceipts hash receipts => WriteReceipts c db hash receipts
  | .deleteReceipts hash => DeleteReceipts db hash
  | .deleteMinorBlock hash => DeleteMinorBlock db hash
  | .deleteRootBlock hash => DeleteRootBlock db hash

/-- The header numbers in the arguments of an operation are values of the Go type
`uint64`. -/
def Op.InRange : Op → Prop
  | .writeMinorBlockHeader header => header.Number < 2 ^ 64
  | .writeRootBlockHeader header => header.NumberU64 < 2 ^ 64
  | .writeMinorBlock block => block.Header.Number < 2 ^ 64
  | .writeRootBlock block => block.Header.NumberU64 < 2 ^ 64
  | _ => True

/-- Store states reached from an empty store by operations that returned. -/
inductive Reachable (c : Codec) : Database → Prop where
  | empty (writeErr : Key → Bool) : Reachable c (Database.empty writeErr)
  | step (db db1 : Database) (op : Op) : Reachable c db → op.InRange →
      op.run c db = .ok db1 → Reachable c db1

/-- The entry under the header key of `hash` is the encoding of a minor or root header
that has hash `hash` and height `n`. -/
def HeaderOfHeightAt (c : Codec) (db : Database) (hash : Hash) (n : Nat) : Prop :=
  (∃ h : MinorBlockHeader, c.hashMinorHeader h = hash ∧ h.Number = n ∧
      ∃ data, c.serializeMinorHeader h = some data ∧ db.entries (headerKey hash) = some data) ∨
    (∃ h : RootBlockHeader, c.hashRootHeader h = hash ∧ h.NumberU64 = n ∧
      ∃ data, c.serializeRootHeader h = some data ∧ db.entries (headerKey hash) = some data)

/-- Under every hash either both the header entry and the hash-to-number entry are
absent, or the number entry is the 8-byte encoding of a `uint64` and the header
entry is the encoding of a header of that hash and height. -/
def HeaderIndexInv (c : Codec) (db : Database) : Prop :=
  ∀ hash, (db.entries (headerKey hash) = none ∧ db.entries (headerNumberKey hash) = none) ∨
    ∃ n, n < 2 ^ 64 ∧ db.entries (headerNumberKey hash) = some (encodeBlockNumber n) ∧
      HeaderOfHeightAt c db hash n

/-- Decoding inverts encoding on headers, and the encoding of a header is not the
empty byte string. -/
structure Codec.HeaderRoundTrip (c : Codec) : Prop where
  minor : ∀ h data, c.serializeMinorHeader h = some data →
    data ≠ [] ∧ c.deserializeMinorHeader data = some h
  root : ∀ h data, c.serializeRootHeader h = some data →
    data ≠ [] ∧ c.deserializeRootHeader data = some h

/-! ## Notions used in the statements on accessors and resolvers -/

/-- Whether an accessor ended in `log.Crit`. -/
def Outcome.isFatal : Outcome → Bool
  | .ok _ => false
  | .fatal _ => true

/-- Deleting the keys of a list one after the other; the first delete that returns an
error ends the process. -/
def Database.deleteInOrder (db : Database) : List Key → Outcome
  | [] => .ok db
  | k :: ks =>
    match db.Delete k with
    | none => .fatal db
    | some db1 => db1.deleteInOrder ks

/-- Under every hash, a header entry comes with a hash-to-number entry. -/
def HeaderImpliesNumber (db : Database) : Prop :=
  ∀ hash, (db.entries (headerKey hash)).isSome = true →
    (db.entries (headerNumberKey hash)).isSome = true

/-- The store after each key-value operation that WriteMinorBlockHeader issues and
that succeeds, in order. -/
def WriteMinorBlockHeader.states (c : Codec) (db : Database) (header : MinorBlockHeader) :
    List Database :=
  let hash := c.hashMinorHeader header
  let encoded := encodeBlockNumber header.Number
  match db.Put (headerNumberKey hash) encoded with
  | none => []
  | some db1 =>
    db1 ::
      match c.serializeMinorHeader header with
      | none => []
      | some data =>
        match db1.Put (headerKey hash) data with
        | none => []
        | some db2 => [db2]

/-- The store after each key-value operation that WriteRootBlockHeader issues and
that succeeds, in order. -/
def WriteRootBlockHeader.states (c : Codec) (db : Database) (header : RootBlockHeader) :
    List Database :=
  let hash := c.hashRootHeader header
  let encoded := encodeBlockNumber header.NumberU64
  match db.Put (headerNumberKey hash) encoded with
  | none => []
  | some db1 =>
    db1 ::
      match c.serializeRootHeader header with
      | none => []
      | some data =>
        match db1.Put (headerKey hash) data with
        | none => []
        | some db2 => [db2]

/-- The store after each key-value operation that DeleteMinorBlockHeader issues and
that succeeds, in order. -/
def DeleteMinorBlockHeader.states (db : Database) (hash : Hash) : List Database :=
  match db.Delete (headerKey hash) with
  | none => []
  | some db1 =>
    db1 ::
      match db1.Delete (headerNumberKey hash) with
      | none => []
      | some db2 => [db2]

/-- The store after each key-value operation that DeleteRootBlockHeader issues and
that succeeds, in order. -/
def DeleteRootBlockHeader.states (db : Database) (hash : Hash) : List Database :=
  match db.Delete (headerKey hash) with
  | none => []
  | some db1 =>
    db1 ::
      match db1.Delete (headerNumberKey hash) with
      | none => []
      | some db2 => [db2]

/-- Corresponding answers of two runs: both out of fuel, both nil, or headers that
correspond. -/
inductive Exec.Rel {α β : Type} (R : α → β → Prop) : Exec α → Exec β → Prop where
  | timeout : Exec.Rel R .timeout .timeout
  | absent : Exec.Rel R (.ret none) (.ret none)
  | found (a : α) (b : β) : R a b → Exec.Rel R (.ret (some a)) (.ret (some b))

/-- A correspondence `R` between the headers of two hierarchies that preserves height,
hash and parent hash, with parent lookups that correspond. -/
structure Chain.Corresponds {α β : Type} (R : α → β → Prop) (ch1 : Chain α) (ch2 : Chain β) :
    Prop where
  height : ∀ a b, R a b → ch1.height a = ch2.height b
  hash : ∀ a b, R a b → ch1.hash a = ch2.hash b
  parentHash : ∀ a b, R a b → ch1.parentHash a = ch2.parentHash b
  lookup : ∀ k, (ch1.parentLookup k = none ∧ ch2.parentLookup k = none) ∨
    ∃ a b, ch1.parentLookup k = some a ∧ ch2.parentLookup k = some b ∧ R a b

/-! ## Stores given by their content -/

/-- The store whose content is a list of entries (the first entry of a key counts)
and on which every write succeeds. -/
def Database.ofList (l : List (Key × Bytes)) : Database :=
  { entries := fun k => (l.find? fun e => e.1 = k).map Prod.snd
    writeErr := fun _ => false }

/-- The keys and headers that ReadMinorBlockHeader can return on the content `l`. -/
def minorCover (c : Codec) : List (Key × Bytes) → List (Hash × MinorBlockHeader)
  | [] => []
  | (headerKey k, data) :: l =>
    match c.deserializeMinorHeader data with
    | some h => (k, h) :: minorCover c l
    | none => minorCover c l
  | _ :: l => minorCover c l

/-- The keys and headers that ReadRootBlockHeader can return on the content `l`. -/
def rootCover (c : Codec) : List (Key × Bytes) → List (Hash × RootBlockHeader)
  | [] => []
  | (headerKey k, data) :: l =>
    match c.deserializeRootHeader data with
    | some h => (k, h) :: rootCover c l
    | none => rootCover c l
  | _ :: l => rootCover c l

/-- Check of well-formedness on a list of keys and headers: the header hashes to its
key and its parent, when stored, is one lower. -/
def Chain.wellFormedOn {H : Type} (ch : Chain H) (cover : List (Hash × H)) : Bool :=
  cover.all fun e =>
    decide (ch.hash e.2 = e.1) &&
      match ch.parentLookup (ch.parentHash e.2) with
      | some p => decide (ch.height p + 1 = ch.height e.2)
      | none => true

/-- Check that no header within `n` steps of `a` has the hash of a header within `m`
steps of `b`. -/
def Chain.apartWithin {H : Type} (ch : Chain H) (n m : Nat) (a b : H) : Bool :=
  (List.range n).all fun i =>
    (List.range m).all fun j =>
      match ch.ancestorAt i a, ch.ancestorAt j b with
      | some x, some y => decide (ch.hash x ≠ ch.hash y)
      | _, _ => true

/-! ## An example codec and example chains

Used to run the code on concrete inputs. The codec writes a header as its number
(8 bytes), its parent hash (32 bytes) and its other fields; the hash of a header
is the bytewise sum of the 32-byte blocks of that encoding. Root headers use the
same layout. -/

namespace Demo

def toRoot (h : MinorBlockHeader) : RootBlockHeader := ⟨h.Number, h.ParentHash, h.Extra⟩

def toMinor (h : RootBlockHeader) : MinorBlockHeader := ⟨h.Number, h.ParentHash, h.Extra⟩

/-- Bytewise sum of the 32-byte blocks of `data`. -/
def checksum (data : Bytes) : Hash :=
  ⟨(List.range HashLength).map fun i =>
      (List.range (data.length / HashLength + 1)).foldl
        (fun acc k => acc + data.getD (i + HashLength * k) 0) 0,
    by simp⟩

def encodeHeader (h : MinorBlockHeader) : Bytes :=
  putUint64 h.Number ++ (h.ParentHash.Bytes ++ h.Extra)

def serializeHeader (h : MinorBlockHeader) : Option Bytes :=
  if h.Number < 2 ^ 64 then some (encodeHeader h) else none

def deserializeHeader (data : Bytes) : Option MinorBlockHeader :=
  if data.length < 40 then none
  else some ⟨bigEndian (data.take 8), BytesToHash ((data.drop 8).take 32), data.drop 40⟩

def serializeBlock (b : MinorBlock) : Option Bytes :=
  match serializeHeader b.header with
  | none => none
  | some hb => some (putUint64 hb.length ++ (hb ++ b.body))

def deserializeBlock (data : Bytes) : Option MinorBlock :=
  if data.length < 8 + bigEndian (data.take 8) then none
  else
    match deserializeHeader ((data.drop 8).take (bigEndian (data.take 8))) with
    | none => none
    | some h => some ⟨h, data.drop (8 + bigEndian (data.take 8))⟩

def serializeTd (td : Int) : Option Bytes :=
  some ((if td < 0 then 1 else 0) :: bigBytes td.natAbs)

def deserializeTd : Bytes → Option Int
  | [] => none
  | s :: rest => some (if s = 1 then -(bigEndian rest : Int) else (bigEndian rest : Int))

def encodeReceiptList : List Receipt → Bytes
  | [] => []
  | r :: rs => putUint64 r.raw.length ++ (r.raw ++ encodeReceiptList rs)

def decodeReceiptList : Nat → Bytes → Option (List Receipt)
  | _, [] => some []
  | 0, _ :: _ => none
  | fuel + 1, b :: data =>
    if (b :: data).length < 8 + bigEndian ((b :: data).take 8) then none
    else
      match decodeReceiptList fuel ((b :: data).drop (8 + bigEndian ((b :: data).take 8))) with
      | none => none
      | some rs => some (⟨((b :: data).drop 8).take (bigEndian ((b :: data).take 8))⟩ :: rs)

/-- The example codec. -/
def codec : Codec :=
  { hashMinorHeader := fun h => checksum (encodeHeader h)
    hashRootHeader := fun h => checksum (encodeHeader (toMinor h))
    hashMinorBlock := fun b => checksum (encodeHeader b.header)
    hashRootBlock := fun b => checksum (encodeHeader (toMinor b.header))
    serializeMinorHeader := serializeHeader
    deserializeMinorHeader := deserializeHeader
    serializeRootHeader := fun h => serializeHeader (toMinor h)
    deserializeRootHeader := fun data => (deserializeHeader data).map toRoot
    serializeMinorBlock := serializeBlock
    deserializeMinorBlock := deserializeBlock
    serializeRootBlock := fun b => serializeBlock ⟨toMinor b.header, b.body⟩
    deserializeRootBlock := fun data =>
      (deserializeBlock data).map fun b => ⟨toRoot b.header, b.body⟩
    serializeTd := serializeTd
    deserializeTd := deserializeTd
    rlpEncodeReceipts := fun rs => some (192 :: encodeReceiptList rs)
    rlpDecodeReceipts := fun data =>
      match data with
      | [] => none
      | b :: rest => if b = 192 then decodeReceiptList rest.length rest else none }

/-- Header of height 0 on the main chain, with no stored parent. -/
def main0 : MinorBlockHeader :=
  { Number := 0
    ParentHash := BytesToHash
      [0, 0, 0, 0, 0, 0, 0, 0, 0, 0, 0, 0, 0, 0, 0, 0,
       0, 0, 0, 0, 0, 0, 0, 0, 0, 0, 0, 0, 0, 0, 0, 0]
    Extra := [1] }

/-- Header of height 1 on the main chain, child of `main0`. -/
def main1 : MinorBlockHeader :=
  { Number := 1
    ParentHash := BytesToHash
      [0, 0, 0, 0, 0, 0, 0, 0, 1, 0, 0, 0, 0, 0, 0, 0,
       0, 0, 0, 0, 0, 0, 0, 0, 0, 0, 0, 0, 0, 0, 0, 0]
    Extra := [1] }

/-- Header of height 2 on the main chain, child of `main1`. -/
def main2 : MinorBlockHeader :=
  { Number := 2
    ParentHash := BytesToHash
      [0, 0, 0, 0, 0, 0, 0, 1, 1, 0, 0, 0, 0, 0, 0, 0,
       1, 0, 0, 0, 0, 0, 0, 0, 0, 0, 0, 0, 0, 0, 0, 0]
    Extra := [1] }

/-- Header of height 3 on the main chain, child of `main2`. -/
def main3 : MinorBlockHeader :=
  { Number := 3
    ParentHash := BytesToHash
      [0, 0, 0, 0, 0, 0, 0, 2, 1, 0, 0, 0, 0, 0, 0, 1,
       1, 0, 0, 0, 0, 0, 0, 0, 1, 0, 0, 0, 0, 0, 0, 0]
    Extra := [1] }

/-- Header of height 4 on the main chain, child of `main3`. -/
def main4 : MinorBlockHeader :=
  { Number := 4
    ParentHash := BytesToHash
      [1, 0, 0, 0, 0, 0, 0, 3, 1, 0, 0, 0, 0, 0, 0, 2,
       1, 0, 0, 0, 0, 0, 0, 1, 1, 0, 0, 0, 0, 0, 0, 0]
    Extra := [1] }

/-- Header of height 5 on the main chain, child of `main4`. -/
def main5 : MinorBlockHeader :=
  { Number := 5
    ParentHash := BytesToHash
      [1, 0, 0, 0, 0, 0, 0, 4, 2, 0, 0, 0, 0, 0, 0, 3,
       1, 0, 0, 0, 0, 0, 0, 2, 1, 0, 0, 0, 0, 0, 0, 1]
    Extra := [1] }

/-- Header of height 6 on the main chain, child of `main5`. -/
def main6 : MinorBlockHeader :=
  { Number := 6
    ParentHash := BytesToHash
      [1, 0, 0, 0, 0, 0, 0, 6, 2, 0, 0, 0, 0, 0, 0, 4,
       2, 0, 0, 0, 0, 0, 0, 3, 1, 0, 0, 0, 0, 0, 0, 2]
    Extra := [1] }

/-- Header of height 7 on the main chain, child of `main6`. -/
def main7 : MinorBlockHeader :=
  { Number := 7
    ParentHash := BytesToHash
      [1, 0, 0, 0, 0, 0, 0, 8, 2, 0, 0, 0, 0, 0, 0, 6,
       2, 0, 0, 0, 0, 0, 0, 4, 2, 0, 0, 0, 0, 0, 0, 3]
    Extra := [1] }

/-- Header of height 8 on the main chain, child of `main7`. -/
def main8 : MinorBlockHeader :=
  { Number := 8
    ParentHash := BytesToHash
      [2, 0, 0, 0, 0, 0, 0, 10, 2, 0, 0, 0, 0, 0, 0, 8,
       2, 0, 0, 0, 0, 0, 0, 6, 2, 0, 0, 0, 0, 0, 0, 4]
    Extra := [1] }

/-- Header of height 9 on the main chain, child of `main8`. -/
def main9 : MinorBlockHeader :=
  { Number := 9
    ParentHash := BytesToHash
      [2, 0, 0, 0, 0, 0, 0, 12, 3, 0, 0, 0, 0, 0, 0, 10,
       2, 0, 0, 0, 0, 0, 0, 8, 2, 0, 0, 0, 0, 0, 0, 6]
    Extra := [1] }

/-- Header of height 10 on the main chain, child of `main9`. -/
def main10 : MinorBlockHeader :=
  { Number := 10
    ParentHash := BytesToHash
      [2, 0, 0, 0, 0, 0, 0, 15, 3, 0, 0, 0, 0, 0, 0, 12,
       3, 0, 0, 0, 0, 0, 0, 10, 2, 0, 0, 0, 0, 0, 0, 8]
    Extra := [1] }

/-- Header of height 5 on the side chain, child of `main4`. -/
def side5 : MinorBlockHeader :=
  { Number := 5
    ParentHash := BytesToHash
      [1, 0, 0, 0, 0, 0, 0, 4, 2, 0, 0, 0, 0, 0, 0, 3,
       1, 0, 0, 0, 0, 0, 0, 2, 1, 0, 0, 0, 0, 0, 0, 1]
    Extra := [2] }

/-- Header of height 6 on the side chain, child of `side5`. -/
def side6 : MinorBlockHeader :=
  { Number := 6
    ParentHash := BytesToHash
      [1, 0, 0, 0, 0, 0, 0, 6, 3, 0, 0, 0, 0, 0, 0, 4,
       2, 0, 0, 0, 0, 0, 0, 3, 1, 0, 0, 0, 0, 0, 0, 2]
    Extra := [2] }

/-- Header of height 7 on the side chain, child of `side6`. -/
def side7 : MinorBlockHeader :=
  { Number := 7
    ParentHash := BytesToHash
      [1, 0, 0, 0, 0, 0, 0, 8, 3, 0, 0, 0, 0, 0, 0, 6,
       3, 0, 0, 0, 0, 0, 0, 4, 2, 0, 0, 0, 0, 0, 0, 3]
    Extra := [2] }

/-- Header of height 2 whose parent `main0` has height 0. -/
def skipC : MinorBlockHeader :=
  { Number := 2
    ParentHash := BytesToHash
      [0, 0, 0, 0, 0, 0, 0, 0, 1, 0, 0, 0, 0, 0, 0, 0,
       0, 0, 0, 0, 0, 0, 0, 0, 0, 0, 0, 0, 0, 0, 0, 0]
    Extra := [3] }

/-- Header of height 3, child of `skipC`. -/
def skipB : MinorBlockHeader :=
  { Number := 3
    ParentHash := BytesToHash
      [0, 0, 0, 0, 0, 0, 0, 2, 3, 0, 0, 0, 0, 0, 0, 0,
       1, 0, 0, 0, 0, 0, 0, 0, 0, 0, 0, 0, 0, 0, 0, 0]
    Extra := [3] }

/-- Header of height 5 whose parent `skipC` has height 2. -/
def skipA : MinorBlockHeader :=
  { Number := 5
    ParentHash := BytesToHash
      [0, 0, 0, 0, 0, 0, 0, 2, 3, 0, 0, 0, 0, 0, 0, 0,
       1, 0, 0, 0, 0, 0, 0, 0, 0, 0, 0, 0, 0, 0, 0, 0]
    Extra := [4] }

/-- Header of height 100 with no stored parent. -/
def highP : MinorBlockHeader :=
  { Number := 100
    ParentHash := BytesToHash
      [0, 0, 0, 0, 0, 0, 0, 0, 0, 0, 0, 0, 0, 0, 0, 0,
       0, 0, 0, 0, 0, 0, 0, 0, 0, 0, 0, 0, 0, 0, 0, 0]
    Extra := [5] }

/-- Header of height 3 whose parent `highP` has height 100. -/
def lowA : MinorBlockHeader :=
  { Number := 3
    ParentHash := BytesToHash
      [0, 0, 0, 0, 0, 0, 0, 100, 5, 0, 0, 0, 0, 0, 0, 0,
       0, 0, 0, 0, 0, 0, 0, 0, 0, 0, 0, 0, 0, 0, 0, 0]
    Extra := [6] }

/-- Header of height 3 whose parent `highP` has height 100. -/
def lowB : MinorBlockHeader :=
  { Number := 3
    ParentHash := BytesToHash
      [0, 0, 0, 0, 0, 0, 0, 100, 5, 0, 0, 0, 0, 0, 0, 0,
       0, 0, 0, 0, 0, 0, 0, 0, 0, 0, 0, 0, 0, 0, 0, 0]
    Extra := [7] }

/-- Header of height 5 that names as its parent the key it is stored under in `loopStore`. -/
def loopX : MinorBlockHeader :=
  { Number := 5
    ParentHash := BytesToHash
      [0, 0, 0, 0, 0, 0, 0, 0, 0, 0, 0, 0, 0, 0, 0, 0,
       0, 0, 0, 0, 0, 0, 0, 0, 0, 0, 0, 0, 0, 0, 0, 7]
    Extra := [8] }

/-- Header of height 3 with no stored parent. -/
def loopB : MinorBlockHeader :=
  { Number := 3
    ParentHash := BytesToHash
      [0, 0, 0, 0, 0, 0, 0, 0, 0, 0, 0, 0, 0, 0, 0, 0,
       0, 0, 0, 0, 0, 0, 0, 0, 0, 0, 0, 0, 0, 0, 0, 0]
    Extra := [9] }

/-- Header of height 0 of another chain, with no stored parent. -/
def other0 : MinorBlockHeader :=
  { Number := 0
    ParentHash := BytesToHash
      [0, 0, 0, 0, 0, 0, 0, 0, 0, 0, 0, 0, 0, 0, 0, 0,
       0, 0, 0, 0, 0, 0, 0, 0, 0, 0, 0, 0, 0, 0, 0, 0]
    Extra := [10] }

/-- Header of height 1 of another chain, child of `other0`. -/
def other1 : MinorBlockHeader :=
  { Number := 1
    ParentHash := BytesToHash
      [0, 0, 0, 0, 0, 0, 0, 0, 10, 0, 0, 0, 0, 0, 0, 0,
       0, 0, 0, 0, 0, 0, 0, 0, 0, 0, 0, 0, 0, 0, 0, 0]
    Extra := [10] }

/-- A chain of heights 0 to 10 and a side chain of heights 5 to 7 that leaves it after
height 4, each header under its own hash. -/
def forkContent : List (Key × Bytes) :=
  [(headerKey (BytesToHash
      [0, 0, 0, 0, 0, 0, 0, 0, 1, 0, 0, 0, 0, 0, 0, 0,
       0, 0, 0, 0, 0, 0, 0, 0, 0, 0, 0, 0, 0, 0, 0, 0]),
    encodeHeader main0),
   (headerKey (BytesToHash
      [0, 0, 0, 0, 0, 0, 0, 1, 1, 0, 0, 0, 0, 0, 0, 0,
       1, 0, 0, 0, 0, 0, 0, 0, 0, 0, 0, 0, 0, 0, 0, 0]),
    encodeHeader main1),
   (headerKey (BytesToHash
      [0, 0, 0, 0, 0, 0, 0, 2, 1, 0, 0, 0, 0, 0, 0, 1,
       1, 0, 0, 0, 0, 0, 0, 0, 1, 0, 0, 0, 0, 0, 0, 0]),
    encodeHeader main2),
   (headerKey (BytesToHash
      [1, 0, 0, 0, 0, 0, 0, 3, 1, 0, 0, 0, 0, 0, 0, 2,
       1, 0, 0, 0, 0, 0, 0, 1, 1, 0, 0, 0, 0, 0, 0, 0]),
    encodeHeader main3),
   (headerKey (BytesToHash
      [1, 0, 0, 0, 0, 0, 0, 4, 2, 0, 0, 0, 0, 0, 0, 3,
       1, 0, 0, 0, 0, 0, 0, 2, 1, 0, 0, 0, 0, 0, 0, 1]),
    encodeHeader main4),
   (headerKey (BytesToHash
      [1, 0, 0, 0, 0, 0, 0, 6, 2, 0, 0, 0, 0, 0, 0, 4,
       2, 0, 0, 0, 0, 0, 0, 3, 1, 0, 0, 0, 0, 0, 0, 2]),
    encodeHeader main5),
   (headerKey (BytesToHash
      [1, 0, 0, 0, 0, 0, 0, 8, 2, 0, 0, 0, 0, 0, 0, 6,
       2, 0, 0, 0, 0, 0, 0, 4, 2, 0, 0, 0, 0, 0, 0, 3]),
    encodeHeader main6),
   (headerKey (BytesToHash
      [2, 0, 0, 0, 0, 0, 0, 10, 2, 0, 0, 0, 0, 0, 0, 8,
       2, 0, 0, 0, 0, 0, 0, 6, 2, 0, 0, 0, 0, 0, 0, 4]),
    encodeHeader main7),
   (headerKey (BytesToHash
      [2, 0, 0, 0, 0, 0, 0, 12, 3, 0, 0, 0, 0, 0, 0, 10,
       2, 0, 0, 0, 0, 0, 0, 8, 2, 0, 0, 0, 0, 0, 0, 6]),
    encodeHeader main8),
   (headerKey (BytesToHash
      [2, 0, 0, 0, 0, 0, 0, 15, 3, 0, 0, 0, 0, 0, 0, 12,
       3, 0, 0, 0, 0, 0, 0, 10, 2, 0, 0, 0, 0, 0, 0, 8]),
    encodeHeader main9),
   (headerKey (BytesToHash
      [2, 0, 0, 0, 0, 0, 0, 18, 3, 0, 0, 0, 0, 0, 0, 15,
       3, 0, 0, 0, 0, 0, 0, 12, 3, 0, 0, 0, 0, 0, 0, 10]),
    encodeHeader main10),
   (headerKey (BytesToHash
      [1, 0, 0, 0, 0, 0, 0, 6, 3, 0, 0, 0, 0, 0, 0, 4,
       2, 0, 0, 0, 0, 0, 0, 3, 1, 0, 0, 0, 0, 0, 0, 2]),
    encodeHeader side5),
   (headerKey (BytesToHash
      [1, 0, 0, 0, 0, 0, 0, 8, 3, 0, 0, 0, 0, 0, 0, 6,
       3, 0, 0, 0, 0, 0, 0, 4, 2, 0, 0, 0, 0, 0, 0, 3]),
    encodeHeader side6),
   (headerKey (BytesToHash
      [2, 0, 0, 0, 0, 0, 0, 10, 3, 0, 0, 0, 0, 0, 0, 8,
       3, 0, 0, 0, 0, 0, 0, 6, 3, 0, 0, 0, 0, 0, 0, 4]),
    encodeHeader side7)]

def forkStore : Database := Database.ofList forkContent

/-- Four headers under their own hashes; `skipC` and `skipA` are more than one above
their parents. -/
def skipContent : List (Key × Bytes) :=
  [(headerKey (BytesToHash
      [0, 0, 0, 0, 0, 0, 0, 0, 1, 0, 0, 0, 0, 0, 0, 0,
       0, 0, 0, 0, 0, 0, 0, 0, 0, 0, 0, 0, 0, 0, 0, 0]),
    encodeHeader main0),
   (headerKey (BytesToHash
      [0, 0, 0, 0, 0, 0, 0, 2, 3, 0, 0, 0, 0, 0, 0, 0,
       1, 0, 0, 0, 0, 0, 0, 0, 0, 0, 0, 0, 0, 0, 0, 0]),
    encodeHeader skipC),
   (headerKey (BytesToHash
      [0, 0, 0, 0, 0, 0, 0, 3, 3, 0, 0, 0, 0, 0, 0, 2,
       3, 0, 0, 0, 0, 0, 0, 0, 1, 0, 0, 0, 0, 0, 0, 0]),
    encodeHeader skipB),
   (headerKey (BytesToHash
      [0, 0, 0, 0, 0, 0, 0, 5, 4, 0, 0, 0, 0, 0, 0, 2,
       3, 0, 0, 0, 0, 0, 0, 0, 1, 0, 0, 0, 0, 0, 0, 0]),
    encodeHeader skipA)]

def skipStore : Database := Database.ofList skipContent

/-- Three headers under their own hashes; the parent of `lowA` and `lowB` is higher
than they are. -/
def highContent : List (Key × Bytes) :=
  [(headerKey (BytesToHash
      [0, 0, 0, 0, 0, 0, 0, 100, 5, 0, 0, 0, 0, 0, 0, 0,
       0, 0, 0, 0, 0, 0, 0, 0, 0, 0, 0, 0, 0, 0, 0, 0]),
    encodeHeader highP),
   (headerKey (BytesToHash
      [0, 0, 0, 0, 0, 0, 0, 3, 6, 0, 0, 0, 0, 0, 0, 100,
       5, 0, 0, 0, 0, 0, 0, 0, 0, 0, 0, 0, 0, 0, 0, 0]),
    encodeHeader lowA),
   (headerKey (BytesToHash
      [0, 0, 0, 0, 0, 0, 0, 3, 7, 0, 0, 0, 0, 0, 0, 100,
       5, 0, 0, 0, 0, 0, 0, 0, 0, 0, 0, 0, 0, 0, 0, 0]),
    encodeHeader lowB)]

def highStore : Database := Database.ofList highContent

/-- One entry: `loopX` stored under the key that it names as its parent. -/
def loopContent : List (Key × Bytes) :=
  [(headerKey (BytesToHash
      [0, 0, 0, 0, 0, 0, 0, 0, 0, 0, 0, 0, 0, 0, 0, 0,
       0, 0, 0, 0, 0, 0, 0, 0, 0, 0, 0, 0, 0, 0, 0, 7]),
    encodeHeader loopX)]

def loopStore : Database := Database.ofList loopContent

/-- Two chains with no header in common, of heights 0 to 2 and 0 to 1, each header
under its own hash. -/
def smallContent : List (Key × Bytes) :=
  [(headerKey (BytesToHash
      [0, 0, 0, 0, 0, 0, 0, 0, 1, 0, 0, 0, 0, 0, 0, 0,
       0, 0, 0, 0, 0, 0, 0, 0, 0, 0, 0, 0, 0, 0, 0, 0]),
    encodeHeader main0),
   (headerKey (BytesToHash
      [0, 0, 0, 0, 0, 0, 0, 1, 1, 0, 0, 0, 0, 0, 0, 0,
       1, 0, 0, 0, 0, 0, 0, 0, 0, 0, 0, 0, 0, 0, 0, 0]),
    encodeHeader main1),
   (headerKey (BytesToHash
      [0, 0, 0, 0, 0, 0, 0, 2, 1, 0, 0, 0, 0, 0, 0, 1,
       1, 0, 0, 0, 0, 0, 0, 0, 1, 0, 0, 0, 0, 0, 0, 0]),
    encodeHeader main2),
   (headerKey (BytesToHash
      [0, 0, 0, 0, 0, 0, 0, 0, 10, 0, 0, 0, 0, 0, 0, 0,
       0, 0, 0, 0, 0, 0, 0, 0, 0, 0, 0, 0, 0, 0, 0, 0]),
    encodeHeader other0),
   (headerKey (BytesToHash
      [0, 0, 0, 0, 0, 0, 0, 1, 10, 0, 0, 0, 0, 0, 0, 0,
       10, 0, 0, 0, 0, 0, 0, 0, 0, 0, 0, 0, 0, 0, 0, 0]),
    encodeHeader other1)]

def smallStore : Database := Database.ofList smallContent

/-- A chain type for the examples. -/
def Shard0 : ChainType := 1

/-- A hash for the examples. -/
def H5 : Hash := BytesToHash [5]

/-- The store after a run of five accessor operations on the empty store. -/
def indexStore : Database :=
  (Op.run codec
    (Op.run codec
      (Op.run codec
        (Op.run codec
          (Op.run codec (Database.empty fun _ => false)
            (.writeMinorBlockHeader main0)).state
          (.writeRootBlock ⟨toRoot main1, [1, 2, 3]⟩)).state
        (.writeHeadHeaderHash H5)).state
      (.deleteMinorBlock (codec.hashMinorHeader main0))).state
    (.writeTd (codec.hashRootHeader (toRoot main1)) 12)).state

/-- Header of height 5 that names `main1` as its parent; it is in no example store. -/
def ghost : MinorBlockHeader :=
  { Number := 5
    ParentHash := BytesToHash
      [0, 0, 0, 0, 0, 0, 0, 1, 1, 0, 0, 0, 0, 0, 0, 0,
       1, 0, 0, 0, 0, 0, 0, 0, 0, 0, 0, 0, 0, 0, 0, 0]
    Extra := [9] }

/-- An empty store on which every write to the hash-to-number key of `main0` returns an
error. -/
def faultyStore : Database :=
  { entries := fun _ => none
    writeErr := fun k => k = headerNumberKey (codec.hashMinorHeader main0) }

/-- Three receipts for the examples. -/
def receipts3 : Receipts := [⟨[1, 2]⟩, ⟨[]⟩, ⟨[7]⟩]

end Demo

end Rawdb

/-! # The block-sync scheduler (`sync.go`) -/

namespace Sync

/-- Modelled from the spec: the `Task` interface is declared in a file that is not among
the sources; a task has the identity of its peer (`Peer().id()`), a priority
(`Priority()`, a `uint`) and an execution procedure (`Run`), here a label. -/
structure Task where
  Peer : String
  Priority : Nat
  Run : Nat
deriving DecidableEq

/-- The Go map `taskMap`, from peer identity to task, as a list of its entries. -/
abbrev TaskMap := List (String × Task)

/-- The assignment `taskMap[key] = task`. -/
def TaskMap.set (taskMap : TaskMap) (key : String) (task : Task) : TaskMap :=
  (key, task) :: taskMap.filter fun e => e.1 ≠ key

/-- The call `delete(taskMap, key)`. -/
def TaskMap.delete (taskMap : TaskMap) (key : String) : TaskMap :=
  taskMap.filter fun e => e.1 ≠ key

/-- The tasks of the map. -/
def TaskMap.tasks (taskMap : TaskMap) : List Task := taskMap.map Prod.snd

/-- Keys of the map are distinct and each task is filed under the identity of its
peer. -/
def TaskMap.Inv (m : TaskMap) : Prop :=
  (m.map Prod.fst).Nodup ∧ ∀ e ∈ m, e.1 = e.2.Peer

/-- The `for _, t := range taskMap` loop of getNextTask over the tasks still to come,
with the current values of `ret` (`none` is nil) and `prio`. -/
def getNextTask.range : List Task → Option Task → Nat → Option Task
  | [], ret, _ => ret
  | t :: rest, ret, prio =>
    let newPrio := t.Priority
    if ret = none ∨ newPrio > prio then getNextTask.range rest (some t) newPrio
    else getNextTask.range rest ret prio

/-- Find the next task according to their priorities. A Go map is ranged over in an
order chosen by the runtime; `order` is the sequence in which the tasks of the
map come. -/
def getNextTask (order : List Task) : Option Task :=
  getNextTask.range order none 0

/-- State of `synchronizer.loop`: running with its task map, or returned. -/
inductive LoopState where
  | running (taskMap : TaskMap)
  | closed

/-- The case of the `select` statement that proceeds. -/
inductive Select where
  | taskRecvCh (task : Task)
  | assignCh
  | abortCh

/-- What an iteration of the loop did: it received a task, handed a task to the
worker, or saw the abort signal. -/
inductive Event where
  | recv (task : Task)
  | dispatch (task : Task)
  | abort
deriving DecidableEq

/-- One iteration of the `for` loop of `synchronizer.loop`, given the order in which
getNextTask ranges over the map and the case of the `select` that proceeds;
`none` when that case cannot proceed (with an empty map `assignCh` is nil, and
a send on a nil channel blocks). -/
def loopBody (taskMap : TaskMap) (order : List Task) (sel : Select) :
    Option (LoopState × Event) :=
  let currTask : Option Task := if taskMap.length > 0 then getNextTask order else none
  let assignOpen : Bool := taskMap.length > 0
  match sel with
  | .taskRecvCh task => some (.running (taskMap.set task.Peer task), .recv task)
  | .assignCh =>
    if assignOpen then
      match currTask with
      | some t => some (.running (taskMap.delete t.Peer), .dispatch t)
      | none => none
    else none
  | .abortCh => some (.closed, .abort)

/-- A step of the loop: an iteration from a running state, for some order of ranging
over the map. -/
def Step (s : LoopState) (e : Event) (s1 : LoopState) : Prop :=
  ∃ taskMap order sel, s = .running taskMap ∧ order.Perm taskMap.tasks ∧
    loopBody taskMap order sel = some (s1, e)

/-- Runs of the loop, with the events in the order they occur. -/
inductive Trace : LoopState → List Event → LoopState → Prop where
  | nil (s : LoopState) : Trace s [] s
  | cons (s s1 s2 : LoopState) (e : Event) (es : List Event) :
      Step s e s1 → Trace s1 es s2 → Trace s (e :: es) s2

/-- The state in which the loop starts: `taskMap := make(map[string]Task)`. -/
def LoopState.init : LoopState := .running []

/-- The tasks of peer `p` handed to the worker in a run, in order. -/
def dispatchedOf (p : String) : List Event → List Task
  | [] => []
  | .dispatch t :: es => if t.Peer = p then t :: dispatchedOf p es else dispatchedOf p es
  | _ :: es => dispatchedOf p es

end Sync

/-! # Theorems -/

namespace Rawdb

open Key

/-! ## Lemmas on the resolver -/

theorem minorLoopA_eq (c : Codec) (db : Database) (bn fuel : Nat) (a : MinorBlockHeader) :
    minorLoopA c db bn fuel a = (minorChain c db).descend bn fuel a := by
  induction fuel generalizing a with
  | zero => rfl
  | succ n ih =>
    simp only [minorLoopA, Chain.descend, minorChain]
    split
    · cases hr : ReadMinorBlockHeader c db a.ParentHash with
      | none => rfl
      | some a1 => simpa [minorChain] using ih a1
    · rfl

theorem minorLoopB_eq (c : Codec) (db : Database) (an fuel : Nat) (b : MinorBlockHeader) :
    minorLoopB c db an fuel b = (minorChain c db).descend an fuel b := by
  induction fuel generalizing b with
  | zero => rfl
  | succ n ih =>
    simp only [minorLoopB, Chain.descend, minorChain, gt_iff_lt]
    split
    · cases hr : ReadMinorBlockHeader c db b.ParentHash with
      | none => rfl
      | some b1 => simpa [minorChain] using ih b1
    · rfl

theorem minorLoopAB_eq (c : Codec) (db : Database) (fuel : Nat) (a b : MinorBlockHeader) :
    minorLoopAB c db fuel a b = (minorChain c db).lockstep fuel a b := by
  induction fuel generalizing a b with
  | zero => rfl
  | succ n ih =>
    simp only [minorLoopAB, Chain.lockstep, minorChain]
    split
    · cases hr : ReadMinorBlockHeader c db a.ParentHash with
      | none => rfl
      | some a1 =>
        cases hs : ReadMinorBlockHeader c db b.ParentHash with
        | none => rfl
        | some b1 => simpa [minorChain] using ih a1 b1
    · rfl

theorem FindCommonMinorAncestor_eq (c : Codec) (db : Database) (fuel : Nat)
    (a b : MinorBlockHeader) :
    FindCommonMinorAncestor c db fuel a b = (minorChain c db).resolve fuel a b := by
  have hh : ∀ x : MinorBlockHeader, (minorChain c db).height x = x.Number := fun _ => rfl
  simp only [FindCommonMinorAncestor, Chain.resolve, minorLoopA_eq, minorLoopB_eq,
    minorLoopAB_eq, hh]
  rcases (minorChain c db).descend b.Number fuel a with _ | _ | a1
  · rfl
  · rfl
  · dsimp only
    rcases (minorChain c db).descend a1.Number fuel b with _ | _ | b1 <;> rfl

theorem rootLoopA_eq (c : Codec) (db : Database) (bn fuel : Nat) (a : RootBlockHeader) :
    rootLoopA c db bn fuel a = (rootChain c db).descend bn fuel a := by
  induction fuel generalizing a with
  | zero => rfl
  | succ n ih =>
    simp only [rootLoopA, Chain.descend, rootChain]
    split
    · cases hr : ReadRootBlockHeader c db a.ParentHash with
      | none => rfl
      | some a1 => simpa [rootChain] using ih a1
    · rfl

theorem rootLoopB_eq (c : Codec) (db : Database) (an fuel : Nat) (b : RootBlockHeader) :
    rootLoopB c db an fuel b = (rootChain c db).descend an fuel b := by
  induction fuel generalizing b with
  | zero => rfl
  | succ n ih =>
    simp only [rootLoopB, Chain.descend, rootChain, gt_iff_lt]
    split
    · cases hr : ReadRootBlockHeader c db b.ParentHash with
      | none => rfl
      | some b1 => simpa [rootChain] using ih b1
    · rfl

theorem rootLoopAB_eq (c : Codec) (db : Database) (fuel : Nat) (a b : RootBlockHeader) :
    rootLoopAB c db fuel a b = (rootChain c db).lockstep fuel a b := by
  induction fuel generalizing a b with
  | zero => rfl
  | succ n ih =>
    simp only [rootLoopAB, Chain.lockstep, rootChain]
    split
    · cases hr : ReadRootBlockHeader c db a.ParentHash with
      | none => rfl
      | some a1 =>
        cases hs : ReadRootBlockHeader c db b.ParentHash with
        | none => rfl
        | some b1 => simpa [rootChain] using ih a1 b1
    · rfl

theorem FindCommonRootAncestor_eq (c : Codec) (db : Database) (fuel : Nat)
    (a b : RootBlockHeader) :
    FindCommonRootAncestor c db fuel a b = (rootChain c db).resolve fuel a b := by
  have hh : ∀ x : RootBlockHeader, (rootChain c db).height x = x.NumberU64 := fun _ => rfl
  simp only [FindCommonRootAncestor, Chain.resolve, rootLoopA_eq, rootLoopB_eq,
    rootLoopAB_eq, hh]
  rcases (rootChain c db).descend b.NumberU64 fuel a with _ | _ | a1
  · rfl
  · rfl
  · dsimp only
    rcases (rootChain c db).descend a1.NumberU64 fuel b with _ | _ | b1 <;> rfl

namespace Chain

variable {H : Type} (ch : Chain H)

theorem ancestorAt_succ_of_lookup {x p : H} (n : Nat)
    (h : ch.parentLookup (ch.parentHash x) = some p) :
    ch.ancestorAt (n + 1) x = ch.ancestorAt n p := by
  simp [ancestorAt, h]

theorem ancestorAt_succ_of_absent {x : H} (n : Nat)
    (h : ch.parentLookup (ch.parentHash x) = none) :
    ch.ancestorAt (n + 1) x = none := by
  simp [ancestorAt, h]

/-- Walking `n` steps and then `m` steps is walking `n + m` steps. -/
theorem ancestorAt_add {x y : H} (n m : Nat) (h : ch.ancestorAt n x = some y) :
    ch.ancestorAt (n + m) x = ch.ancestorAt m y := by
  induction n generalizing x with
  | zero =>
    simp only [ancestorAt, Option.some.injEq] at h
    subst h
    simp
  | succ n ih =>
    cases hp : ch.parentLookup (ch.parentHash x) with
    | none => simp [ancestorAt, hp] at h
    | some p =>
      rw [ch.ancestorAt_succ_of_lookup n hp] at h
      have : n + 1 + m = (n + m) + 1 := by omega
      rw [this, ch.ancestorAt_succ_of_lookup (n + m) hp]
      exact ih h

theorem ancestorAt_none_mono {x : H} {n m : Nat} (hnm : n ≤ m)
    (h : ch.ancestorAt n x = none) : ch.ancestorAt m x = none := by
  induction n generalizing x m with
  | zero => simp [ancestorAt] at h
  | succ n ih =>
    obtain ⟨m, rfl⟩ : ∃ k, m = k + 1 := ⟨m - 1, by omega⟩
    cases hp : ch.parentLookup (ch.parentHash x) with
    | none => exact ch.ancestorAt_succ_of_absent m hp
    | some p =>
      rw [ch.ancestorAt_succ_of_lookup n hp] at h
      rw [ch.ancestorAt_succ_of_lookup m hp]
      exact ih (by omega) h

theorem onChain_refl (a : H) : ch.OnChain a a := ⟨0, rfl⟩

theorem onChain_trans {a x y : H} (h1 : ch.OnChain a x) (h2 : ch.OnChain x y) :
    ch.OnChain a y := by
  obtain ⟨n, hn⟩ := h1
  obtain ⟨m, hm⟩ := h2
  exact ⟨n + m, by rw [ch.ancestorAt_add n m hn, hm]⟩

theorem onChain_of_lookup {x p : H} (h : ch.parentLookup (ch.parentHash x) = some p) :
    ch.OnChain x p :=
  ⟨1, by simp [ancestorAt, h]⟩

/-- The chain of a header on a chain that ends within `n` steps ends within `n` steps. -/
theorem ancestorAt_none_of_onChain {a x : H} {n : Nat} (hx : ch.OnChain a x)
    (h : ch.ancestorAt n a = none) : ch.ancestorAt n x = none := by
  obtain ⟨k, hk⟩ := hx
  have h1 : ch.ancestorAt (k + n) a = none := ch.ancestorAt_none_mono (by omega) h
  rwa [ch.ancestorAt_add k n hk] at h1

/-! ### What a returned header is -/

theorem descend_ret {bound fuel : Nat} {x y : H}
    (h : ch.descend bound fuel x = .ret (some y)) :
    ch.OnChain x y ∧ ch.height y ≤ bound := by
  induction fuel generalizing x with
  | zero =>
    simp only [descend] at h
    split at h
    · cases h
    · simp only [Exec.ret.injEq, Option.some.injEq] at h
      subst h
      exact ⟨onChain_refl ch x, by omega⟩
  | succ n ih =>
    simp only [descend] at h
    split at h
    · cases hp : ch.parentLookup (ch.parentHash x) with
      | none => simp [hp] at h
      | some p =>
        simp only [hp] at h
        obtain ⟨h1, h2⟩ := ih h
        exact ⟨onChain_trans ch (onChain_of_lookup ch hp) h1, h2⟩
    · simp only [Exec.ret.injEq, Option.some.injEq] at h
      subst h
      exact ⟨onChain_refl ch x, by omega⟩

theorem lockstep_ret {fuel : Nat} {a b r : H}
    (h : ch.lockstep fuel a b = .ret (some r)) :
    ∃ n y, ch.ancestorAt n a = some r ∧ ch.ancestorAt n b = some y ∧ ch.hash r = ch.hash y := by
  induction fuel generalizing a b with
  | zero =>
    simp only [lockstep] at h
    split at h
    · cases h
    · rename_i hne
      simp only [Exec.ret.injEq, Option.some.injEq] at h
      subst h
      exact ⟨0, b, rfl, rfl, by simpa using hne⟩
  | succ n ih =>
    simp only [lockstep] at h
    split at h
    · cases hp : ch.parentLookup (ch.parentHash a) with
      | none => simp [hp] at h
      | some p =>
        cases hq : ch.parentLookup (ch.parentHash b) with
        | none => simp [hp, hq] at h
        | some q =>
          simp only [hp, hq] at h
          obtain ⟨k, y, h1, h2, h3⟩ := ih h
          exact ⟨k + 1, y, by rw [ch.ancestorAt_succ_of_lookup k hp, h1],
            by rw [ch.ancestorAt_succ_of_lookup k hq, h2], h3⟩
    · rename_i hne
      simp only [Exec.ret.injEq, Option.some.injEq] at h
      subst h
      exact ⟨0, b, rfl, rfl, by simpa using hne⟩

/-- The three loops of `resolve`, taken apart. -/
theorem resolve_ret {fuel : Nat} {a b r : H} (h : ch.resolve fuel a b = .ret (some r)) :
    ∃ a1 b1, ch.descend (ch.height b) fuel a = .ret (some a1) ∧
      ch.descend (ch.height a1) fuel b = .ret (some b1) ∧
      ch.lockstep fuel a1 b1 = .ret (some r) := by
  simp only [resolve] at h
  rcases h1 : ch.descend (ch.height b) fuel a with _ | _ | a1
  · simp [h1] at h
  · simp [h1] at h
  · simp only [h1] at h
    rcases h2 : ch.descend (ch.height a1) fuel b with _ | _ | b1
    · simp [h2] at h
    · simp [h2] at h
    · simp only [h2] at h
      exact ⟨a1, b1, rfl, h2, h⟩

/-- A returned header lies on the chain of `a` and carries the hash of a header on the
chain of `b`. -/
theorem resolve_sound {fuel : Nat} {a b r : H} (h : ch.resolve fuel a b = .ret (some r)) :
    ch.OnChain a r ∧ ∃ y, ch.OnChain b y ∧ ch.hash y = ch.hash r := by
  obtain ⟨a1, b1, h1, h2, h3⟩ := ch.resolve_ret h
  obtain ⟨n, y, hr, hy, hh⟩ := ch.lockstep_ret h3
  exact ⟨onChain_trans ch (ch.descend_ret h1).1 ⟨n, hr⟩,
    y, onChain_trans ch (ch.descend_ret h2).1 ⟨n, hy⟩, hh.symm⟩

/-! ### Termination on chains that end -/

theorem descend_terminates (bound : Nat) {n fuel : Nat} {x : H} (hx : ch.ancestorAt n x = none)
    (hf : n ≤ fuel) : ∃ r, ch.descend bound fuel x = .ret r := by
  induction n generalizing x fuel with
  | zero => simp [ancestorAt] at hx
  | succ n ih =>
    obtain ⟨fuel, rfl⟩ : ∃ k, fuel = k + 1 := ⟨fuel - 1, by omega⟩
    simp only [descend]
    split
    · cases hp : ch.parentLookup (ch.parentHash x) with
      | none => exact ⟨none, rfl⟩
      | some p =>
        rw [ch.ancestorAt_succ_of_lookup n hp] at hx
        exact ih hx (by omega)
    · exact ⟨_, rfl⟩

theorem lockstep_terminates {n fuel : Nat} {a : H} (b : H) (ha : ch.ancestorAt n a = none)
    (hf : n ≤ fuel) : ∃ r, ch.lockstep fuel a b = .ret r := by
  induction n generalizing a b fuel with
  | zero => simp [ancestorAt] at ha
  | succ n ih =>
    obtain ⟨fuel, rfl⟩ : ∃ k, fuel = k + 1 := ⟨fuel - 1, by omega⟩
    simp only [lockstep]
    split
    · cases hp : ch.parentLookup (ch.parentHash a) with
      | none => exact ⟨none, rfl⟩
      | some p =>
        cases hq : ch.parentLookup (ch.parentHash b) with
        | none => exact ⟨none, rfl⟩
        | some q =>
          rw [ch.ancestorAt_succ_of_lookup n hp] at ha
          exact ih q ha (by omega)
    · exact ⟨_, rfl⟩

/-- When the parent chains of `a` and `b` end within `n` and `m` lookups, `resolve`
returns with fuel `max n m`. -/
theorem resolve_terminates {n m fuel : Nat} {a b : H} (ha : ch.ancestorAt n a = none)
    (hb : ch.ancestorAt m b = none) (hn : n ≤ fuel) (hm : m ≤ fuel) :
    ∃ r, ch.resolve fuel a b = .ret r := by
  simp only [resolve]
  obtain ⟨r1, h1⟩ := ch.descend_terminates (ch.height b) ha hn
  rw [h1]
  cases r1 with
  | none => exact ⟨none, rfl⟩
  | some a1 =>
    obtain ⟨r2, h2⟩ := ch.descend_terminates (ch.height a1) hb hm
    simp only [h2]
    cases r2 with
    | none => exact ⟨none, rfl⟩
    | some b1 =>
      have ha1 : ch.ancestorAt n a1 = none :=
        ch.ancestorAt_none_of_onChain (ch.descend_ret h1).1 ha
      exact ch.lockstep_terminates b1 ha1 hn

/-! ### Well-formed stores -/

variable {ch}

theorem stored_of_lookup (wf : ch.WellFormed) {k : Hash} {h : H}
    (hl : ch.parentLookup k = some h) : ch.Stored h := by
  have := wf.ownHash k h hl
  unfold Stored
  rw [this, hl]

theorem stored_eq_of_hash {x y : H} (hx : ch.Stored x) (hy : ch.Stored y)
    (h : ch.hash x = ch.hash y) : x = y := by
  unfold Stored at hx hy
  rw [h, hy] at hx
  exact (Option.some.inj hx).symm

theorem height_ancestorAt (wf : ch.WellFormed) {n : Nat} {a x : H}
    (ha : ch.Stored a) (h : ch.ancestorAt n a = some x) :
    ch.height x + n = ch.height a ∧ ch.Stored x := by
  induction n generalizing a with
  | zero =>
    simp only [ancestorAt, Option.some.injEq] at h
    subst h
    exact ⟨rfl, ha⟩
  | succ n ih =>
    cases hp : ch.parentLookup (ch.parentHash a) with
    | none => simp [ancestorAt, hp] at h
    | some p =>
      rw [ch.ancestorAt_succ_of_lookup n hp] at h
      obtain ⟨h1, h2⟩ := ih (stored_of_lookup wf hp) h
      have := wf.parentHeight _ a p ha hp
      exact ⟨by omega, h2⟩

theorem descend_noop {bound : Nat} (fuel : Nat) {x : H} (h : ch.height x ≤ bound) :
    ch.descend bound fuel x = .ret (some x) := by
  cases fuel <;> simp [descend, Nat.not_lt.mpr h]

/-- First and second loop on a well-formed store, towards a header `c` on the chain. -/
theorem descend_to (wf : ch.WellFormed) (bound : Nat) {i : Nat} {a c : H}
    (ha : ch.Stored a) (hc : ch.ancestorAt i a = some c) (hb : ch.height c ≤ bound) :
    ∃ k a1, k ≤ i ∧ (∀ fuel, i ≤ fuel → ch.descend bound fuel a = .ret (some a1)) ∧
      ch.ancestorAt k a = some a1 ∧ ch.ancestorAt (i - k) a1 = some c ∧
      (bound ≤ ch.height a → ch.height a1 = bound) := by
  induction i generalizing a with
  | zero =>
    have hca : c = a := by simpa [ancestorAt] using hc.symm
    subst hca
    exact ⟨0, c, le_refl _, fun fuel _ => descend_noop fuel hb, rfl, rfl, fun h => by omega⟩
  | succ i ih =>
    by_cases hgt : ch.height a > bound
    · cases hp : ch.parentLookup (ch.parentHash a) with
      | none => simp [ancestorAt, hp] at hc
      | some p =>
        rw [ch.ancestorAt_succ_of_lookup i hp] at hc
        obtain ⟨k, a1, hk, hrun, hk1, hk2, hk3⟩ := ih (stored_of_lookup wf hp) hc
        have hh := wf.parentHeight _ a p ha hp
        refine ⟨k + 1, a1, by omega, ?_, ?_, ?_, ?_⟩
        · intro fuel hf
          obtain ⟨fuel, rfl⟩ : ∃ f, fuel = f + 1 := ⟨fuel - 1, by omega⟩
          simp only [descend, hgt, if_true, hp]
          exact hrun fuel (by omega)
        · rw [ch.ancestorAt_succ_of_lookup k hp, hk1]
        · have : i + 1 - (k + 1) = i - k := by omega
          rw [this, hk2]
        · intro _
          exact hk3 (by omega)
    · have hle : ch.height a ≤ bound := by omega
      exact ⟨0, a, by omega, fun fuel _ => descend_noop fuel hle, rfl, hc, fun h => by omega⟩

/-- Third loop on a well-formed store, from two stored headers with a common
header `c` at the same distance. -/
theorem lockstep_to (wf : ch.WellFormed) {n : Nat} {a b c : H}
    (ha : ch.Stored a) (hb : ch.Stored b) (hca : ch.ancestorAt n a = some c)
    (hcb : ch.ancestorAt n b = some c) :
    ∃ k r, k ≤ n ∧ (∀ fuel, n ≤ fuel → ch.lockstep fuel a b = .ret (some r)) ∧
      ch.ancestorAt k a = some r ∧ ch.ancestorAt k b = some r ∧
      ch.ancestorAt (n - k) r = some c := by
  induction n generalizing a b with
  | zero =>
    have h1 : c = a := by simpa [ancestorAt] using hca.symm
    have h2 : c = b := by simpa [ancestorAt] using hcb.symm
    subst h1
    subst h2
    refine ⟨0, c, le_refl _, ?_, rfl, rfl, rfl⟩
    intro fuel _
    cases fuel <;> simp [lockstep]
  | succ n ih =>
    by_cases hne : ch.hash a ≠ ch.hash b
    · cases hp : ch.parentLookup (ch.parentHash a) with
      | none => simp [ancestorAt, hp] at hca
      | some p =>
        cases hq : ch.parentLookup (ch.parentHash b) with
        | none => simp [ancestorAt, hq] at hcb
        | some q =>
          rw [ch.ancestorAt_succ_of_lookup n hp] at hca
          rw [ch.ancestorAt_succ_of_lookup n hq] at hcb
          obtain ⟨k, r, hk, hrun, h1, h2, h3⟩ :=
            ih (stored_of_lookup wf hp) (stored_of_lookup wf hq) hca hcb
          refine ⟨k + 1, r, by omega, ?_, ?_, ?_, ?_⟩
          · intro fuel hf
            obtain ⟨fuel, rfl⟩ : ∃ f, fuel = f + 1 := ⟨fuel - 1, by omega⟩
            simp only [lockstep, if_pos hne, hp, hq]
            exact hrun fuel (by omega)
          · rw [ch.ancestorAt_succ_of_lookup k hp, h1]
          · rw [ch.ancestorAt_succ_of_lookup k hq, h2]
          · have : n + 1 - (k + 1) = n - k := by omega
            rw [this, h3]
    · have heq : ch.hash a = ch.hash b := by simpa using hne
      have hab : a = b := stored_eq_of_hash ha hb heq
      subst hab
      refine ⟨0, a, by omega, ?_, rfl, rfl, hca⟩
      intro fuel _
      cases fuel <;> simp [lockstep]

/-- On a well-formed store, for two stored headers with a common header `c` on their
chains, `resolve` returns a header on both chains that has `c` on its chain. -/
theorem resolve_to (wf : ch.WellFormed) {i j : Nat} {a b c : H}
    (ha : ch.Stored a) (hb : ch.Stored b) (hca : ch.ancestorAt i a = some c)
    (hcb : ch.ancestorAt j b = some c) :
    ∃ r, (∀ fuel, i ≤ fuel → j ≤ fuel → ch.resolve fuel a b = .ret (some r)) ∧
      ch.OnChain a r ∧ ch.OnChain b r ∧ ch.OnChain r c := by
  obtain ⟨hia, _⟩ := height_ancestorAt wf ha hca
  obtain ⟨hjb, _⟩ := height_ancestorAt wf hb hcb
  obtain ⟨k1, a1, hk1, hrun1, ha1, hc1, hland1⟩ :=
    descend_to wf (ch.height b) ha hca (by omega)
  obtain ⟨hh1, hs1⟩ := height_ancestorAt wf ha ha1
  obtain ⟨hh1c, _⟩ := height_ancestorAt wf hs1 hc1
  have hle1 : ch.height a1 ≤ ch.height b := (ch.descend_ret (hrun1 i (le_refl _))).2
  obtain ⟨k2, b1, hk2, hrun2, hb1, hc2, hland2⟩ :=
    descend_to wf (ch.height a1) hb hcb (by omega)
  obtain ⟨hh2, hs2⟩ := height_ancestorAt wf hb hb1
  obtain ⟨hh2c, _⟩ := height_ancestorAt wf hs2 hc2
  have hland := hland2 hle1
  have hn : j - k2 = i - k1 := by omega
  rw [hn] at hc2
  obtain ⟨k, r, hk, hrun3, hr1, hr2, hr3⟩ := lockstep_to wf hs1 hs2 hc1 hc2
  refine ⟨r, ?_, onChain_trans ch ⟨k1, ha1⟩ ⟨k, hr1⟩, onChain_trans ch ⟨k2, hb1⟩ ⟨k, hr2⟩,
    ⟨_, hr3⟩⟩
  intro fuel hi hj
  simp only [resolve, hrun1 fuel hi, hrun2 fuel hj]
  exact hrun3 fuel (by omega)

/-- The header returned on a well-formed store is the highest common header. -/
theorem resolve_latest (wf : ch.WellFormed) {a b c0 : H}
    (ha : ch.Stored a) (hb : ch.Stored b) (hca : ch.OnChain a c0) (hcb : ch.OnChain b c0) :
    ∃ r, (∀ fuel, ch.height a + ch.height b ≤ fuel → ch.resolve fuel a b = .ret (some r)) ∧
      ch.OnChain a r ∧ ch.OnChain b r ∧
      ∀ c, ch.OnChain a c → ch.OnChain b c → ch.height c ≤ ch.height r := by
  obtain ⟨i, hi⟩ := hca
  obtain ⟨j, hj⟩ := hcb
  obtain ⟨r, hrun, hra, hrb, _⟩ := resolve_to wf ha hb hi hj
  have hi1 := (height_ancestorAt wf ha hi).1
  have hj1 := (height_ancestorAt wf hb hj).1
  refine ⟨r, fun fuel hf => hrun fuel (by omega) (by omega), hra, hrb, ?_⟩
  intro c ⟨i2, hi2⟩ ⟨j2, hj2⟩
  obtain ⟨r2, hrun2, _, _, ⟨m, hm⟩⟩ := resolve_to wf ha hb hi2 hj2
  have hi3 := (height_ancestorAt wf ha hi2).1
  have hj3 := (height_ancestorAt wf hb hj2).1
  have e1 := hrun (ch.height a + ch.height b) (by omega) (by omega)
  have e2 := hrun2 (ch.height a + ch.height b) (by omega) (by omega)
  rw [e1] at e2
  simp only [Exec.ret.injEq, Option.some.injEq] at e2
  subst e2
  obtain ⟨n0, hn0⟩ := hra
  have hsr := (height_ancestorAt wf ha hn0).2
  have := (height_ancestorAt wf hsr hm).1
  omega

/-! ### Argument order -/

theorem descend_lands (wf : ch.WellFormed) {bound fuel : Nat} {x y : H}
    (hx : ch.Stored x) (hb : bound ≤ ch.height x)
    (h : ch.descend bound fuel x = .ret (some y)) : ch.height y = bound ∧ ch.Stored y := by
  induction fuel generalizing x with
  | zero =>
    simp only [descend] at h
    split at h
    · cases h
    · simp only [Exec.ret.injEq, Option.some.injEq] at h
      subst h
      exact ⟨by omega, hx⟩
  | succ n ih =>
    simp only [descend] at h
    split at h
    · cases hp : ch.parentLookup (ch.parentHash x) with
      | none => simp [hp] at h
      | some p =>
        simp only [hp] at h
        have := wf.parentHeight _ x p hx hp
        exact ih (stored_of_lookup wf hp) (by omega) h
    · simp only [Exec.ret.injEq, Option.some.injEq] at h
      subst h
      exact ⟨by omega, hx⟩

theorem lockstep_comm (wf : ch.WellFormed) (fuel : Nat) {a b : H}
    (ha : ch.Stored a) (hb : ch.Stored b) : ch.lockstep fuel a b = ch.lockstep fuel b a := by
  induction fuel generalizing a b with
  | zero =>
    by_cases heq : ch.hash a = ch.hash b
    · have := stored_eq_of_hash ha hb heq
      subst this
      rfl
    · have hne : ch.hash b ≠ ch.hash a := fun h => heq h.symm
      simp [lockstep, heq, hne]
  | succ n ih =>
    by_cases heq : ch.hash a = ch.hash b
    · have := stored_eq_of_hash ha hb heq
      subst this
      rfl
    · have hne : ch.hash b ≠ ch.hash a := fun h => heq h.symm
      simp only [lockstep, ne_eq, heq, hne, not_false_eq_true, if_true]
      cases hp : ch.parentLookup (ch.parentHash a) with
      | none => cases hq : ch.parentLookup (ch.parentHash b) <;> rfl
      | some p =>
        cases hq : ch.parentLookup (ch.parentHash b) with
        | none => rfl
        | some q => exact ih (stored_of_lookup wf hp) (stored_of_lookup wf hq)

theorem resolve_comm_of_le (wf : ch.WellFormed) (fuel : Nat) {a b : H}
    (ha : ch.Stored a) (hb : ch.Stored b) (hle : ch.height b ≤ ch.height a) :
    ch.resolve fuel a b = ch.resolve fuel b a := by
  simp only [resolve, descend_noop fuel hle]
  rcases h1 : ch.descend (ch.height b) fuel a with _ | _ | a1
  · rfl
  · rfl
  · obtain ⟨hh, hs⟩ := descend_lands wf ha hle h1
    simp only [descend_noop fuel (le_of_eq hh.symm)]
    exact lockstep_comm wf fuel hs hb

/-- On a well-formed store the answer does not depend on the order of two stored
headers, whatever the fuel. -/
theorem resolve_comm (wf : ch.WellFormed) (fuel : Nat) {a b : H}
    (ha : ch.Stored a) (hb : ch.Stored b) :
    ch.resolve fuel a b = ch.resolve fuel b a := by
  rcases Nat.le_total (ch.height b) (ch.height a) with h | h
  · exact resolve_comm_of_le wf fuel ha hb h
  · exact (resolve_comm_of_le wf fuel hb ha h).symm

/-! ### Height of the answer -/


theorem descending_height_le {a : H} (hd : ch.Descending a) {n : Nat} {y : H}
    (h : ch.ancestorAt n a = some y) : ch.height y ≤ ch.height a := by
  induction n generalizing a with
  | zero =>
    simp only [ancestorAt, Option.some.injEq] at h
    subst h
    exact le_refl _
  | succ n ih =>
    cases hp : ch.parentLookup (ch.parentHash a) with
    | none => simp [ancestorAt, hp] at h
    | some p =>
      rw [ch.ancestorAt_succ_of_lookup n hp] at h
      have h1 := hd a p (onChain_refl ch a) hp
      have hd2 : ch.Descending p := fun y q hy hq =>
        hd y q (onChain_trans ch (onChain_of_lookup ch hp) hy) hq
      have := ih hd2 h
      omega

theorem resolve_height_le {a b r : H} {fuel : Nat} (hd : ch.Descending a)
    (h : ch.resolve fuel a b = .ret (some r)) :
    ch.height r ≤ min (ch.height a) (ch.height b) := by
  obtain ⟨a1, b1, h1, _, h3⟩ := ch.resolve_ret h
  obtain ⟨⟨k, hk⟩, hle⟩ := ch.descend_ret h1
  obtain ⟨n, y, hr, _, _⟩ := ch.lockstep_ret h3
  have hd1 : ch.Descending a1 := fun y q hy hq => hd y q (onChain_trans ch ⟨k, hk⟩ hy) hq
  have e1 := descending_height_le hd1 hr
  have e2 := descending_height_le hd hk
  exact le_min (by omega) (by omega)

theorem descending_of_wellFormed (wf : ch.WellFormed) {a : H} (ha : ch.Stored a) :
    ch.Descending a := by
  intro y p ⟨n, hn⟩ hp
  have hs := (height_ancestorAt wf ha hn).2
  have := wf.parentHeight _ y p hs hp
  omega

/-! ### More fuel does not change an answer -/

theorem descend_mono {bound fuel fuel2 : Nat} {x : H} {r : Option H}
    (h : ch.descend bound fuel x = .ret r) (hle : fuel ≤ fuel2) :
    ch.descend bound fuel2 x = .ret r := by
  induction fuel generalizing x fuel2 with
  | zero =>
    simp only [descend] at h
    split at h
    · cases h
    · rename_i hgt
      cases fuel2 <;> simpa [descend, hgt] using h
  | succ n ih =>
    obtain ⟨fuel2, rfl⟩ : ∃ k, fuel2 = k + 1 := ⟨fuel2 - 1, by omega⟩
    simp only [descend] at h ⊢
    split
    · rename_i hgt
      simp only [hgt, if_true] at h
      cases hp : ch.parentLookup (ch.parentHash x) with
      | none => simpa [hp] using h
      | some p =>
        simp only [hp] at h ⊢
        exact ih h (by omega)
    · rename_i hgt
      simpa [hgt] using h

theorem lockstep_mono {fuel fuel2 : Nat} {a b : H} {r : Option H}
    (h : ch.lockstep fuel a b = .ret r) (hle : fuel ≤ fuel2) :
    ch.lockstep fuel2 a b = .ret r := by
  induction fuel generalizing a b fuel2 with
  | zero =>
    simp only [lockstep] at h
    split at h
    · cases h
    · rename_i hne
      cases fuel2 <;> simpa [lockstep, hne] using h
  | succ n ih =>
    obtain ⟨fuel2, rfl⟩ : ∃ k, fuel2 = k + 1 := ⟨fuel2 - 1, by omega⟩
    simp only [lockstep] at h ⊢
    split
    · rename_i hne
      simp only [if_pos hne] at h
      cases hp : ch.parentLookup (ch.parentHash a) with
      | none => simpa [hp] using h
      | some p =>
        cases hq : ch.parentLookup (ch.parentHash b) with
        | none => simpa [hp, hq] using h
        | some q =>
          simp only [hp, hq] at h ⊢
          exact ih h (by omega)
    · rename_i hne
      simpa [hne] using h

theorem resolve_mono {fuel fuel2 : Nat} {a b : H} {r : Option H}
    (h : ch.resolve fuel a b = .ret r) (hle : fuel ≤ fuel2) :
    ch.resolve fuel2 a b = .ret r := by
  simp only [resolve] at h ⊢
  rcases h1 : ch.descend (ch.height b) fuel a with _ | _ | a1
  · simp [h1] at h
  · simp only [h1] at h
    simp only [descend_mono h1 hle]
    exact h
  · simp only [h1] at h
    simp only [descend_mono h1 hle]
    rcases h2 : ch.descend (ch.height a1) fuel b with _ | _ | b1
    · simp [h2] at h
    · simp only [h2] at h
      simp only [descend_mono h2 hle]
      exact h
    · simp only [h2] at h
      simp only [descend_mono h2 hle]
      exact lockstep_mono h hle

/-! ### Checks on concrete chains -/

theorem wellFormed_of_cover (cover : List (Hash × H))
    (hcover : ∀ k h, ch.parentLookup k = some h → (k, h) ∈ cover)
    (hcheck : ch.wellFormedOn cover = true) : ch.WellFormed := by
  simp only [wellFormedOn, List.all_eq_true, Bool.and_eq_true, decide_eq_true_eq] at hcheck
  constructor
  · intro k h hl
    exact (hcheck _ (hcover k h hl)).1
  · intro k h p hl hp
    have := (hcheck _ (hcover k h hl)).2
    simp only [hp, decide_eq_true_eq] at this
    exact this

theorem ancestorAt_index_lt {n i : Nat} {a x : H} (hend : ch.ancestorAt n a = none)
    (hi : ch.ancestorAt i a = some x) : i < n := by
  by_contra hge
  have := ch.ancestorAt_none_mono (Nat.le_of_not_lt hge) hend
  rw [this] at hi
  cases hi

theorem apart_of_check {n m : Nat} {a b : H} (ha : ch.ancestorAt n a = none)
    (hb : ch.ancestorAt m b = none) (hcheck : ch.apartWithin n m a b = true) :
    ∀ x y, ch.OnChain a x → ch.OnChain b y → ch.hash x ≠ ch.hash y := by
  intro x y ⟨i, hi⟩ ⟨j, hj⟩
  simp only [apartWithin, List.all_eq_true, List.mem_range] at hcheck
  have := hcheck i (ancestorAt_index_lt ha hi) j (ancestorAt_index_lt hb hj)
  simp only [hi, hj, decide_eq_true_eq] at this
  exact this

end Chain

/-! ## Reading a store given by its content -/

theorem get_ofList_cons (e : Key × Bytes) (l : List (Key × Bytes)) (k : Key) :
    (Database.ofList (e :: l)).Get k =
      if e.1 = k then (e.2, false) else (Database.ofList l).Get k := by
  by_cases h : e.1 = k <;> simp [Database.Get, Database.ofList, List.find?, h]

theorem readMinor_ofList_mem (c : Codec) (l : List (Key × Bytes)) (k : Hash)
    (h : MinorBlockHeader) (hr : ReadMinorBlockHeader c (Database.ofList l) k = some h) :
    (k, h) ∈ minorCover c l := by
  induction l with
  | nil => simp [ReadMinorBlockHeader, Database.Get, Database.ofList] at hr
  | cons e l ih =>
    obtain ⟨key, data⟩ := e
    by_cases hk : key = headerKey k
    · subst hk
      simp only [ReadMinorBlockHeader, get_ofList_cons, if_true] at hr
      split at hr
      · cases hr
      · cases hd : c.deserializeMinorHeader data with
        | none => simp [hd] at hr
        | some h2 =>
          simp only [hd, Option.some.injEq] at hr
          subst hr
          simp [minorCover, hd]
    · have hrec : ReadMinorBlockHeader c (Database.ofList l) k = some h := by
        simpa [ReadMinorBlockHeader, get_ofList_cons, hk] using hr
      have hmem := ih hrec
      cases key <;> simp only [minorCover] <;> try exact hmem
      split
      · exact List.mem_cons_of_mem _ hmem
      · exact hmem

theorem readRoot_ofList_mem (c : Codec) (l : List (Key × Bytes)) (k : Hash)
    (h : RootBlockHeader) (hr : ReadRootBlockHeader c (Database.ofList l) k = some h) :
    (k, h) ∈ rootCover c l := by
  induction l with
  | nil => simp [ReadRootBlockHeader, Database.Get, Database.ofList] at hr
  | cons e l ih =>
    obtain ⟨key, data⟩ := e
    by_cases hk : key = headerKey k
    · subst hk
      simp only [ReadRootBlockHeader, get_ofList_cons, if_true] at hr
      split at hr
      · cases hr
      · cases hd : c.deserializeRootHeader data with
        | none => simp [hd] at hr
        | some h2 =>
          simp only [hd, Option.some.injEq] at hr
          subst hr
          simp [rootCover, hd]
    · have hrec : ReadRootBlockHeader c (Database.ofList l) k = some h := by
        simpa [ReadRootBlockHeader, get_ofList_cons, hk] using hr
      have hmem := ih hrec
      cases key <;> simp only [rootCover] <;> try exact hmem
      split
      · exact List.mem_cons_of_mem _ hmem
      · exact hmem

theorem forkStore_minor_wellFormed : (minorChain Demo.codec Demo.forkStore).WellFormed :=
  Chain.wellFormed_of_cover (minorCover Demo.codec Demo.forkContent)
    (readMinor_ofList_mem Demo.codec Demo.forkContent) (by decide)

theorem forkStore_root_wellFormed : (rootChain Demo.codec Demo.forkStore).WellFormed :=
  Chain.wellFormed_of_cover (rootCover Demo.codec Demo.forkContent)
    (readRoot_ofList_mem Demo.codec Demo.forkContent) (by decide)

theorem smallStore_minor_wellFormed : (minorChain Demo.codec Demo.smallStore).WellFormed :=
  Chain.wellFormed_of_cover (minorCover Demo.codec Demo.smallContent)
    (readMinor_ofList_mem Demo.codec Demo.smallContent) (by decide)

theorem smallStore_root_wellFormed : (rootChain Demo.codec Demo.smallStore).WellFormed :=
  Chain.wellFormed_of_cover (rootCover Demo.codec Demo.smallContent)
    (readRoot_ofList_mem Demo.codec Demo.smallContent) (by decide)

/-! ## Ancestor search: the claims -/

theorem smallStore_run_ghost :
    FindCommonMinorAncestor Demo.codec Demo.smallStore 2 Demo.main2 Demo.ghost
      = .ret none := by decide

theorem smallStore_run_ghost_root :
    FindCommonRootAncestor Demo.codec Demo.smallStore 2 (Demo.toRoot Demo.main2)
      (Demo.toRoot Demo.ghost) = .ret none := by decide

/-- C1, as stated, fails: `smallStore` stores each header under its own hash and each
stored header's parent is exactly one lower; `ghost` (height 5, not in the store)
names the stored `main1` as its parent, so `main1` is a common ancestor of
`main2` and `ghost`. The search from `(main2, ghost)` replaces `ghost` with
`main1` (height 1), below `main2`, then walks both by one parent at a time past
each other and returns nil, for every fuel from 2 on, in both hierarchies. -/
theorem C1_counterexample :
    (minorChain Demo.codec Demo.smallStore).WellFormed ∧
      (rootChain Demo.codec Demo.smallStore).WellFormed ∧
      ¬ (minorChain Demo.codec Demo.smallStore).Stored Demo.ghost ∧
      (minorChain Demo.codec Demo.smallStore).ancestorAt 1 Demo.main2 = some Demo.main1 ∧
      (minorChain Demo.codec Demo.smallStore).ancestorAt 1 Demo.ghost = some Demo.main1 ∧
      (minorChain Demo.codec Demo.smallStore).OnChain Demo.main2 Demo.main1 ∧
      (minorChain Demo.codec Demo.smallStore).OnChain Demo.ghost Demo.main1 ∧
      (rootChain Demo.codec Demo.smallStore).OnChain (Demo.toRoot Demo.main2)
        (Demo.toRoot Demo.main1) ∧
      (rootChain Demo.codec Demo.smallStore).OnChain (Demo.toRoot Demo.ghost)
        (Demo.toRoot Demo.main1) ∧
      ∀ fuel, 2 ≤ fuel →
        FindCommonMinorAncestor Demo.codec Demo.smallStore fuel Demo.main2 Demo.ghost
            = .ret none ∧
          FindCommonRootAncestor Demo.codec Demo.smallStore fuel (Demo.toRoot Demo.main2)
            (Demo.toRoot Demo.ghost) = .ret none := by
  refine ⟨smallStore_minor_wellFormed, smallStore_root_wellFormed,
    by unfold Chain.Stored; decide, by decide, by decide, ⟨1, by decide⟩, ⟨1, by decide⟩,
    ⟨1, by decide⟩, ⟨1, by decide⟩, ?_⟩
  intro fuel hf
  constructor
  · have := smallStore_run_ghost
    rw [FindCommonMinorAncestor_eq] at this ⊢
    exact Chain.resolve_mono this hf
  · have := smallStore_run_ghost_root
    rw [FindCommonRootAncestor_eq] at this ⊢
    exact Chain.resolve_mono this hf

/-- C1, amended (latest common ancestor). On a store in which each header is stored
under its own hash and each stored header's parent has height exactly one less, for
two stored headers `a` and `b` with a common header on their parent chains,
FindCommonMinorAncestor and FindCommonRootAncestor return (for every fuel of at
least the two heights together) a header that lies on both chains and is at
least as high as every header on both chains. -/
theorem C1_latest_common_ancestor (c : Codec) (db : Database) :
    (∀ a b : MinorBlockHeader, (minorChain c db).WellFormed →
      (minorChain c db).Stored a → (minorChain c db).Stored b →
      (∃ x, (minorChain c db).OnChain a x ∧ (minorChain c db).OnChain b x) →
      ∃ r, (∀ fuel, a.Number + b.Number ≤ fuel →
          FindCommonMinorAncestor c db fuel a b = .ret (some r)) ∧
        (minorChain c db).OnChain a r ∧ (minorChain c db).OnChain b r ∧
        ∀ x, (minorChain c db).OnChain a x → (minorChain c db).OnChain b x →
          x.Number ≤ r.Number) ∧
    (∀ a b : RootBlockHeader, (rootChain c db).WellFormed →
      (rootChain c db).Stored a → (rootChain c db).Stored b →
      (∃ x, (rootChain c db).OnChain a x ∧ (rootChain c db).OnChain b x) →
      ∃ r, (∀ fuel, a.NumberU64 + b.NumberU64 ≤ fuel →
          FindCommonRootAncestor c db fuel a b = .ret (some r)) ∧
        (rootChain c db).OnChain a r ∧ (rootChain c db).OnChain b r ∧
        ∀ x, (rootChain c db).OnChain a x → (rootChain c db).OnChain b x →
          x.NumberU64 ≤ r.NumberU64) := by
  constructor
  · intro a b wf ha hb ⟨x, hxa, hxb⟩
    obtain ⟨r, hrun, h1, h2, h3⟩ := Chain.resolve_latest wf ha hb hxa hxb
    exact ⟨r, fun fuel hf => by rw [FindCommonMinorAncestor_eq]; exact hrun fuel hf, h1, h2, h3⟩
  · intro a b wf ha hb ⟨x, hxa, hxb⟩
    obtain ⟨r, hrun, h1, h2, h3⟩ := Chain.resolve_latest wf ha hb hxa hxb
    exact ⟨r, fun fuel hf => by rw [FindCommonRootAncestor_eq]; exact hrun fuel hf, h1, h2, h3⟩

/-- C1, amended, on the scenario of the specification: headers of heights 10 and 7 whose chains
first meet at height 4; the header of height 4 is returned, 6 and 3 lookups away. -/
theorem C1_latest_common_ancestor_witness :
    FindCommonMinorAncestor Demo.codec Demo.forkStore 17 Demo.main10 Demo.side7
        = .ret (some Demo.main4) ∧
      (minorChain Demo.codec Demo.forkStore).ancestorAt 6 Demo.main10 = some Demo.main4 ∧
      (minorChain Demo.codec Demo.forkStore).ancestorAt 3 Demo.side7 = some Demo.main4 ∧
      (∃ r, (∀ fuel, 10 + 7 ≤ fuel →
          FindCommonMinorAncestor Demo.codec Demo.forkStore fuel Demo.main10 Demo.side7
            = .ret (some r)) ∧
        (minorChain Demo.codec Demo.forkStore).OnChain Demo.main10 r ∧
        (minorChain Demo.codec Demo.forkStore).OnChain Demo.side7 r ∧
        ∀ x, (minorChain Demo.codec Demo.forkStore).OnChain Demo.main10 x →
          (minorChain Demo.codec Demo.forkStore).OnChain Demo.side7 x →
          x.Number ≤ r.Number) ∧
      FindCommonRootAncestor Demo.codec Demo.forkStore 17 (Demo.toRoot Demo.main10)
        (Demo.toRoot Demo.side7) = .ret (some (Demo.toRoot Demo.main4)) ∧
      (∃ r, (∀ fuel, 10 + 7 ≤ fuel →
          FindCommonRootAncestor Demo.codec Demo.forkStore fuel (Demo.toRoot Demo.main10)
            (Demo.toRoot Demo.side7) = .ret (some r)) ∧
        (rootChain Demo.codec Demo.forkStore).OnChain (Demo.toRoot Demo.main10) r ∧
        (rootChain Demo.codec Demo.forkStore).OnChain (Demo.toRoot Demo.side7) r ∧
        ∀ x, (rootChain Demo.codec Demo.forkStore).OnChain (Demo.toRoot Demo.main10) x →
          (rootChain Demo.codec Demo.forkStore).OnChain (Demo.toRoot Demo.side7) x →
          x.NumberU64 ≤ r.NumberU64) :=
  ⟨by decide, by decide, by decide,
    (C1_latest_common_ancestor Demo.codec Demo.forkStore).1 Demo.main10 Demo.side7
      forkStore_minor_wellFormed (by unfold Chain.Stored; decide)
      (by unfold Chain.Stored; decide)
      ⟨Demo.main4, ⟨6, by decide⟩, ⟨3, by decide⟩⟩,
    by decide,
    (C1_latest_common_ancestor Demo.codec Demo.forkStore).2 (Demo.toRoot Demo.main10)
      (Demo.toRoot Demo.side7) forkStore_root_wellFormed
      (by unfold Chain.Stored; decide) (by unfold Chain.Stored; decide)
      ⟨Demo.toRoot Demo.main4, ⟨6, by decide⟩, ⟨3, by decide⟩⟩⟩

theorem skipStore_run_ab :
    FindCommonMinorAncestor Demo.codec Demo.skipStore 3 Demo.skipA Demo.skipB
      = .ret (some Demo.skipC) := by decide

theorem skipStore_run_ba :
    FindCommonMinorAncestor Demo.codec Demo.skipStore 3 Demo.skipB Demo.skipA
      = .ret none := by decide

/-- C2, as stated, fails: in `skipStore` every header is stored under its own hash and
`skipA` (height 5) and `skipB` (height 3) are both children of `skipC` (height 2),
their common ancestor; the search from `(skipA, skipB)` returns `skipC`, the
search from `(skipB, skipA)` returns nil, for every fuel from 3 on. -/
theorem C2_counterexample :
    (minorChain Demo.codec Demo.skipStore).Stored Demo.skipA ∧
      (minorChain Demo.codec Demo.skipStore).Stored Demo.skipB ∧
      (minorChain Demo.codec Demo.skipStore).OnChain Demo.skipA Demo.skipC ∧
      (minorChain Demo.codec Demo.skipStore).OnChain Demo.skipB Demo.skipC ∧
      ∀ fuel, 3 ≤ fuel →
        FindCommonMinorAncestor Demo.codec Demo.skipStore fuel Demo.skipA Demo.skipB
            = .ret (some Demo.skipC) ∧
          FindCommonMinorAncestor Demo.codec Demo.skipStore fuel Demo.skipB Demo.skipA
            = .ret none ∧
          FindCommonMinorAncestor Demo.codec Demo.skipStore fuel Demo.skipA Demo.skipB
            ≠ FindCommonMinorAncestor Demo.codec Demo.skipStore fuel Demo.skipB Demo.skipA := by
  refine ⟨by unfold Chain.Stored; decide, by unfold Chain.Stored; decide, ⟨1, by decide⟩,
    ⟨1, by decide⟩, ?_⟩
  intro fuel hf
  have h1 : FindCommonMinorAncestor Demo.codec Demo.skipStore fuel Demo.skipA Demo.skipB
      = .ret (some Demo.skipC) := by
    have := skipStore_run_ab
    rw [FindCommonMinorAncestor_eq] at this ⊢
    exact Chain.resolve_mono this hf
  have h2 : FindCommonMinorAncestor Demo.codec Demo.skipStore fuel Demo.skipB Demo.skipA
      = .ret none := by
    have := skipStore_run_ba
    rw [FindCommonMinorAncestor_eq] at this ⊢
    exact Chain.resolve_mono this hf
  refine ⟨h1, h2, ?_⟩
  rw [h1, h2]
  simp

/-- C2, amended: on a store in which each header is stored under its own hash and each
stored header's parent has height exactly one less, the answer for two stored
headers does not depend on their order, for every fuel (so the two runs return
the same header, both return nil, or both are still running). -/
theorem C2_commutative_on_wellformed (c : Codec) (db : Database) :
    (∀ a b : MinorBlockHeader, (minorChain c db).WellFormed →
      (minorChain c db).Stored a → (minorChain c db).Stored b →
      ∀ fuel, FindCommonMinorAncestor c db fuel a b = FindCommonMinorAncestor c db fuel b a) ∧
    (∀ a b : RootBlockHeader, (rootChain c db).WellFormed →
      (rootChain c db).Stored a → (rootChain c db).Stored b →
      ∀ fuel, FindCommonRootAncestor c db fuel a b = FindCommonRootAncestor c db fuel b a) := by
  constructor
  · intro a b wf ha hb fuel
    rw [FindCommonMinorAncestor_eq, FindCommonMinorAncestor_eq]
    exact Chain.resolve_comm wf fuel ha hb
  · intro a b wf ha hb fuel
    rw [FindCommonRootAncestor_eq, FindCommonRootAncestor_eq]
    exact Chain.resolve_comm wf fuel ha hb

/-- C2, amended, on a chain of the example: both orders return the header of
height 1. -/
theorem C2_commutative_on_wellformed_witness :
    FindCommonMinorAncestor Demo.codec Demo.smallStore 2 Demo.main1 Demo.main2
        = .ret (some Demo.main1) ∧
      (∀ fuel, FindCommonMinorAncestor Demo.codec Demo.smallStore fuel Demo.main2 Demo.main1
        = FindCommonMinorAncestor Demo.codec Demo.smallStore fuel Demo.main1 Demo.main2) ∧
      (∀ fuel, FindCommonRootAncestor Demo.codec Demo.smallStore fuel (Demo.toRoot Demo.main2)
          (Demo.toRoot Demo.main1)
        = FindCommonRootAncestor Demo.codec Demo.smallStore fuel (Demo.toRoot Demo.main1)
          (Demo.toRoot Demo.main2)) :=
  ⟨by decide,
    (C2_commutative_on_wellformed Demo.codec Demo.smallStore).1 Demo.main2 Demo.main1
      smallStore_minor_wellFormed (by unfold Chain.Stored; decide)
      (by unfold Chain.Stored; decide),
    (C2_commutative_on_wellformed Demo.codec Demo.smallStore).2 (Demo.toRoot Demo.main2)
      (Demo.toRoot Demo.main1) smallStore_root_wellFormed
      (by unfold Chain.Stored; decide) (by unfold Chain.Stored; decide)⟩

/-- C3 (disjoint chains). Whenever FindCommonMinorAncestor or FindCommonRootAncestor
returns a header, it lies on the parent chain of `a` and has the hash of a
header on the parent chain of `b`; and when no header hash on the chain of `a`
equals one on the chain of `b` and both chains end in an absent lookup (after
`n` and `m` lookups), the answer is nil for every fuel of at least `n` and `m`. -/
theorem C3_disjoint_chains_not_found (c : Codec) (db : Database) :
    (∀ a b : MinorBlockHeader,
      (∀ fuel r, FindCommonMinorAncestor c db fuel a b = .ret (some r) →
        (minorChain c db).OnChain a r ∧
          ∃ y, (minorChain c db).OnChain b y ∧ c.hashMinorHeader y = c.hashMinorHeader r) ∧
      (∀ n m, (minorChain c db).ancestorAt n a = none →
        (minorChain c db).ancestorAt m b = none →
        (∀ x y, (minorChain c db).OnChain a x → (minorChain c db).OnChain b y →
          c.hashMinorHeader x ≠ c.hashMinorHeader y) →
        ∀ fuel, n ≤ fuel → m ≤ fuel → FindCommonMinorAncestor c db fuel a b = .ret none)) ∧
    (∀ a b : RootBlockHeader,
      (∀ fuel r, FindCommonRootAncestor c db fuel a b = .ret (some r) →
        (rootChain c db).OnChain a r ∧
          ∃ y, (rootChain c db).OnChain b y ∧ c.hashRootHeader y = c.hashRootHeader r) ∧
      (∀ n m, (rootChain c db).ancestorAt n a = none →
        (rootChain c db).ancestorAt m b = none →
        (∀ x y, (rootChain c db).OnChain a x → (rootChain c db).OnChain b y →
          c.hashRootHeader x ≠ c.hashRootHeader y) →
        ∀ fuel, n ≤ fuel → m ≤ fuel → FindCommonRootAncestor c db fuel a b = .ret none)) := by
  constructor
  · intro a b
    refine ⟨fun fuel r h => ?_, fun n m ha hb hdis fuel hn hm => ?_⟩
    · rw [FindCommonMinorAncestor_eq] at h
      exact Chain.resolve_sound _ h
    · rw [FindCommonMinorAncestor_eq]
      obtain ⟨r, hr⟩ := Chain.resolve_terminates (minorChain c db) ha hb hn hm
      cases r with
      | none => exact hr
      | some r =>
        obtain ⟨h1, y, h2, h3⟩ := Chain.resolve_sound _ hr
        exact absurd h3.symm (hdis r y h1 h2)
  · intro a b
    refine ⟨fun fuel r h => ?_, fun n m ha hb hdis fuel hn hm => ?_⟩
    · rw [FindCommonRootAncestor_eq] at h
      exact Chain.resolve_sound _ h
    · rw [FindCommonRootAncestor_eq]
      obtain ⟨r, hr⟩ := Chain.resolve_terminates (rootChain c db) ha hb hn hm
      cases r with
      | none => exact hr
      | some r =>
        obtain ⟨h1, y, h2, h3⟩ := Chain.resolve_sound _ hr
        exact absurd h3.symm (hdis r y h1 h2)

/-- C3 on two chains of the example with no common header: the answer is nil; and on
one chain the returned header is on the chains of both arguments. -/
theorem C3_disjoint_chains_not_found_witness :
    (∀ fuel, 3 ≤ fuel → 2 ≤ fuel →
        FindCommonMinorAncestor Demo.codec Demo.smallStore fuel Demo.main2 Demo.other1
          = .ret none) ∧
      (∀ fuel, 3 ≤ fuel → 2 ≤ fuel →
        FindCommonRootAncestor Demo.codec Demo.smallStore fuel (Demo.toRoot Demo.main2)
          (Demo.toRoot Demo.other1) = .ret none) ∧
      ((minorChain Demo.codec Demo.smallStore).OnChain Demo.main2 Demo.main1 ∧
        ∃ y, (minorChain Demo.codec Demo.smallStore).OnChain Demo.main1 y ∧
          Demo.codec.hashMinorHeader y = Demo.codec.hashMinorHeader Demo.main1) ∧
      ((rootChain Demo.codec Demo.smallStore).OnChain (Demo.toRoot Demo.main2)
          (Demo.toRoot Demo.main1) ∧
        ∃ y, (rootChain Demo.codec Demo.smallStore).OnChain (Demo.toRoot Demo.main1) y ∧
          Demo.codec.hashRootHeader y = Demo.codec.hashRootHeader (Demo.toRoot Demo.main1)) :=
  ⟨((C3_disjoint_chains_not_found Demo.codec Demo.smallStore).1 Demo.main2 Demo.other1).2 3 2
      (by decide) (by decide)
      (Chain.apart_of_check (n := 3) (m := 2) (by decide) (by decide) (by decide)),
    ((C3_disjoint_chains_not_found Demo.codec Demo.smallStore).2 (Demo.toRoot Demo.main2)
      (Demo.toRoot Demo.other1)).2 3 2 (by decide) (by decide)
      (Chain.apart_of_check (n := 3) (m := 2) (by decide) (by decide) (by decide)),
    ((C3_disjoint_chains_not_found Demo.codec Demo.smallStore).1 Demo.main2 Demo.main1).1 2
      Demo.main1 (by decide),
    ((C3_disjoint_chains_not_found Demo.codec Demo.smallStore).2 (Demo.toRoot Demo.main2)
      (Demo.toRoot Demo.main1)).1 2 (Demo.toRoot Demo.main1) (by decide)⟩

theorem loopStore_loopA (fuel : Nat) :
    minorLoopA Demo.codec Demo.loopStore 3 fuel Demo.loopX = .timeout := by
  induction fuel with
  | zero => decide
  | succ n ih =>
    have hgt : Demo.loopX.Number > 3 := by decide
    have hread : ReadMinorBlockHeader Demo.codec Demo.loopStore Demo.loopX.ParentHash
        = some Demo.loopX := by decide
    simp only [minorLoopA, hgt, if_true, hread]
    exact ih

/-- C4, as stated, fails: in `loopStore` the header `loopX` (height 5) is stored under
the key that it names as its parent, so the first loop of FindCommonMinorAncestor,
called with `loopX` and a header of height 3, reads `loopX` again at every
iteration and returns with no amount of fuel. -/
theorem C4_counterexample :
    ReadMinorBlockHeader Demo.codec Demo.loopStore Demo.loopX.ParentHash = some Demo.loopX ∧
      Demo.loopX.Number = 5 ∧ Demo.loopB.Number = 3 ∧
      ∀ fuel, FindCommonMinorAncestor Demo.codec Demo.loopStore fuel Demo.loopX Demo.loopB
        = .timeout := by
  refine ⟨by decide, rfl, rfl, fun fuel => ?_⟩
  have h3 : Demo.loopB.Number = 3 := rfl
  simp only [FindCommonMinorAncestor, h3, loopStore_loopA]

/-- C4, amended: for every store content and every two input headers whose parent
chains both end in an absent lookup (after `n` and `m` lookups),
FindCommonMinorAncestor and FindCommonRootAncestor return, a header or nil, for
every fuel of at least `n` and `m`; no genesis block is assumed. -/
theorem C4_terminates_when_chains_end (c : Codec) (db : Database) :
    (∀ (a b : MinorBlockHeader) (n m : Nat),
      (minorChain c db).ancestorAt n a = none → (minorChain c db).ancestorAt m b = none →
      ∀ fuel, n ≤ fuel → m ≤ fuel → ∃ r, FindCommonMinorAncestor c db fuel a b = .ret r) ∧
    (∀ (a b : RootBlockHeader) (n m : Nat),
      (rootChain c db).ancestorAt n a = none → (rootChain c db).ancestorAt m b = none →
      ∀ fuel, n ≤ fuel → m ≤ fuel → ∃ r, FindCommonRootAncestor c db fuel a b = .ret r) := by
  constructor
  · intro a b n m ha hb fuel hn hm
    rw [FindCommonMinorAncestor_eq]
    exact Chain.resolve_terminates _ ha hb hn hm
  · intro a b n m ha hb fuel hn hm
    rw [FindCommonRootAncestor_eq]
    exact Chain.resolve_terminates _ ha hb hn hm

/-- C4, amended, on two chains of the example (which end after 3 and 2 lookups) and
on a store with no entry at all. -/
theorem C4_terminates_when_chains_end_witness :
    (∃ r, FindCommonMinorAncestor Demo.codec Demo.smallStore 3 Demo.main2 Demo.other1
        = .ret r) ∧
      (∃ r, FindCommonRootAncestor Demo.codec Demo.smallStore 3 (Demo.toRoot Demo.main2)
        (Demo.toRoot Demo.other1) = .ret r) ∧
      (∃ r, FindCommonMinorAncestor Demo.codec (Database.ofList []) 1 Demo.main10 Demo.side7
        = .ret r) :=
  ⟨(C4_terminates_when_chains_end Demo.codec Demo.smallStore).1 Demo.main2 Demo.other1 3 2
      (by decide) (by decide) 3 (by decide) (by decide),
    (C4_terminates_when_chains_end Demo.codec Demo.smallStore).2 (Demo.toRoot Demo.main2)
      (Demo.toRoot Demo.other1) 3 2 (by decide) (by decide) 3 (by decide) (by decide),
    (C4_terminates_when_chains_end Demo.codec (Database.ofList [])).1 Demo.main10 Demo.side7 1 1
      (by decide) (by decide) 1 (by decide) (by decide)⟩

theorem highStore_run :
    FindCommonMinorAncestor Demo.codec Demo.highStore 1 Demo.lowA Demo.lowB
      = .ret (some Demo.highP) := by decide

/-- C10, as stated, fails: in `highStore` every header is stored under its own hash and
the two headers `lowA` and `lowB` of height 3 have the same parent `highP` of
height 100; the search returns `highP`, which is higher than both. -/
theorem C10_counterexample :
    (minorChain Demo.codec Demo.highStore).Stored Demo.lowA ∧
      (minorChain Demo.codec Demo.highStore).Stored Demo.lowB ∧
      (minorChain Demo.codec Demo.highStore).Stored Demo.highP ∧
      (∀ fuel, 1 ≤ fuel →
        FindCommonMinorAncestor Demo.codec Demo.highStore fuel Demo.lowA Demo.lowB
          = .ret (some Demo.highP)) ∧
      ¬ Demo.highP.Number ≤ min Demo.lowA.Number Demo.lowB.Number := by
  refine ⟨by unfold Chain.Stored; decide, by unfold Chain.Stored; decide,
    by unfold Chain.Stored; decide, fun fuel hf => ?_, by decide⟩
  have := highStore_run
  rw [FindCommonMinorAncestor_eq] at this ⊢
  exact Chain.resolve_mono this hf

/-- C10, amended: for every store and every two headers `a`, `b` such that along the
parent chain of `a` no parent is higher than its child, whenever
FindCommonMinorAncestor or FindCommonRootAncestor returns a header, its height
is at most the smaller of the heights of `a` and `b`. -/
theorem C10_height_bound_on_descending (c : Codec) (db : Database) :
    (∀ (a b r : MinorBlockHeader) (fuel : Nat), (minorChain c db).Descending a →
      FindCommonMinorAncestor c db fuel a b = .ret (some r) →
      r.Number ≤ min a.Number b.Number) ∧
    (∀ (a b r : RootBlockHeader) (fuel : Nat), (rootChain c db).Descending a →
      FindCommonRootAncestor c db fuel a b = .ret (some r) →
      r.NumberU64 ≤ min a.NumberU64 b.NumberU64) := by
  constructor
  · intro a b r fuel hd h
    rw [FindCommonMinorAncestor_eq] at h
    exact Chain.resolve_height_le hd h
  · intro a b r fuel hd h
    rw [FindCommonRootAncestor_eq] at h
    exact Chain.resolve_height_le hd h

/-- C10, amended, on a chain of the example: the returned header has height 1, the
inputs heights 2 and 1. -/
theorem C10_height_bound_on_descending_witness :
    Demo.main1.Number ≤ min Demo.main2.Number Demo.main1.Number ∧
      (Demo.toRoot Demo.main1).NumberU64
        ≤ min (Demo.toRoot Demo.main2).NumberU64 (Demo.toRoot Demo.main1).NumberU64 :=
  ⟨(C10_height_bound_on_descending Demo.codec Demo.smallStore).1 Demo.main2 Demo.main1
      Demo.main1 2
      (Chain.descending_of_wellFormed smallStore_minor_wellFormed
        (by unfold Chain.Stored; decide))
      (by decide),
    (C10_height_bound_on_descending Demo.codec Demo.smallStore).2 (Demo.toRoot Demo.main2)
      (Demo.toRoot Demo.main1) (Demo.toRoot Demo.main1) 2
      (Chain.descending_of_wellFormed smallStore_root_wellFormed
        (by unfold Chain.Stored; decide))
      (by decide)⟩

/-! ## Bytes and the key-value store -/

theorem bigEndian_putUint64 (n : Nat) : bigEndian (putUint64 n) = n % 2 ^ 64 := by
  simp only [bigEndian, putUint64, List.foldl, Fin.ofNat]
  omega

theorem length_putUint64 (n : Nat) : (putUint64 n).length = 8 := rfl

theorem length_encodeBlockNumber (n : Nat) : (encodeBlockNumber n).length = 8 := rfl

theorem bigEndian_encodeBlockNumber (n : Nat) : bigEndian (encodeBlockNumber n) = n % 2 ^ 64 := by
  simp [encodeBlockNumber, bigEndian_putUint64]

theorem length_hashBytes (h : Hash) : h.Bytes.length = 32 := h.property

theorem bytesToHash_bytes (h : Hash) : BytesToHash h.Bytes = h := by
  apply Subtype.ext
  have hl : h.val.length = 32 := h.property
  simp [BytesToHash, Hash.Bytes, hl]

theorem put_some {db db1 : Database} {k : Key} {v : Bytes} (h : db.Put k v = some db1) :
    db1.writeErr = db.writeErr ∧ db.writeErr k = false ∧
      ∀ k1, db1.entries k1 = if k1 = k then some v else db.entries k1 := by
  unfold Database.Put at h
  split at h
  · cases h
  · rename_i hw
    cases h
    exact ⟨rfl, by simpa using hw, fun _ => rfl⟩

theorem delete_some {db db1 : Database} {k : Key} (h : db.Delete k = some db1) :
    db1.writeErr = db.writeErr ∧ db.writeErr k = false ∧
      ∀ k1, db1.entries k1 = if k1 = k then none else db.entries k1 := by
  unfold Database.Delete at h
  split at h
  · cases h
  · rename_i hw
    cases h
    exact ⟨rfl, by simpa using hw, fun _ => rfl⟩

theorem get_of_entry {db : Database} {k : Key} {v : Bytes} (h : db.entries k = some v) :
    (db.Get k).1 = v := by
  simp [Database.Get, h]

theorem get_of_absent {db : Database} {k : Key} (h : db.entries k = none) :
    (db.Get k).1 = [] := by
  simp [Database.Get, h]

/-! ## When a write accessor returns -/

theorem andThen_ok {o : Outcome} {f : Database → Outcome} {db2 : Database} :
    o.andThen f = .ok db2 ↔ ∃ db1, o = .ok db1 ∧ f db1 = .ok db2 := by
  cases o with
  | ok db => simp [Outcome.andThen]
  | fatal db => simp [Outcome.andThen]

theorem writeCanonicalHash_ok {db db1 : Database} {ct : ChainType} {hash : Hash} {n : Nat} :
    WriteCanonicalHash db ct hash n = .ok db1 ↔
      db.Put (headerHashKey ct n) hash.Bytes = some db1 := by
  unfold WriteCanonicalHash
  split <;> simp_all

theorem deleteCanonicalHash_ok {db db1 : Database} {ct : ChainType} {n : Nat} :
    DeleteCanonicalHash db ct n = .ok db1 ↔ db.Delete (headerHashKey ct n) = some db1 := by
  unfold DeleteCanonicalHash
  split <;> simp_all

theorem writeHeadHeaderHash_ok {db db1 : Database} {hash : Hash} :
    WriteHeadHeaderHash db hash = .ok db1 ↔ db.Put headHeaderKey hash.Bytes = some db1 := by
  unfold WriteHeadHeaderHash
  split <;> simp_all

theorem writeHeadBlockHash_ok {db db1 : Database} {hash : Hash} :
    WriteHeadBlockHash db hash = .ok db1 ↔ db.Put headBlockKey hash.Bytes = some db1 := by
  unfold WriteHeadBlockHash
  split <;> simp_all

theorem writeHeadFastBlockHash_ok {db db1 : Database} {hash : Hash} :
    WriteHeadFastBlockHash db hash = .ok db1 ↔
      db.Put headFastBlockKey hash.Bytes = some db1 := by
  unfold WriteHeadFastBlockHash
  split <;> simp_all

theorem writeFastTrieProgress_ok {db db1 : Database} {count : Nat} :
    WriteFastTrieProgress db count = .ok db1 ↔
      db.Put fastTrieProgressKey (bigBytes count) = some db1 := by
  unfold WriteFastTrieProgress
  split <;> simp_all

theorem writeMinorBlockHeader_ok {c : Codec} {db db2 : Database} {header : MinorBlockHeader} :
    WriteMinorBlockHeader c db header = .ok db2 ↔
      ∃ db1 data,
        db.Put (headerNumberKey (c.hashMinorHeader header)) (encodeBlockNumber header.Number)
          = some db1 ∧
        c.serializeMinorHeader header = some data ∧
        db1.Put (headerKey (c.hashMinorHeader header)) data = some db2 := by
  cases h1 : db.Put (headerNumberKey (c.hashMinorHeader header))
      (encodeBlockNumber header.Number) with
  | none => simp [WriteMinorBlockHeader, h1]
  | some db1 =>
    cases h2 : c.serializeMinorHeader header with
    | none => simp [WriteMinorBlockHeader, h1, h2]
    | some data =>
      cases h3 : db1.Put (headerKey (c.hashMinorHeader header)) data <;>
        simp [WriteMinorBlockHeader, h1, h2, h3]

theorem writeRootBlockHeader_ok {c : Codec} {db db2 : Database} {header : RootBlockHeader} :
    WriteRootBlockHeader c db header = .ok db2 ↔
      ∃ db1 data,
        db.Put (headerNumberKey (c.hashRootHeader header)) (encodeBlockNumber header.NumberU64)
          = some db1 ∧
        c.serializeRootHeader header = some data ∧
        db1.Put (headerKey (c.hashRootHeader header)) data = some db2 := by
  cases h1 : db.Put (headerNumberKey (c.hashRootHeader header))
      (encodeBlockNumber header.NumberU64) with
  | none => simp [WriteRootBlockHeader, h1]
  | some db1 =>
    cases h2 : c.serializeRootHeader header with
    | none => simp [WriteRootBlockHeader, h1, h2]
    | some data =>
      cases h3 : db1.Put (headerKey (c.hashRootHeader header)) data <;>
        simp [WriteRootBlockHeader, h1, h2, h3]

theorem deleteMinorBlockHeader_ok {db db2 : Database} {hash : Hash} :
    DeleteMinorBlockHeader db hash = .ok db2 ↔
      ∃ db1, db.Delete (headerKey hash) = some db1 ∧
        db1.Delete (headerNumberKey hash) = some db2 := by
  cases h1 : db.Delete (headerKey hash) with
  | none => simp [DeleteMinorBlockHeader, h1]
  | some db1 =>
    cases h2 : db1.Delete (headerNumberKey hash) <;> simp [DeleteMinorBlockHeader, h1, h2]

theorem deleteRootBlockHeader_ok {db db2 : Database} {hash : Hash} :
    DeleteRootBlockHeader db hash = .ok db2 ↔
      ∃ db1, db.Delete (headerKey hash) = some db1 ∧
        db1.Delete (headerNumberKey hash) = some db2 := by
  cases h1 : db.Delete (headerKey hash) with
  | none => simp [DeleteRootBlockHeader, h1]
  | some db1 =>
    cases h2 : db1.Delete (headerNumberKey hash) <;> simp [DeleteRootBlockHeader, h1, h2]

theorem writeMinorBlock_ok {c : Codec} {db db2 : Database} {block : MinorBlock} :
    WriteMinorBlock c db block = .ok db2 ↔
      ∃ db1 data, WriteMinorBlockHeader c db block.Header = .ok db1 ∧
        c.serializeMinorBlock block = some data ∧
        db1.Put (blockKey (c.hashMinorBlock block)) data = some db2 := by
  unfold WriteMinorBlock
  rw [andThen_ok]
  constructor
  · rintro ⟨db1, h1, h2⟩
    cases hs : c.serializeMinorBlock block with
    | none => simp [hs] at h2
    | some data =>
      cases hp : db1.Put (blockKey (c.hashMinorBlock block)) data with
      | none => simp [hs, hp] at h2
      | some db3 =>
        simp only [hs, hp, Outcome.ok.injEq] at h2
        subst h2
        exact ⟨db1, data, h1, rfl, hp⟩
  · rintro ⟨db1, data, h1, h2, h3⟩
    exact ⟨db1, h1, by simp [h2, h3]⟩

theorem writeRootBlock_ok {c : Codec} {db db2 : Database} {block : RootBlock} :
    WriteRootBlock c db block = .ok db2 ↔
      ∃ db1 data, WriteRootBlockHeader c db block.Header = .ok db1 ∧
        c.serializeRootBlock block = some data ∧
        db1.Put (blockKey (c.hashRootBlock block)) data = some db2 := by
  unfold WriteRootBlock
  rw [andThen_ok]
  constructor
  · rintro ⟨db1, h1, h2⟩
    cases hs : c.serializeRootBlock block with
    | none => simp [hs] at h2
    | some data =>
      cases hp : db1.Put (blockKey (c.hashRootBlock block)) data with
      | none => simp [hs, hp] at h2
      | some db3 =>
        simp only [hs, hp, Outcome.ok.injEq] at h2
        subst h2
        exact ⟨db1, data, h1, rfl, hp⟩
  · rintro ⟨db1, data, h1, h2, h3⟩
    exact ⟨db1, h1, by simp [h2, h3]⟩

theorem deleteBlock_ok {db db1 : Database} {hash : Hash} :
    DeleteBlock db hash = .ok db1 ↔ db.Delete (blockKey hash) = some db1 := by
  unfold DeleteBlock
  split <;> simp_all

theorem writeTd_ok {c : Codec} {db db1 : Database} {hash : Hash} {td : Int} :
    WriteTd c db hash td = .ok db1 ↔
      ∃ data, c.serializeTd td = some data ∧ db.Put (headerTDKey hash) data = some db1 := by
  cases h1 : c.serializeTd td with
  | none => simp [WriteTd, h1]
  | some data => cases h2 : db.Put (headerTDKey hash) data <;> simp [WriteTd, h1, h2]

theorem deleteTd_ok {db db1 : Database} {hash : Hash} :
    DeleteTd db hash = .ok db1 ↔ db.Delete (headerTDKey hash) = some db1 := by
  unfold DeleteTd
  split <;> simp_all

theorem writeReceipts_ok {c : Codec} {db db1 : Database} {hash : Hash} {receipts : Receipts} :
    WriteReceipts c db hash receipts = .ok db1 ↔
      ∃ bytes, c.rlpEncodeReceipts receipts = some bytes ∧
        db.Put (blockReceiptsKey hash) bytes = some db1 := by
  cases h1 : c.rlpEncodeReceipts receipts with
  | none => simp [WriteReceipts, h1]
  | some data =>
    cases h2 : db.Put (blockReceiptsKey hash) data <;> simp [WriteReceipts, h1, h2]

theorem deleteReceipts_ok {db db1 : Database} {hash : Hash} :
    DeleteReceipts db hash = .ok db1 ↔ db.Delete (blockReceiptsKey hash) = some db1 := by
  unfold DeleteReceipts
  split <;> simp_all


theorem demo_deserialize_encode (h : MinorBlockHeader) (hn : h.Number < 2 ^ 64) :
    Demo.deserializeHeader (Demo.encodeHeader h) = some h := by
  have hlen : (Demo.encodeHeader h).length = 40 + h.Extra.length := by
    simp [Demo.encodeHeader, length_putUint64, length_hashBytes]
    omega
  have h8 : (Demo.encodeHeader h).take 8 = putUint64 h.Number :=
    List.take_left' (length_putUint64 _)
  have hd8 : (Demo.encodeHeader h).drop 8 = h.ParentHash.Bytes ++ h.Extra :=
    List.drop_left' (length_putUint64 _)
  have h32 : ((Demo.encodeHeader h).drop 8).take 32 = h.ParentHash.Bytes := by
    rw [hd8]
    exact List.take_left' (length_hashBytes _)
  have hd40 : (Demo.encodeHeader h).drop 40 = h.Extra := by
    have : (Demo.encodeHeader h).drop 40 = ((Demo.encodeHeader h).drop 8).drop 32 := by
      rw [List.drop_drop]
    rw [this, hd8]
    exact List.drop_left' (length_hashBytes _)
  have hlt : ¬ (Demo.encodeHeader h).length < 40 := by omega
  simp only [Demo.deserializeHeader, hlt, if_false, h8, h32, hd40, bigEndian_putUint64,
    bytesToHash_bytes, Nat.mod_eq_of_lt hn]

theorem demo_headerRoundTrip : Demo.codec.HeaderRoundTrip := by
  constructor
  · intro h data hs
    simp only [Demo.codec, Demo.serializeHeader] at hs
    split at hs
    · rename_i hn
      cases hs
      refine ⟨?_, demo_deserialize_encode h hn⟩
      simp [Demo.encodeHeader, putUint64]
    · cases hs
  · intro h data hs
    simp only [Demo.codec, Demo.serializeHeader] at hs
    split at hs
    · rename_i hn
      cases hs
      refine ⟨by simp [Demo.encodeHeader, putUint64], ?_⟩
      have := demo_deserialize_encode (Demo.toMinor h) hn
      simp only [Demo.codec, this, Option.map_some']
      rfl
    · cases hs

/-! ## Canonical mapping and headers: round trips -/

/-- C9 (canonical mapping round trip). After WriteCanonicalHash(c, H, n) returned, on any
store (with or without an earlier mapping for n), ReadCanonicalHash(c, n) is
H; after a following DeleteCanonicalHash(c, n) returned it is the zero hash. -/
theorem C9_canonical_hash_round_trip (db db1 : Database) (chainType : ChainType)
    (number : Nat) (hash : Hash)
    (hw : WriteCanonicalHash db chainType hash number = .ok db1) :
    ReadCanonicalHash db1 chainType number = hash ∧
      ∀ db2, DeleteCanonicalHash db1 chainType number = .ok db2 →
        ReadCanonicalHash db2 chainType number = Hash.zero := by
  obtain ⟨_, _, he⟩ := put_some (writeCanonicalHash_ok.mp hw)
  constructor
  · have h1 : db1.entries (headerHashKey chainType number) = some hash.Bytes := by
      rw [he]
      simp
    simp [ReadCanonicalHash, get_of_entry h1, length_hashBytes, bytesToHash_bytes]
  · intro db2 hd
    obtain ⟨_, _, he2⟩ := delete_some (deleteCanonicalHash_ok.mp hd)
    have h2 : db2.entries (headerHashKey chainType number) = none := by
      rw [he2]
      simp
    simp [ReadCanonicalHash, get_of_absent h2]

/-- C9, the scenario of the specification: chain type `Shard0`, number 5, hash `H5`,
on a store that already maps number 5 to another hash. -/
theorem C9_canonical_hash_round_trip_witness :
    ReadCanonicalHash
        (Database.ofList [(headerHashKey Demo.Shard0 5, (BytesToHash [9]).Bytes)])
        Demo.Shard0 5 = BytesToHash [9] ∧
      ReadCanonicalHash
        (WriteCanonicalHash
          (Database.ofList [(headerHashKey Demo.Shard0 5, (BytesToHash [9]).Bytes)])
          Demo.Shard0 Demo.H5 5).state Demo.Shard0 5 = Demo.H5 ∧
      ReadCanonicalHash
        (DeleteCanonicalHash
          (WriteCanonicalHash
            (Database.ofList [(headerHashKey Demo.Shard0 5, (BytesToHash [9]).Bytes)])
            Demo.Shard0 Demo.H5 5).state Demo.Shard0 5).state Demo.Shard0 5 = Hash.zero :=
  ⟨by decide,
    (C9_canonical_hash_round_trip
      (Database.ofList [(headerHashKey Demo.Shard0 5, (BytesToHash [9]).Bytes)])
      _ Demo.Shard0 5 Demo.H5 rfl).1,
    (C9_canonical_hash_round_trip
      (Database.ofList [(headerHashKey Demo.Shard0 5, (BytesToHash [9]).Bytes)])
      _ Demo.Shard0 5 Demo.H5 rfl).2 _ rfl⟩

/-- C7 (header round trip). With a codec whose decoding inverts its encoding (and that
never encodes a header as the empty string): after WriteMinorBlockHeader(h)
returned, ReadMinorBlockHeader(h.Hash()) is h itself; after a following
DeleteMinorBlockHeader(h.Hash()) returned, the header read and ReadHeaderNumber
both are absent. The same for root headers. -/
theorem C7_header_round_trip (c : Codec) (hc : c.HeaderRoundTrip) (db db1 : Database) :
    (∀ h : MinorBlockHeader, WriteMinorBlockHeader c db h = .ok db1 →
      ReadMinorBlockHeader c db1 (c.hashMinorHeader h) = some h ∧
        ∀ db2, DeleteMinorBlockHeader db1 (c.hashMinorHeader h) = .ok db2 →
          ReadMinorBlockHeader c db2 (c.hashMinorHeader h) = none ∧
            ReadHeaderNumber db2 (c.hashMinorHeader h) = none) ∧
    (∀ h : RootBlockHeader, WriteRootBlockHeader c db h = .ok db1 →
      ReadRootBlockHeader c db1 (c.hashRootHeader h) = some h ∧
        ∀ db2, DeleteRootBlockHeader db1 (c.hashRootHeader h) = .ok db2 →
          ReadRootBlockHeader c db2 (c.hashRootHeader h) = none ∧
            ReadHeaderNumber db2 (c.hashRootHeader h) = none) := by
  constructor
  · intro h hw
    obtain ⟨dbm, data, _, hs, hp⟩ := writeMinorBlockHeader_ok.mp hw
    obtain ⟨_, _, he⟩ := put_some hp
    obtain ⟨hne, hdec⟩ := hc.minor h data hs
    have h1 : db1.entries (headerKey (c.hashMinorHeader h)) = some data := by
      rw [he]
      simp
    refine ⟨?_, fun db2 hd => ?_⟩
    · have hl : data.length ≠ 0 := fun h0 => hne (List.length_eq_zero.mp h0)
      simp [ReadMinorBlockHeader, get_of_entry h1, hl, hdec]
    · obtain ⟨dbd, hd1, hd2⟩ := deleteMinorBlockHeader_ok.mp hd
      obtain ⟨_, _, e1⟩ := delete_some hd1
      obtain ⟨_, _, e2⟩ := delete_some hd2
      have a1 : db2.entries (headerKey (c.hashMinorHeader h)) = none := by
        rw [e2, e1]
        simp
      have a2 : db2.entries (headerNumberKey (c.hashMinorHeader h)) = none := by
        rw [e2]
        simp
      simp [ReadMinorBlockHeader, ReadHeaderNumber, get_of_absent a1, get_of_absent a2]
  · intro h hw
    obtain ⟨dbm, data, _, hs, hp⟩ := writeRootBlockHeader_ok.mp hw
    obtain ⟨_, _, he⟩ := put_some hp
    obtain ⟨hne, hdec⟩ := hc.root h data hs
    have h1 : db1.entries (headerKey (c.hashRootHeader h)) = some data := by
      rw [he]
      simp
    refine ⟨?_, fun db2 hd => ?_⟩
    · have hl : data.length ≠ 0 := fun h0 => hne (List.length_eq_zero.mp h0)
      simp [ReadRootBlockHeader, get_of_entry h1, hl, hdec]
    · obtain ⟨dbd, hd1, hd2⟩ := deleteRootBlockHeader_ok.mp hd
      obtain ⟨_, _, e1⟩ := delete_some hd1
      obtain ⟨_, _, e2⟩ := delete_some hd2
      have a1 : db2.entries (headerKey (c.hashRootHeader h)) = none := by
        rw [e2, e1]
        simp
      have a2 : db2.entries (headerNumberKey (c.hashRootHeader h)) = none := by
        rw [e2]
        simp
      simp [ReadRootBlockHeader, ReadHeaderNumber, get_of_absent a1, get_of_absent a2]

/-- C7 on the example codec: a header of height 7 is written to the store of the
example, read back, deleted, and read again. -/
theorem C7_header_round_trip_witness :
    ReadMinorBlockHeader Demo.codec
        (WriteMinorBlockHeader Demo.codec Demo.smallStore Demo.side7).state
        (Demo.codec.hashMinorHeader Demo.side7) = some Demo.side7 ∧
      ReadHeaderNumber (WriteMinorBlockHeader Demo.codec Demo.smallStore Demo.side7).state
        (Demo.codec.hashMinorHeader Demo.side7) = some 7 ∧
      (ReadMinorBlockHeader Demo.codec
          (DeleteMinorBlockHeader
            (WriteMinorBlockHeader Demo.codec Demo.smallStore Demo.side7).state
            (Demo.codec.hashMinorHeader Demo.side7)).state
          (Demo.codec.hashMinorHeader Demo.side7) = none ∧
        ReadHeaderNumber
          (DeleteMinorBlockHeader
            (WriteMinorBlockHeader Demo.codec Demo.smallStore Demo.side7).state
            (Demo.codec.hashMinorHeader Demo.side7)).state
          (Demo.codec.hashMinorHeader Demo.side7) = none) ∧
      ReadRootBlockHeader Demo.codec
        (WriteRootBlockHeader Demo.codec Demo.smallStore (Demo.toRoot Demo.side7)).state
        (Demo.codec.hashRootHeader (Demo.toRoot Demo.side7)) = some (Demo.toRoot Demo.side7) ∧
      (ReadRootBlockHeader Demo.codec
          (DeleteRootBlockHeader
            (WriteRootBlockHeader Demo.codec Demo.smallStore (Demo.toRoot Demo.side7)).state
            (Demo.codec.hashRootHeader (Demo.toRoot Demo.side7))).state
          (Demo.codec.hashRootHeader (Demo.toRoot Demo.side7)) = none ∧
        ReadHeaderNumber
          (DeleteRootBlockHeader
            (WriteRootBlockHeader Demo.codec Demo.smallStore (Demo.toRoot Demo.side7)).state
            (Demo.codec.hashRootHeader (Demo.toRoot Demo.side7))).state
          (Demo.codec.hashRootHeader (Demo.toRoot Demo.side7)) = none) :=
  ⟨((C7_header_round_trip Demo.codec demo_headerRoundTrip Demo.smallStore _).1
      Demo.side7 rfl).1,
    by decide,
    ((C7_header_round_trip Demo.codec demo_headerRoundTrip Demo.smallStore _).1
      Demo.side7 rfl).2 _ rfl,
    ((C7_header_round_trip Demo.codec demo_headerRoundTrip Demo.smallStore _).2
      (Demo.toRoot Demo.side7) rfl).1,
    ((C7_header_round_trip Demo.codec demo_headerRoundTrip Demo.smallStore _).2
      (Demo.toRoot Demo.side7) rfl).2 _ rfl⟩


/-! ## The reverse index -/

theorem headerOfHeightAt_congr {c : Codec} {db db1 : Database} {hash : Hash} {n : Nat}
    (he : db1.entries (headerKey hash) = db.entries (headerKey hash))
    (h : HeaderOfHeightAt c db hash n) : HeaderOfHeightAt c db1 hash n := by
  unfold HeaderOfHeightAt at h ⊢
  rw [he]
  exact h

theorem inv_of_same_index {c : Codec} {db db1 : Database} (h : HeaderIndexInv c db)
    (he : ∀ hash, db1.entries (headerKey hash) = db.entries (headerKey hash) ∧
      db1.entries (headerNumberKey hash) = db.entries (headerNumberKey hash)) :
    HeaderIndexInv c db1 := by
  intro hash
  rcases h hash with ⟨h1, h2⟩ | ⟨n, hn, h1, h2⟩
  · exact Or.inl ⟨by rw [(he hash).1, h1], by rw [(he hash).2, h2]⟩
  · exact Or.inr ⟨n, hn, by rw [(he hash).2, h1], headerOfHeightAt_congr (he hash).1 h2⟩

theorem inv_put_other {c : Codec} {db db1 : Database} {k : Key} {v : Bytes}
    (h : HeaderIndexInv c db) (hk1 : ∀ hash, headerKey hash ≠ k)
    (hk2 : ∀ hash, headerNumberKey hash ≠ k) (hp : db.Put k v = some db1) :
    HeaderIndexInv c db1 := by
  obtain ⟨_, _, he⟩ := put_some hp
  exact inv_of_same_index h fun hash => ⟨by rw [he, if_neg (hk1 hash)], by rw [he, if_neg (hk2 hash)]⟩

theorem inv_delete_other {c : Codec} {db db1 : Database} {k : Key}
    (h : HeaderIndexInv c db) (hk1 : ∀ hash, headerKey hash ≠ k)
    (hk2 : ∀ hash, headerNumberKey hash ≠ k) (hp : db.Delete k = some db1) :
    HeaderIndexInv c db1 := by
  obtain ⟨_, _, he⟩ := delete_some hp
  exact inv_of_same_index h fun hash => ⟨by rw [he, if_neg (hk1 hash)], by rw [he, if_neg (hk2 hash)]⟩

theorem inv_write_header {c : Codec} {db dbm db1 : Database} {x : Hash} {n : Nat}
    {data : Bytes} (h : HeaderIndexInv c db) (hn : n < 2 ^ 64)
    (hp1 : db.Put (headerNumberKey x) (encodeBlockNumber n) = some dbm)
    (hp2 : dbm.Put (headerKey x) data = some db1)
    (hdata : (∃ hd : MinorBlockHeader, c.hashMinorHeader hd = x ∧ hd.Number = n ∧
        c.serializeMinorHeader hd = some data) ∨
      (∃ hd : RootBlockHeader, c.hashRootHeader hd = x ∧ hd.NumberU64 = n ∧
        c.serializeRootHeader hd = some data)) :
    HeaderIndexInv c db1 := by
  obtain ⟨_, _, e1⟩ := put_some hp1
  obtain ⟨_, _, e2⟩ := put_some hp2
  intro hash
  by_cases hx : hash = x
  · subst hx
    have a1 : db1.entries (headerKey hash) = some data := by
      rw [e2]
      simp
    have a2 : db1.entries (headerNumberKey hash) = some (encodeBlockNumber n) := by
      rw [e2, e1]
      simp
    refine Or.inr ⟨n, hn, a2, ?_⟩
    rcases hdata with ⟨hd, h1, h2, h3⟩ | ⟨hd, h1, h2, h3⟩
    · exact Or.inl ⟨hd, h1, h2, data, h3, a1⟩
    · exact Or.inr ⟨hd, h1, h2, data, h3, a1⟩
  · have a1 : db1.entries (headerKey hash) = db.entries (headerKey hash) := by
      rw [e2, e1]
      simp [hx]
    have a2 : db1.entries (headerNumberKey hash) = db.entries (headerNumberKey hash) := by
      rw [e2, e1]
      simp [hx]
    rcases h hash with ⟨h1, h2⟩ | ⟨m, hm, h1, h2⟩
    · exact Or.inl ⟨by rw [a1, h1], by rw [a2, h2]⟩
    · exact Or.inr ⟨m, hm, by rw [a2, h1], headerOfHeightAt_congr a1 h2⟩

theorem inv_delete_header {c : Codec} {db dbm db1 : Database} {x : Hash}
    (h : HeaderIndexInv c db) (hd1 : db.Delete (headerKey x) = some dbm)
    (hd2 : dbm.Delete (headerNumberKey x) = some db1) : HeaderIndexInv c db1 := by
  obtain ⟨_, _, e1⟩ := delete_some hd1
  obtain ⟨_, _, e2⟩ := delete_some hd2
  intro hash
  by_cases hx : hash = x
  · subst hx
    refine Or.inl ⟨?_, ?_⟩
    · rw [e2, e1]
      simp
    · rw [e2]
      simp
  · have a1 : db1.entries (headerKey hash) = db.entries (headerKey hash) := by
      rw [e2, e1]
      simp [hx]
    have a2 : db1.entries (headerNumberKey hash) = db.entries (headerNumberKey hash) := by
      rw [e2, e1]
      simp [hx]
    rcases h hash with ⟨h1, h2⟩ | ⟨m, hm, h1, h2⟩
    · exact Or.inl ⟨by rw [a1, h1], by rw [a2, h2]⟩
    · exact Or.inr ⟨m, hm, by rw [a2, h1], headerOfHeightAt_congr a1 h2⟩

theorem inv_writeMinorBlockHeader {c : Codec} {db db1 : Database} {header : MinorBlockHeader}
    (h : HeaderIndexInv c db) (hn : header.Number < 2 ^ 64)
    (hw : WriteMinorBlockHeader c db header = .ok db1) : HeaderIndexInv c db1 := by
  obtain ⟨dbm, data, h1, h2, h3⟩ := writeMinorBlockHeader_ok.mp hw
  exact inv_write_header h hn h1 h3 (Or.inl ⟨header, rfl, rfl, h2⟩)

theorem inv_writeRootBlockHeader {c : Codec} {db db1 : Database} {header : RootBlockHeader}
    (h : HeaderIndexInv c db) (hn : header.NumberU64 < 2 ^ 64)
    (hw : WriteRootBlockHeader c db header = .ok db1) : HeaderIndexInv c db1 := by
  obtain ⟨dbm, data, h1, h2, h3⟩ := writeRootBlockHeader_ok.mp hw
  exact inv_write_header h hn h1 h3 (Or.inr ⟨header, rfl, rfl, h2⟩)

theorem inv_step {c : Codec} {db db1 : Database} (op : Op) (h : HeaderIndexInv c db)
    (hr : op.InRange) (hrun : op.run c db = .ok db1) : HeaderIndexInv c db1 := by
  cases op with
  | writeCanonicalHash ct hash n =>
    exact inv_put_other h (by simp) (by simp) (writeCanonicalHash_ok.mp hrun)
  | deleteCanonicalHash ct n =>
    exact inv_delete_other h (by simp) (by simp) (deleteCanonicalHash_ok.mp hrun)
  | writeHeadHeaderHash hash =>
    exact inv_put_other h (by simp) (by simp) (writeHeadHeaderHash_ok.mp hrun)
  | writeHeadBlockHash hash =>
    exact inv_put_other h (by simp) (by simp) (writeHeadBlockHash_ok.mp hrun)
  | writeHeadFastBlockHash hash =>
    exact inv_put_other h (by simp) (by simp) (writeHeadFastBlockHash_ok.mp hrun)
  | writeFastTrieProgress count =>
    exact inv_put_other h (by simp) (by simp) (writeFastTrieProgress_ok.mp hrun)
  | writeMinorBlockHeader header => exact inv_writeMinorBlockHeader h hr hrun
  | deleteMinorBlockHeader hash =>
    obtain ⟨dbm, h1, h2⟩ := deleteMinorBlockHeader_ok.mp hrun
    exact inv_delete_header h h1 h2
  | writeRootBlockHeader header => exact inv_writeRootBlockHeader h hr hrun
  | deleteRootBlockHeader hash =>
    obtain ⟨dbm, h1, h2⟩ := deleteRootBlockHeader_ok.mp hrun
    exact inv_delete_header h h1 h2
  | writeMinorBlock block =>
    obtain ⟨dbm, data, h1, _, h3⟩ := writeMinorBlock_ok.mp hrun
    exact inv_put_other (inv_writeMinorBlockHeader h hr h1) (by simp) (by simp) h3
  | writeRootBlock block =>
    obtain ⟨dbm, data, h1, _, h3⟩ := writeRootBlock_ok.mp hrun
    exact inv_put_other (inv_writeRootBlockHeader h hr h1) (by simp) (by simp) h3
  | deleteBlock hash =>
    exact inv_delete_other h (by simp) (by simp) (deleteBlock_ok.mp hrun)
  | writeTd hash td =>
    obtain ⟨data, _, h2⟩ := writeTd_ok.mp hrun
    exact inv_put_other h (by simp) (by simp) h2
  | deleteTd hash =>
    exact inv_delete_other h (by simp) (by simp) (deleteTd_ok.mp hrun)
  | writeReceipts hash receipts =>
    obtain ⟨data, _, h2⟩ := writeReceipts_ok.mp hrun
    exact inv_put_other h (by simp) (by simp) h2
  | deleteReceipts hash =>
    exact inv_delete_other h (by simp) (by simp) (deleteReceipts_ok.mp hrun)
  | deleteMinorBlock hash =>
    simp only [Op.run, DeleteMinorBlock, andThen_ok] at hrun
    obtain ⟨d1, h1, d2, h2, d3, h3, h4⟩ := hrun
    obtain ⟨dm, h2a, h2b⟩ := deleteMinorBlockHeader_ok.mp h2
    have i1 := inv_delete_other h (by simp) (by simp) (deleteReceipts_ok.mp h1)
    have i2 := inv_delete_header i1 h2a h2b
    have i3 := inv_delete_other i2 (by simp) (by simp) (deleteBlock_ok.mp h3)
    exact inv_delete_other i3 (by simp) (by simp) (deleteTd_ok.mp h4)
  | deleteRootBlock hash =>
    simp only [Op.run, DeleteRootBlock, andThen_ok] at hrun
    obtain ⟨d1, h1, d2, h2, h3⟩ := hrun
    obtain ⟨dm, h1a, h1b⟩ := deleteRootBlockHeader_ok.mp h1
    have i1 := inv_delete_header h h1a h1b
    have i2 := inv_delete_other i1 (by simp) (by simp) (deleteBlock_ok.mp h2)
    exact inv_delete_other i2 (by simp) (by simp) (deleteTd_ok.mp h3)

theorem inv_of_reachable {c : Codec} {db : Database} (h : Reachable c db) :
    HeaderIndexInv c db := by
  induction h with
  | empty w => exact fun hash => Or.inl ⟨rfl, rfl⟩
  | step db db1 op _ hr hrun ih => exact inv_step op ih hr hrun

/-- C8 (reverse-mapping consistency). In every store state reached from an empty store
by accessor-layer writes and deletes that returned, for every hash: HasHeader
holds if and only if ReadHeaderNumber returns a number, and a returned number
is the height of the header whose encoding is stored under that hash. -/
theorem C8_reverse_mapping_consistency (c : Codec) (db : Database) (hr : Reachable c db)
    (hash : Hash) :
    (HasHeader db hash = true ↔ (ReadHeaderNumber db hash).isSome = true) ∧
      ∀ n, ReadHeaderNumber db hash = some n → HeaderOfHeightAt c db hash n := by
  have hinv := inv_of_reachable hr hash
  rcases hinv with ⟨h1, h2⟩ | ⟨m, hm, h1, h2⟩
  · have r1 : HasHeader db hash = false := by simp [HasHeader, Database.Has, h1]
    have r2 : ReadHeaderNumber db hash = none := by
      simp [ReadHeaderNumber, get_of_absent h2]
    simp [r1, r2]
  · have hstored : (db.entries (headerKey hash)).isSome = true := by
      rcases h2 with ⟨_, _, _, data, _, he⟩ | ⟨_, _, _, data, _, he⟩ <;> simp [he]
    have r1 : HasHeader db hash = true := by simp [HasHeader, Database.Has, hstored]
    have r2 : ReadHeaderNumber db hash = some m := by
      have hmod : m % 2 ^ 64 = m := Nat.mod_eq_of_lt hm
      simp only [ReadHeaderNumber, get_of_entry h1, length_encodeBlockNumber,
        bigEndian_encodeBlockNumber, hmod, ne_eq, not_true_eq_false, if_false]
    refine ⟨by simp [r1, r2], fun n hn => ?_⟩
    rw [r2] at hn
    cases hn
    exact h2

/-- C8 on a run of the example: a minor header and a root block are written, a head
pointer is set, the minor block is deleted and the total difficulty of the root
block is written; the root header and its number are present, the minor header
and its number are absent. -/
theorem C8_reverse_mapping_consistency_witness :
    HasHeader Demo.indexStore (Demo.codec.hashRootHeader (Demo.toRoot Demo.main1)) = true ∧
      ReadHeaderNumber Demo.indexStore (Demo.codec.hashRootHeader (Demo.toRoot Demo.main1))
        = some 1 ∧
      HasHeader Demo.indexStore (Demo.codec.hashMinorHeader Demo.main0) = false ∧
      ReadHeaderNumber Demo.indexStore (Demo.codec.hashMinorHeader Demo.main0) = none ∧
      ((HasHeader Demo.indexStore (Demo.codec.hashRootHeader (Demo.toRoot Demo.main1)) = true ↔
          (ReadHeaderNumber Demo.indexStore
            (Demo.codec.hashRootHeader (Demo.toRoot Demo.main1))).isSome = true) ∧
        ∀ n, ReadHeaderNumber Demo.indexStore
            (Demo.codec.hashRootHeader (Demo.toRoot Demo.main1)) = some n →
          HeaderOfHeightAt Demo.codec Demo.indexStore
            (Demo.codec.hashRootHeader (Demo.toRoot Demo.main1)) n) :=
  ⟨by decide, by decide, by decide, by decide,
    C8_reverse_mapping_consistency Demo.codec Demo.indexStore
      (Reachable.step _ _ (.writeTd (Demo.codec.hashRootHeader (Demo.toRoot Demo.main1)) 12)
        (Reachable.step _ _ (.deleteMinorBlock (Demo.codec.hashMinorHeader Demo.main0))
          (Reachable.step _ _ (.writeHeadHeaderHash Demo.H5)
            (Reachable.step _ _ (.writeRootBlock ⟨Demo.toRoot Demo.main1, [1, 2, 3]⟩)
              (Reachable.step _ _ (.writeMinorBlockHeader Demo.main0)
                (Reachable.empty fun _ => false)
                (by unfold Op.InRange; decide) rfl)
              (by unfold Op.InRange; decide) rfl)
            trivial rfl)
          trivial rfl)
        trivial rfl)
      (Demo.codec.hashRootHeader (Demo.toRoot Demo.main1))⟩

/-! ## The resolver: identity and the two instances -/

theorem lockstep_same {H : Type} (ch : Chain H) (fuel : Nat) (a : H) :
    ch.lockstep fuel a a = .ret (some a) := by
  cases fuel <;> simp [Chain.lockstep]

theorem resolve_same {H : Type} (ch : Chain H) (fuel : Nat) (a : H) :
    ch.resolve fuel a a = .ret (some a) := by
  simp only [Chain.resolve, Chain.descend_noop fuel (le_refl (ch.height a)), lockstep_same]

/-- C16 (identity). For every store, also one with no entry, every header `a` and every
fuel, also fuel 0 with which no loop iteration and so no store lookup can take
place, FindCommonMinorAncestor(db, a, a) and FindCommonRootAncestor(db, a, a)
return `a`. -/
theorem C16_same_header_is_own_ancestor :
    (∀ (c : Codec) (db : Database) (fuel : Nat) (a : MinorBlockHeader),
      FindCommonMinorAncestor c db fuel a a = .ret (some a) ∧
        FindCommonMinorAncestor c (Database.empty fun _ => false) 0 a a = .ret (some a)) ∧
    (∀ (c : Codec) (db : Database) (fuel : Nat) (a : RootBlockHeader),
      FindCommonRootAncestor c db fuel a a = .ret (some a) ∧
        FindCommonRootAncestor c (Database.empty fun _ => false) 0 a a = .ret (some a)) := by
  constructor
  · intro c db fuel a
    simp only [FindCommonMinorAncestor_eq, resolve_same, and_self]
  · intro c db fuel a
    simp only [FindCommonRootAncestor_eq, resolve_same, and_self]

theorem descend_rel {α β : Type} {R : α → β → Prop} {ch1 : Chain α} {ch2 : Chain β}
    (hc : Chain.Corresponds R ch1 ch2) (bound fuel : Nat) {a : α} {b : β} (hab : R a b) :
    Exec.Rel R (ch1.descend bound fuel a) (ch2.descend bound fuel b) := by
  induction fuel generalizing a b with
  | zero =>
    simp only [Chain.descend, ← hc.height a b hab]
    split
    · exact Exec.Rel.timeout
    · exact Exec.Rel.found a b hab
  | succ n ih =>
    simp only [Chain.descend, ← hc.height a b hab, ← hc.parentHash a b hab]
    split
    · rcases hc.lookup (ch1.parentHash a) with ⟨h1, h2⟩ | ⟨p, q, h1, h2, hpq⟩
      · simp only [h1, h2]
        exact Exec.Rel.absent
      · simp only [h1, h2]
        exact ih hpq
    · exact Exec.Rel.found a b hab

theorem lockstep_rel {α β : Type} {R : α → β → Prop} {ch1 : Chain α} {ch2 : Chain β}
    (hc : Chain.Corresponds R ch1 ch2) (fuel : Nat) {a1 b1 : α} {a2 b2 : β}
    (ha : R a1 a2) (hb : R b1 b2) :
    Exec.Rel R (ch1.lockstep fuel a1 b1) (ch2.lockstep fuel a2 b2) := by
  induction fuel generalizing a1 b1 a2 b2 with
  | zero =>
    simp only [Chain.lockstep, ← hc.hash a1 a2 ha, ← hc.hash b1 b2 hb]
    split
    · exact Exec.Rel.timeout
    · exact Exec.Rel.found a1 a2 ha
  | succ n ih =>
    simp only [Chain.lockstep, ← hc.hash a1 a2 ha, ← hc.hash b1 b2 hb,
      ← hc.parentHash a1 a2 ha, ← hc.parentHash b1 b2 hb]
    split
    · rcases hc.lookup (ch1.parentHash a1) with ⟨h1, h2⟩ | ⟨p, q, h1, h2, hpq⟩
      · simp only [h1, h2]
        exact Exec.Rel.absent
      · simp only [h1, h2]
        rcases hc.lookup (ch1.parentHash b1) with ⟨h3, h4⟩ | ⟨p2, q2, h3, h4, hpq2⟩
        · simp only [h3, h4]
          exact Exec.Rel.absent
        · simp only [h3, h4]
          exact ih hpq hpq2
    · exact Exec.Rel.found a1 a2 ha

theorem rel_cases {α β : Type} {R : α → β → Prop} {x : Exec α} {y : Exec β}
    (h : Exec.Rel R x y) :
    (x = .timeout ∧ y = .timeout) ∨ (x = .ret none ∧ y = .ret none) ∨
      ∃ a b, x = .ret (some a) ∧ y = .ret (some b) ∧ R a b := by
  cases h with
  | timeout => exact Or.inl ⟨rfl, rfl⟩
  | absent => exact Or.inr (Or.inl ⟨rfl, rfl⟩)
  | found a b hab => exact Or.inr (Or.inr ⟨a, b, rfl, rfl, hab⟩)

theorem resolve_rel {α β : Type} {R : α → β → Prop} {ch1 : Chain α} {ch2 : Chain β}
    (hc : Chain.Corresponds R ch1 ch2) (fuel : Nat) {a1 b1 : α} {a2 b2 : β}
    (ha : R a1 a2) (hb : R b1 b2) :
    Exec.Rel R (ch1.resolve fuel a1 b1) (ch2.resolve fuel a2 b2) := by
  simp only [Chain.resolve, ← hc.height b1 b2 hb]
  rcases rel_cases (descend_rel hc (ch1.height b1) fuel ha) with
    ⟨e1, e2⟩ | ⟨e1, e2⟩ | ⟨x, y, e1, e2, hxy⟩
  · simp only [e1, e2]
    exact Exec.Rel.timeout
  · simp only [e1, e2]
    exact Exec.Rel.absent
  · simp only [e1, e2, ← hc.height x y hxy]
    rcases rel_cases (descend_rel hc (ch1.height x) fuel hb) with
      ⟨e3, e4⟩ | ⟨e3, e4⟩ | ⟨u, v, e3, e4, huv⟩
    · simp only [e3, e4]
      exact Exec.Rel.timeout
    · simp only [e3, e4]
      exact Exec.Rel.absent
    · simp only [e3, e4]
      exact lockstep_rel hc fuel hxy huv

theorem demo_corresponds (db : Database) :
    Chain.Corresponds (fun a b => b = Demo.toRoot a) (minorChain Demo.codec db)
      (rootChain Demo.codec db) := by
  constructor
  · rintro a b rfl
    rfl
  · rintro a b rfl
    rfl
  · rintro a b rfl
    rfl
  · intro k
    simp only [minorChain, rootChain, ReadMinorBlockHeader, ReadRootBlockHeader, Demo.codec]
    split
    · exact Or.inl ⟨rfl, rfl⟩
    · cases hd : Demo.deserializeHeader (db.Get (headerKey k)).1 with
      | none => exact Or.inl ⟨rfl, rfl⟩
      | some h => exact Or.inr ⟨h, Demo.toRoot h, rfl, rfl, rfl⟩

/-- C18 (one algorithm, two instances). FindCommonMinorAncestor and
FindCommonRootAncestor are the generic resolver at the capability sets of the
minor and of the root hierarchy; and under a correspondence of minor and root
headers that preserves height, hash and parent hash, on stores whose header
lookups correspond, they give corresponding answers on corresponding inputs,
for every fuel. -/
theorem C18_two_instances_of_one_resolver :
    (∀ (c : Codec) (db : Database) (fuel : Nat) (a b : MinorBlockHeader),
      FindCommonMinorAncestor c db fuel a b = (minorChain c db).resolve fuel a b) ∧
    (∀ (c : Codec) (db : Database) (fuel : Nat) (a b : RootBlockHeader),
      FindCommonRootAncestor c db fuel a b = (rootChain c db).resolve fuel a b) ∧
    (∀ (c1 c2 : Codec) (db1 db2 : Database) (R : MinorBlockHeader → RootBlockHeader → Prop),
      Chain.Corresponds R (minorChain c1 db1) (rootChain c2 db2) →
      ∀ (fuel : Nat) (a1 b1 : MinorBlockHeader) (a2 b2 : RootBlockHeader),
        R a1 a2 → R b1 b2 →
        Exec.Rel R (FindCommonMinorAncestor c1 db1 fuel a1 b1)
          (FindCommonRootAncestor c2 db2 fuel a2 b2)) := by
  refine ⟨FindCommonMinorAncestor_eq, FindCommonRootAncestor_eq, ?_⟩
  intro c1 c2 db1 db2 R hc fuel a1 b1 a2 b2 ha hb
  rw [FindCommonMinorAncestor_eq, FindCommonRootAncestor_eq]
  exact resolve_rel hc fuel ha hb

/-- C18 on the example codec, whose root headers have the layout of its minor headers:
on the same store the two functions give corresponding answers. -/
theorem C18_two_instances_of_one_resolver_witness :
    Exec.Rel (fun a b => b = Demo.toRoot a)
      (FindCommonMinorAncestor Demo.codec Demo.smallStore 2 Demo.main2 Demo.main1)
      (FindCommonRootAncestor Demo.codec Demo.smallStore 2 (Demo.toRoot Demo.main2)
        (Demo.toRoot Demo.main1)) :=
  C18_two_instances_of_one_resolver.2.2 Demo.codec Demo.codec Demo.smallStore Demo.smallStore
    (fun a b => b = Demo.toRoot a) (demo_corresponds Demo.smallStore) 2 Demo.main2 Demo.main1
    (Demo.toRoot Demo.main2) (Demo.toRoot Demo.main1) rfl rfl

theorem bigEndian_cons_zero (l : Bytes) : bigEndian (0 :: l) = bigEndian l := by
  simp [bigEndian]

theorem bigEndian_dropWhile_zero (l : Bytes) :
    bigEndian (l.dropWhile fun b => b = 0) = bigEndian l := by
  induction l with
  | nil => rfl
  | cons b l ih =>
    by_cases hb : b = 0
    · subst hb
      simp only [List.dropWhile_cons, decide_True, if_true, bigEndian_cons_zero]
      exact ih
    · simp [List.dropWhile_cons, hb]

theorem bigEndian_bigBytes (n : Nat) : bigEndian (bigBytes n) = n % 2 ^ 64 := by
  simp only [bigBytes, bigEndian_dropWhile_zero, bigEndian_putUint64, Nat.mod_mod]

/-! ## Progress counter and receipts -/

/-- C19 (fast-sync progress counter). For every store and every `uint64` count `n`,
after WriteFastTrieProgress(n) returned, ReadFastTrieProgress is `n`; the count
0 is stored as the empty byte string; and on a store with no entry for the
counter the read is 0. -/
theorem C19_fast_trie_progress_round_trip :
    (∀ (db db1 : Database) (n : Nat), n < 2 ^ 64 →
      WriteFastTrieProgress db n = .ok db1 → ReadFastTrieProgress db1 = n) ∧
    bigBytes 0 = [] ∧
    (∀ db : Database, db.entries fastTrieProgressKey = none → ReadFastTrieProgress db = 0) := by
  refine ⟨?_, by decide, ?_⟩
  · intro db db1 n hn hw
    obtain ⟨_, _, he⟩ := put_some (writeFastTrieProgress_ok.mp hw)
    have h1 : db1.entries fastTrieProgressKey = some (bigBytes n) := by
      rw [he]
      simp
    have hmod : n % 2 ^ 64 = n := Nat.mod_eq_of_lt hn
    simp only [ReadFastTrieProgress, get_of_entry h1]
    split
    · rename_i hl
      have : bigBytes n = [] := List.length_eq_zero.mp hl
      have h2 := bigEndian_bigBytes n
      rw [this, hmod] at h2
      simpa [bigEndian] using h2
    · rw [bigEndian_bigBytes, Nat.mod_mod, hmod]
  · intro db h
    simp [ReadFastTrieProgress, get_of_absent h]

/-- C19 on the counts 0, 2^64 - 1 and 300 and on an empty store. -/
theorem C19_fast_trie_progress_round_trip_witness :
    ReadFastTrieProgress (WriteFastTrieProgress Demo.smallStore 0).state = 0 ∧
      ReadFastTrieProgress (WriteFastTrieProgress Demo.smallStore (2 ^ 64 - 1)).state
        = 2 ^ 64 - 1 ∧
      ReadFastTrieProgress (WriteFastTrieProgress Demo.smallStore 300).state = 300 ∧
      bigBytes 300 = [1, 44] ∧
      ReadFastTrieProgress (Database.empty fun _ => false) = 0 :=
  ⟨C19_fast_trie_progress_round_trip.1 Demo.smallStore _ 0 (by decide) rfl,
    C19_fast_trie_progress_round_trip.1 Demo.smallStore _ (2 ^ 64 - 1) (by decide) rfl,
    C19_fast_trie_progress_round_trip.1 Demo.smallStore _ 300 (by decide) rfl,
    by decide,
    C19_fast_trie_progress_round_trip.2.2 (Database.empty fun _ => false) rfl⟩

/-- C13 (receipts round trip). For every store, hash and sequence of receipts, of any
length, whose encoding the codec decodes back to it (and does not write as the
empty string): after WriteReceipts(hash, receipts) returned, ReadReceipts(hash)
is the same sequence, with the same length and the same receipt at every
position. -/
theorem C13_receipts_round_trip (c : Codec) (db db1 : Database) (hash : Hash)
    (receipts : Receipts)
    (hrt : ∀ data, c.rlpEncodeReceipts receipts = some data →
      data ≠ [] ∧ c.rlpDecodeReceipts data = some receipts)
    (hw : WriteReceipts c db hash receipts = .ok db1) :
    ReadReceipts c db1 hash = some receipts ∧
      ∀ rs, ReadReceipts c db1 hash = some rs →
        rs.length = receipts.length ∧ ∀ i : Nat, rs.get? i = receipts.get? i := by
  obtain ⟨data, hs, hp⟩ := writeReceipts_ok.mp hw
  obtain ⟨_, _, he⟩ := put_some hp
  obtain ⟨hne, hdec⟩ := hrt data hs
  have h1 : db1.entries (blockReceiptsKey hash) = some data := by
    rw [he]
    simp
  have hl : data.length ≠ 0 := fun h0 => hne (List.length_eq_zero.mp h0)
  have hread : ReadReceipts c db1 hash = some receipts := by
    simp [ReadReceipts, get_of_entry h1, hl, hdec]
  refine ⟨hread, fun rs hrs => ?_⟩
  rw [hread] at hrs
  cases hrs
  exact ⟨rfl, fun _ => rfl⟩

/-- C13 on the example codec, with three receipts and with none. -/
theorem C13_receipts_round_trip_witness :
    ReadReceipts Demo.codec
        (WriteReceipts Demo.codec Demo.smallStore Demo.H5 Demo.receipts3).state Demo.H5
        = some Demo.receipts3 ∧
      ReadReceipts Demo.codec (WriteReceipts Demo.codec Demo.smallStore Demo.H5 []).state
        Demo.H5 = some [] ∧
      ReadReceipts Demo.codec Demo.smallStore Demo.H5 = none :=
  ⟨(C13_receipts_round_trip Demo.codec Demo.smallStore _ Demo.H5 Demo.receipts3
      (fun data hd => by
        have hd2 : data = 192 :: Demo.encodeReceiptList Demo.receipts3 :=
          (Option.some.inj hd).symm
        subst hd2
        decide) rfl).1,
    (C13_receipts_round_trip Demo.codec Demo.smallStore _ Demo.H5 []
      (fun data hd => by
        have hd2 : data = 192 :: Demo.encodeReceiptList [] := (Option.some.inj hd).symm
        subst hd2
        decide) rfl).1,
    by decide⟩

/-! ## Composite delete -/

theorem deleteMinorBlock_eq (db : Database) (hash : Hash) :
    DeleteMinorBlock db hash = db.deleteInOrder
      [blockReceiptsKey hash, headerKey hash, headerNumberKey hash, blockKey hash,
        headerTDKey hash] := by
  simp only [DeleteMinorBlock, DeleteReceipts, DeleteMinorBlockHeader, DeleteBlock, DeleteTd,
    Database.deleteInOrder]
  cases h1 : db.Delete (blockReceiptsKey hash) with
  | none => rfl
  | some d1 =>
    simp only [Outcome.andThen]
    cases h2 : d1.Delete (headerKey hash) with
    | none => rfl
    | some d2 =>
      simp only
      cases h3 : d2.Delete (headerNumberKey hash) with
      | none => rfl
      | some d3 =>
        simp only [Outcome.andThen]
        cases h4 : d3.Delete (blockKey hash) with
        | none => rfl
        | some d4 =>
          cases h5 : d4.Delete (headerTDKey hash) <;> rfl

theorem deleteInOrder_ok {db db1 : Database} {ks : List Key}
    (h : db.deleteInOrder ks = .ok db1) :
    db1.writeErr = db.writeErr ∧
      ∀ k, db1.entries k = if k ∈ ks then none else db.entries k := by
  induction ks generalizing db with
  | nil =>
    simp only [Database.deleteInOrder, Outcome.ok.injEq] at h
    subst h
    exact ⟨rfl, fun k => by simp⟩
  | cons k0 ks ih =>
    simp only [Database.deleteInOrder] at h
    cases hd : db.Delete k0 with
    | none => simp [hd] at h
    | some d =>
      simp only [hd] at h
      obtain ⟨w1, _, e1⟩ := delete_some hd
      obtain ⟨w2, e2⟩ := ih h
      refine ⟨by rw [w2, w1], fun k => ?_⟩
      rw [e2, e1]
      by_cases hk : k = k0
      · simp [hk]
      · simp [hk]

/-- C17 (composite delete). DeleteMinorBlock(h) issues its deletes in the fixed order
receipts, header, hash-to-number, body, total difficulty, and stops at the
first that fails. When it returned, the store is the store before without those
five entries of `h` and otherwise unchanged: HasReceipts, HasHeader and
HasBlock of `h` are false, ReadTd and ReadHeaderNumber of `h` are absent, and
the entries of every other hash, the canonical mapping, the head pointers and
the progress counter are as before. -/
theorem C17_delete_minor_block (db : Database) (hash : Hash) :
    DeleteMinorBlock db hash = db.deleteInOrder
        [blockReceiptsKey hash, headerKey hash, headerNumberKey hash, blockKey hash,
          headerTDKey hash] ∧
      ∀ db1, DeleteMinorBlock db hash = .ok db1 →
        db1.writeErr = db.writeErr ∧
        (∀ k, db1.entries k =
          if k ∈ [blockReceiptsKey hash, headerKey hash, headerNumberKey hash, blockKey hash,
            headerTDKey hash] then none else db.entries k) ∧
        HasReceipts db1 hash = false ∧ HasHeader db1 hash = false ∧
        HasBlock db1 hash = false ∧ (∀ c : Codec, ReadTd c db1 hash = none) ∧
        ReadHeaderNumber db1 hash = none ∧
        (∀ other, other ≠ hash →
          db1.entries (blockReceiptsKey other) = db.entries (blockReceiptsKey other) ∧
          db1.entries (headerKey other) = db.entries (headerKey other) ∧
          db1.entries (headerNumberKey other) = db.entries (headerNumberKey other) ∧
          db1.entries (blockKey other) = db.entries (blockKey other) ∧
          db1.entries (headerTDKey other) = db.entries (headerTDKey other)) ∧
        (∀ chainType number,
          ReadCanonicalHash db1 chainType number = ReadCanonicalHash db chainType number) ∧
        ReadHeadHeaderHash db1 = ReadHeadHeaderHash db ∧
        ReadHeadBlockHash db1 = ReadHeadBlockHash db ∧
        ReadHeadFastBlockHash db1 = ReadHeadFastBlockHash db ∧
        ReadFastTrieProgress db1 = ReadFastTrieProgress db := by
  refine ⟨deleteMinorBlock_eq db hash, fun db1 h => ?_⟩
  rw [deleteMinorBlock_eq] at h
  obtain ⟨hw, he⟩ := deleteInOrder_ok h
  have a1 : db1.entries (blockReceiptsKey hash) = none := by rw [he]; simp
  have a2 : db1.entries (headerKey hash) = none := by rw [he]; simp
  have a3 : db1.entries (headerNumberKey hash) = none := by rw [he]; simp
  have a4 : db1.entries (blockKey hash) = none := by rw [he]; simp
  have a5 : db1.entries (headerTDKey hash) = none := by rw [he]; simp
  have g : ∀ k, k ∉ [blockReceiptsKey hash, headerKey hash, headerNumberKey hash,
      blockKey hash, headerTDKey hash] → db1.Get k = db.Get k := by
    intro k hk
    simp only [Database.Get, he k, if_neg hk]
  refine ⟨hw, he, ?_, ?_, ?_, ?_, ?_, ?_, ?_, ?_, ?_, ?_, ?_⟩
  · simp [HasReceipts, Database.Has, a1]
  · simp [HasHeader, Database.Has, a2]
  · simp [HasBlock, Database.Has, a4]
  · intro c
    simp [ReadTd, get_of_absent a5]
  · simp [ReadHeaderNumber, get_of_absent a3]
  · intro other ho
    refine ⟨?_, ?_, ?_, ?_, ?_⟩ <;> · rw [he]; simp [ho]
  · intro chainType number
    simp only [ReadCanonicalHash, g (headerHashKey chainType number) (by simp)]
  · simp only [ReadHeadHeaderHash, g headHeaderKey (by simp)]
  · simp only [ReadHeadBlockHash, g headBlockKey (by simp)]
  · simp only [ReadHeadFastBlockHash, g headFastBlockKey (by simp)]
  · simp only [ReadFastTrieProgress, g fastTrieProgressKey (by simp)]

/-- C17 on the example store with a total difficulty written for `main1`: after
DeleteMinorBlock the header and the total difficulty of `main1` are gone and
the header of `main0` is still there. -/
theorem C17_delete_minor_block_witness :
    HasHeader (WriteTd Demo.codec Demo.smallStore (Demo.codec.hashMinorHeader Demo.main1) 12).state
        (Demo.codec.hashMinorHeader Demo.main1) = true ∧
      ReadTd Demo.codec
        (WriteTd Demo.codec Demo.smallStore (Demo.codec.hashMinorHeader Demo.main1) 12).state
        (Demo.codec.hashMinorHeader Demo.main1) = some 12 ∧
      HasHeader
        (DeleteMinorBlock
          (WriteTd Demo.codec Demo.smallStore (Demo.codec.hashMinorHeader Demo.main1) 12).state
          (Demo.codec.hashMinorHeader Demo.main1)).state
        (Demo.codec.hashMinorHeader Demo.main1) = false ∧
      (∀ c : Codec, ReadTd c
        (DeleteMinorBlock
          (WriteTd Demo.codec Demo.smallStore (Demo.codec.hashMinorHeader Demo.main1) 12).state
          (Demo.codec.hashMinorHeader Demo.main1)).state
        (Demo.codec.hashMinorHeader Demo.main1) = none) ∧
      HasHeader
        (DeleteMinorBlock
          (WriteTd Demo.codec Demo.smallStore (Demo.codec.hashMinorHeader Demo.main1) 12).state
          (Demo.codec.hashMinorHeader Demo.main1)).state
        (Demo.codec.hashMinorHeader Demo.main0) = true :=
  ⟨by decide, by decide,
    ((C17_delete_minor_block
      (WriteTd Demo.codec Demo.smallStore (Demo.codec.hashMinorHeader Demo.main1) 12).state
      (Demo.codec.hashMinorHeader Demo.main1)).2 _ rfl).2.2.2.1,
    ((C17_delete_minor_block
      (WriteTd Demo.codec Demo.smallStore (Demo.codec.hashMinorHeader Demo.main1) 12).state
      (Demo.codec.hashMinorHeader Demo.main1)).2 _ rfl).2.2.2.2.2.1,
    by decide⟩

/-! ## Reads never fail -/

theorem get_err_no_data (db : Database) (k : Key) (h : (db.Get k).2 = true) :
    (db.Get k).1 = [] := by
  unfold Database.Get at h ⊢
  cases he : db.entries k with
  | none => rfl
  | some v => simp [he] at h

theorem get_data_entry (db : Database) (k : Key) (h : (db.Get k).1 ≠ []) :
    db.entries k = some (db.Get k).1 ∧ (db.Get k).2 = false := by
  unfold Database.Get at h ⊢
  cases he : db.entries k with
  | none => simp [he] at h
  | some v => simp

/-- C14 (reads never fail). A read accessor returns a plain value, with no error beside
it. When the Get on its key returns an error (the key is missing), returns no
bytes, or returns bytes that do not decode, the accessor returns its absent
value: the zero hash, 0, or nil. It returns a decoded value only when the key
holds non-empty bytes that decode to that value. -/
theorem C14_reads_degrade_to_absent (c : Codec) (db : Database) (hash : Hash)
    (chainType : ChainType) (number : Nat) :
    (∀ k, (db.Get k).2 = true → (db.Get k).1 = []) ∧
    (∀ k, (db.Get k).1 ≠ [] → db.entries k = some (db.Get k).1 ∧ (db.Get k).2 = false) ∧
    (ReadCanonicalHash db chainType number =
      if (db.Get (headerHashKey chainType number)).1 = [] then Hash.zero
      else BytesToHash (db.Get (headerHashKey chainType number)).1) ∧
    (ReadHeadHeaderHash db =
      if (db.Get headHeaderKey).1 = [] then Hash.zero
      else BytesToHash (db.Get headHeaderKey).1) ∧
    (ReadHeadBlockHash db =
      if (db.Get headBlockKey).1 = [] then Hash.zero
      else BytesToHash (db.Get headBlockKey).1) ∧
    (ReadHeadFastBlockHash db =
      if (db.Get headFastBlockKey).1 = [] then Hash.zero
      else BytesToHash (db.Get headFastBlockKey).1) ∧
    (ReadFastTrieProgress db =
      if (db.Get fastTrieProgressKey).1 = [] then 0
      else bigEndian (db.Get fastTrieProgressKey).1 % 2 ^ 64) ∧
    (ReadHeaderNumber db hash =
      if (db.Get (headerNumberKey hash)).1.length = 8
      then some (bigEndian (db.Get (headerNumberKey hash)).1) else none) ∧
    (ReadMinorBlockHeader c db hash =
      if (db.Get (headerKey hash)).1 = [] then none
      else c.deserializeMinorHeader (db.Get (headerKey hash)).1) ∧
    (ReadRootBlockHeader c db hash =
      if (db.Get (headerKey hash)).1 = [] then none
      else c.deserializeRootHeader (db.Get (headerKey hash)).1) ∧
    (ReadMinorBlock c db hash =
      if (db.Get (blockKey hash)).1 = [] then none
      else c.deserializeMinorBlock (db.Get (blockKey hash)).1) ∧
    (ReadRootBlock c db hash =
      if (db.Get (blockKey hash)).1 = [] then none
      else c.deserializeRootBlock (db.Get (blockKey hash)).1) ∧
    (ReadTd c db hash =
      if (db.Get (headerTDKey hash)).1 = [] then none
      else c.deserializeTd (db.Get (headerTDKey hash)).1) ∧
    (ReadReceipts c db hash =
      if (db.Get (blockReceiptsKey hash)).1 = [] then none
      else c.rlpDecodeReceipts (db.Get (blockReceiptsKey hash)).1) := by
  have hz : ∀ l : Bytes, (l.length = 0) = (l = []) := fun l => by simp
  refine ⟨get_err_no_data db, get_data_entry db, ?_, ?_, ?_, ?_, ?_, ?_, ?_, ?_, ?_, ?_, ?_, ?_⟩
  · simp only [ReadCanonicalHash, hz]
  · simp only [ReadHeadHeaderHash, hz]
  · simp only [ReadHeadBlockHash, hz]
  · simp only [ReadHeadFastBlockHash, hz]
  · simp only [ReadFastTrieProgress, hz]
  · simp only [ReadHeaderNumber]
    split <;> rename_i h <;> simp at h <;> simp [h]
  · simp only [ReadMinorBlockHeader, hz]
    split
    · rfl
    · cases c.deserializeMinorHeader (db.Get (headerKey hash)).1 <;> rfl
  · simp only [ReadRootBlockHeader, hz]
    split
    · rfl
    · cases c.deserializeRootHeader (db.Get (headerKey hash)).1 <;> rfl
  · simp only [ReadMinorBlock, hz]
    split
    · rfl
    · cases c.deserializeMinorBlock (db.Get (blockKey hash)).1 <;> rfl
  · simp only [ReadRootBlock, hz]
    split
    · rfl
    · cases c.deserializeRootBlock (db.Get (blockKey hash)).1 <;> rfl
  · simp only [ReadTd, hz]
    split
    · rfl
    · cases c.deserializeTd (db.Get (headerTDKey hash)).1 <;> rfl
  · simp only [ReadReceipts, hz]
    split
    · rfl
    · cases c.rlpDecodeReceipts (db.Get (blockReceiptsKey hash)).1 <;> simp

/-- C14 on a store that holds three bytes under a header key and nothing under the key
of the head header: both reads are absent. -/
theorem C14_reads_degrade_to_absent_witness :
    (Database.Get (Database.ofList [(headerKey Demo.H5, [1, 2, 3])]) headHeaderKey).1 = [] ∧
      ReadHeadHeaderHash (Database.ofList [(headerKey Demo.H5, [1, 2, 3])]) = Hash.zero ∧
      ReadMinorBlockHeader Demo.codec (Database.ofList [(headerKey Demo.H5, [1, 2, 3])])
        Demo.H5 = none ∧
      (Database.ofList [(headerKey Demo.H5, [1, 2, 3])]).entries (headerKey Demo.H5)
        = some [1, 2, 3] ∧
      ReadMinorBlockHeader Demo.codec Demo.smallStore (Demo.codec.hashMinorHeader Demo.main1)
        = some Demo.main1 :=
  ⟨(C14_reads_degrade_to_absent Demo.codec
      (Database.ofList [(headerKey Demo.H5, [1, 2, 3])]) Demo.H5 Demo.Shard0 5).1
      headHeaderKey (by decide),
    by decide, by decide,
    ((C14_reads_degrade_to_absent Demo.codec
      (Database.ofList [(headerKey Demo.H5, [1, 2, 3])]) Demo.H5 Demo.Shard0 5).2.1
      (headerKey Demo.H5) (by decide)).1,
    by decide⟩

/-! ## Write failures -/

theorem put_none_iff (db : Database) (k : Key) (v : Bytes) :
    db.Put k v = none ↔ db.writeErr k = true := by
  unfold Database.Put
  split <;> simp_all

theorem put_of_ok (db : Database) (k : Key) (v : Bytes) (h : db.writeErr k = false) :
    ∃ db1, db.Put k v = some db1 ∧ db1.writeErr = db.writeErr := by
  unfold Database.Put
  simp [h]

theorem single_put_fatal (db : Database) (k : Key) (v : Bytes) :
    ((match db.Put k v with
        | none => Outcome.fatal db
        | some db1 => Outcome.ok db1).isFatal = db.writeErr k) ∧
      (db.writeErr k = true →
        (match db.Put k v with
          | none => Outcome.fatal db
          | some db1 => Outcome.ok db1) = .fatal db) := by
  cases hw : db.writeErr k with
  | true =>
    have := (put_none_iff db k v).mpr hw
    simp [this, Outcome.isFatal]
  | false =>
    obtain ⟨db1, h1, _⟩ := put_of_ok db k v hw
    simp [h1, Outcome.isFatal]

theorem writeMinorBlockHeader_cases (c : Codec) (db : Database) (header : MinorBlockHeader) :
    (db.writeErr (headerNumberKey (c.hashMinorHeader header)) = true →
      WriteMinorBlockHeader c db header = .fatal db) ∧
    (db.writeErr (headerNumberKey (c.hashMinorHeader header)) = false →
      ∃ db1, db.Put (headerNumberKey (c.hashMinorHeader header))
          (encodeBlockNumber header.Number) = some db1 ∧
        (c.serializeMinorHeader header = none ∨
            db.writeErr (headerKey (c.hashMinorHeader header)) = true →
          WriteMinorBlockHeader c db header = .fatal db1) ∧
        ((∃ data, c.serializeMinorHeader header = some data) →
          db.writeErr (headerKey (c.hashMinorHeader header)) = false →
          ∃ db2, WriteMinorBlockHeader c db header = .ok db2)) := by
  constructor
  · intro hw
    simp [WriteMinorBlockHeader, (put_none_iff db _ _).mpr hw]
  · intro hw
    obtain ⟨db1, h1, hw1⟩ := put_of_ok db (headerNumberKey (c.hashMinorHeader header))
      (encodeBlockNumber header.Number) hw
    refine ⟨db1, h1, ?_, ?_⟩
    · intro hf
      cases hs : c.serializeMinorHeader header with
      | none => simp [WriteMinorBlockHeader, h1, hs]
      | some data =>
        rcases hf with hf | hf
        · rw [hs] at hf
          cases hf
        · have : db1.Put (headerKey (c.hashMinorHeader header)) data = none :=
            (put_none_iff db1 _ _).mpr (by rw [hw1]; exact hf)
          simp [WriteMinorBlockHeader, h1, hs, this]
    · rintro ⟨data, hs⟩ hk
      obtain ⟨db2, h2, _⟩ := put_of_ok db1 (headerKey (c.hashMinorHeader header)) data
        (by rw [hw1]; exact hk)
      exact ⟨db2, by simp [WriteMinorBlockHeader, h1, hs, h2]⟩

theorem writeRootBlockHeader_cases (c : Codec) (db : Database) (header : RootBlockHeader) :
    (db.writeErr (headerNumberKey (c.hashRootHeader header)) = true →
      WriteRootBlockHeader c db header = .fatal db) ∧
    (db.writeErr (headerNumberKey (c.hashRootHeader header)) = false →
      ∃ db1, db.Put (headerNumberKey (c.hashRootHeader header))
          (encodeBlockNumber header.NumberU64) = some db1 ∧
        (c.serializeRootHeader header = none ∨
            db.writeErr (headerKey (c.hashRootHeader header)) = true →
          WriteRootBlockHeader c db header = .fatal db1) ∧
        ((∃ data, c.serializeRootHeader header = some data) →
          db.writeErr (headerKey (c.hashRootHeader header)) = false →
          ∃ db2, WriteRootBlockHeader c db header = .ok db2)) := by
  constructor
  · intro hw
    simp [WriteRootBlockHeader, (put_none_iff db _ _).mpr hw]
  · intro hw
    obtain ⟨db1, h1, hw1⟩ := put_of_ok db (headerNumberKey (c.hashRootHeader header))
      (encodeBlockNumber header.NumberU64) hw
    refine ⟨db1, h1, ?_, ?_⟩
    · intro hf
      cases hs : c.serializeRootHeader header with
      | none => simp [WriteRootBlockHeader, h1, hs]
      | some data =>
        rcases hf with hf | hf
        · rw [hs] at hf
          cases hf
        · have : db1.Put (headerKey (c.hashRootHeader header)) data = none :=
            (put_none_iff db1 _ _).mpr (by rw [hw1]; exact hf)
          simp [WriteRootBlockHeader, h1, hs, this]
    · rintro ⟨data, hs⟩ hk
      obtain ⟨db2, h2, _⟩ := put_of_ok db1 (headerKey (c.hashRootHeader header)) data
        (by rw [hw1]; exact hk)
      exact ⟨db2, by simp [WriteRootBlockHeader, h1, hs, h2]⟩

theorem writeMinorBlockHeader_fatal_iff (c : Codec) (db : Database)
    (header : MinorBlockHeader) :
    (WriteMinorBlockHeader c db header).isFatal = true ↔
      db.writeErr (headerNumberKey (c.hashMinorHeader header)) = true ∨
        c.serializeMinorHeader header = none ∨
        db.writeErr (headerKey (c.hashMinorHeader header)) = true := by
  obtain ⟨h1, h2⟩ := writeMinorBlockHeader_cases c db header
  cases hw : db.writeErr (headerNumberKey (c.hashMinorHeader header)) with
  | true => simp [h1 hw, Outcome.isFatal]
  | false =>
    obtain ⟨db1, _, h3, h4⟩ := h2 hw
    cases hs : c.serializeMinorHeader header with
    | none => simp [h3 (Or.inl hs), Outcome.isFatal]
    | some data =>
      cases hk : db.writeErr (headerKey (c.hashMinorHeader header)) with
      | true => simp [h3 (Or.inr hk), Outcome.isFatal]
      | false =>
        obtain ⟨db2, h5⟩ := h4 ⟨data, hs⟩ hk
        simp [h5, Outcome.isFatal]

theorem writeRootBlockHeader_fatal_iff (c : Codec) (db : Database)
    (header : RootBlockHeader) :
    (WriteRootBlockHeader c db header).isFatal = true ↔
      db.writeErr (headerNumberKey (c.hashRootHeader header)) = true ∨
        c.serializeRootHeader header = none ∨
        db.writeErr (headerKey (c.hashRootHeader header)) = true := by
  obtain ⟨h1, h2⟩ := writeRootBlockHeader_cases c db header
  cases hw : db.writeErr (headerNumberKey (c.hashRootHeader header)) with
  | true => simp [h1 hw, Outcome.isFatal]
  | false =>
    obtain ⟨db1, _, h3, h4⟩ := h2 hw
    cases hs : c.serializeRootHeader header with
    | none => simp [h3 (Or.inl hs), Outcome.isFatal]
    | some data =>
      cases hk : db.writeErr (headerKey (c.hashRootHeader header)) with
      | true => simp [h3 (Or.inr hk), Outcome.isFatal]
      | false =>
        obtain ⟨db2, h5⟩ := h4 ⟨data, hs⟩ hk
        simp [h5, Outcome.isFatal]

theorem writeTd_cases (c : Codec) (db : Database) (hash : Hash) (td : Int) :
    ((WriteTd c db hash td).isFatal = true ↔
      c.serializeTd td = none ∨ db.writeErr (headerTDKey hash) = true) ∧
    ((WriteTd c db hash td).isFatal = true → WriteTd c db hash td = .fatal db) := by
  cases hs : c.serializeTd td with
  | none => simp [WriteTd, hs, Outcome.isFatal]
  | some data =>
    cases hw : db.writeErr (headerTDKey hash) with
    | true => simp [WriteTd, hs, (put_none_iff db _ data).mpr hw, Outcome.isFatal]
    | false =>
      obtain ⟨db1, h1, _⟩ := put_of_ok db (headerTDKey hash) data hw
      simp [WriteTd, hs, h1, Outcome.isFatal]

theorem writeReceipts_cases (c : Codec) (db : Database) (hash : Hash) (receipts : Receipts) :
    ((WriteReceipts c db hash receipts).isFatal = true ↔
      c.rlpEncodeReceipts receipts = none ∨ db.writeErr (blockReceiptsKey hash) = true) ∧
    ((WriteReceipts c db hash receipts).isFatal = true →
      WriteReceipts c db hash receipts = .fatal db) := by
  cases hs : c.rlpEncodeReceipts receipts with
  | none => simp [WriteReceipts, hs, Outcome.isFatal]
  | some data =>
    cases hw : db.writeErr (blockReceiptsKey hash) with
    | true => simp [WriteReceipts, hs, (put_none_iff db _ data).mpr hw, Outcome.isFatal]
    | false =>
      obtain ⟨db1, h1, _⟩ := put_of_ok db (blockReceiptsKey hash) data hw
      simp [WriteReceipts, hs, h1, Outcome.isFatal]

theorem block_tail_cases (db1 : Database) (k : Key) (ser : Option Bytes) :
    ((match ser with
        | none => Outcome.fatal db1
        | some data =>
          match db1.Put k data with
          | none => Outcome.fatal db1
          | some db2 => Outcome.ok db2).isFatal = true ↔
      ser = none ∨ db1.writeErr k = true) ∧
    ((match ser with
        | none => Outcome.fatal db1
        | some data =>
          match db1.Put k data with
          | none => Outcome.fatal db1
          | some db2 => Outcome.ok db2).isFatal = true →
      (match ser with
        | none => Outcome.fatal db1
        | some data =>
          match db1.Put k data with
          | none => Outcome.fatal db1
          | some db2 => Outcome.ok db2) = .fatal db1) := by
  cases ser with
  | none => simp [Outcome.isFatal]
  | some data =>
    cases hw : db1.writeErr k with
    | true => simp [(put_none_iff db1 k data).mpr hw, Outcome.isFatal]
    | false =>
      obtain ⟨db2, h2, _⟩ := put_of_ok db1 k data hw
      simp [h2, Outcome.isFatal]

theorem writeMinorBlock_cases (c : Codec) (db : Database) (block : MinorBlock) :
    (∀ db1, WriteMinorBlockHeader c db block.Header = .fatal db1 →
      WriteMinorBlock c db block = .fatal db1) ∧
    (∀ db1, WriteMinorBlockHeader c db block.Header = .ok db1 →
      ((WriteMinorBlock c db block).isFatal = true ↔
        c.serializeMinorBlock block = none ∨
          db1.writeErr (blockKey (c.hashMinorBlock block)) = true) ∧
      ((WriteMinorBlock c db block).isFatal = true →
        WriteMinorBlock c db block = .fatal db1)) := by
  constructor
  · intro db1 h
    simp [WriteMinorBlock, h, Outcome.andThen]
  · intro db1 h
    have := block_tail_cases db1 (blockKey (c.hashMinorBlock block))
      (c.serializeMinorBlock block)
    simp only [WriteMinorBlock, h, Outcome.andThen]
    exact this

theorem writeRootBlock_cases (c : Codec) (db : Database) (block : RootBlock) :
    (∀ db1, WriteRootBlockHeader c db block.Header = .fatal db1 →
      WriteRootBlock c db block = .fatal db1) ∧
    (∀ db1, WriteRootBlockHeader c db block.Header = .ok db1 →
      ((WriteRootBlock c db block).isFatal = true ↔
        c.serializeRootBlock block = none ∨
          db1.writeErr (blockKey (c.hashRootBlock block)) = true) ∧
      ((WriteRootBlock c db block).isFatal = true →
        WriteRootBlock c db block = .fatal db1)) := by
  constructor
  · intro db1 h
    simp [WriteRootBlock, h, Outcome.andThen]
  · intro db1 h
    have := block_tail_cases db1 (blockKey (c.hashRootBlock block))
      (c.serializeRootBlock block)
    simp only [WriteRootBlock, h, Outcome.andThen]
    exact this

/-- C15 (write failure is fatal). Every write accessor ends in `log.Crit` exactly when a
Put that it issues returns an error or its serialisation fails, and the store
it leaves is the store before the step that failed, so nothing is written
afterwards. For the single-Put accessors and for WriteTd and WriteReceipts that
store is the store before the call; WriteMinorBlockHeader and
WriteRootBlockHeader leave the store before the call when the Put of the
hash-to-number entry fails (the header entry is then as before), and the store
after that Put when the serialisation or the Put of the header fails;
WriteMinorBlock and WriteRootBlock leave what the header write left, or the
store after the header write when the body fails. -/
theorem C15_write_failure_is_fatal (c : Codec) (db : Database) :
    (∀ chainType hash number,
      (WriteCanonicalHash db chainType hash number).isFatal
          = db.writeErr (headerHashKey chainType number) ∧
        (db.writeErr (headerHashKey chainType number) = true →
          WriteCanonicalHash db chainType hash number = .fatal db)) ∧
    (∀ hash, (WriteHeadHeaderHash db hash).isFatal = db.writeErr headHeaderKey ∧
      (db.writeErr headHeaderKey = true → WriteHeadHeaderHash db hash = .fatal db)) ∧
    (∀ hash, (WriteHeadBlockHash db hash).isFatal = db.writeErr headBlockKey ∧
      (db.writeErr headBlockKey = true → WriteHeadBlockHash db hash = .fatal db)) ∧
    (∀ hash, (WriteHeadFastBlockHash db hash).isFatal = db.writeErr headFastBlockKey ∧
      (db.writeErr headFastBlockKey = true → WriteHeadFastBlockHash db hash = .fatal db)) ∧
    (∀ count, (WriteFastTrieProgress db count).isFatal = db.writeErr fastTrieProgressKey ∧
      (db.writeErr fastTrieProgressKey = true → WriteFastTrieProgress db count = .fatal db)) ∧
    (∀ hash td,
      ((WriteTd c db hash td).isFatal = true ↔
        c.serializeTd td = none ∨ db.writeErr (headerTDKey hash) = true) ∧
      ((WriteTd c db hash td).isFatal = true → WriteTd c db hash td = .fatal db)) ∧
    (∀ hash receipts,
      ((WriteReceipts c db hash receipts).isFatal = true ↔
        c.rlpEncodeReceipts receipts = none ∨ db.writeErr (blockReceiptsKey hash) = true) ∧
      ((WriteReceipts c db hash receipts).isFatal = true →
        WriteReceipts c db hash receipts = .fatal db)) ∧
    (∀ header : MinorBlockHeader,
      ((WriteMinorBlockHeader c db header).isFatal = true ↔
        db.writeErr (headerNumberKey (c.hashMinorHeader header)) = true ∨
          c.serializeMinorHeader header = none ∨
          db.writeErr (headerKey (c.hashMinorHeader header)) = true) ∧
      (db.writeErr (headerNumberKey (c.hashMinorHeader header)) = true →
        WriteMinorBlockHeader c db header = .fatal db ∧
          (WriteMinorBlockHeader c db header).state.entries
              (headerKey (c.hashMinorHeader header))
            = db.entries (headerKey (c.hashMinorHeader header))) ∧
      (db.writeErr (headerNumberKey (c.hashMinorHeader header)) = false →
        ∃ db1, db.Put (headerNumberKey (c.hashMinorHeader header))
            (encodeBlockNumber header.Number) = some db1 ∧
          (c.serializeMinorHeader header = none ∨
              db.writeErr (headerKey (c.hashMinorHeader header)) = true →
            WriteMinorBlockHeader c db header = .fatal db1))) ∧
    (∀ header : RootBlockHeader,
      ((WriteRootBlockHeader c db header).isFatal = true ↔
        db.writeErr (headerNumberKey (c.hashRootHeader header)) = true ∨
          c.serializeRootHeader header = none ∨
          db.writeErr (headerKey (c.hashRootHeader header)) = true) ∧
      (db.writeErr (headerNumberKey (c.hashRootHeader header)) = true →
        WriteRootBlockHeader c db header = .fatal db ∧
          (WriteRootBlockHeader c db header).state.entries
              (headerKey (c.hashRootHeader header))
            = db.entries (headerKey (c.hashRootHeader header))) ∧
      (db.writeErr (headerNumberKey (c.hashRootHeader header)) = false →
        ∃ db1, db.Put (headerNumberKey (c.hashRootHeader header))
            (encodeBlockNumber header.NumberU64) = some db1 ∧
          (c.serializeRootHeader header = none ∨
              db.writeErr (headerKey (c.hashRootHeader header)) = true →
            WriteRootBlockHeader c db header = .fatal db1))) ∧
    (∀ block : MinorBlock,
      (∀ db1, WriteMinorBlockHeader c db block.Header = .fatal db1 →
        WriteMinorBlock c db block = .fatal db1) ∧
      (∀ db1, WriteMinorBlockHeader c db block.Header = .ok db1 →
        ((WriteMinorBlock c db block).isFatal = true ↔
          c.serializeMinorBlock block = none ∨
            db1.writeErr (blockKey (c.hashMinorBlock block)) = true) ∧
        ((WriteMinorBlock c db block).isFatal = true →
          WriteMinorBlock c db block = .fatal db1))) ∧
    (∀ block : RootBlock,
      (∀ db1, WriteRootBlockHeader c db block.Header = .fatal db1 →
        WriteRootBlock c db block = .fatal db1) ∧
      (∀ db1, WriteRootBlockHeader c db block.Header = .ok db1 →
        ((WriteRootBlock c db block).isFatal = true ↔
          c.serializeRootBlock block = none ∨
            db1.writeErr (blockKey (c.hashRootBlock block)) = true) ∧
        ((WriteRootBlock c db block).isFatal = true →
          WriteRootBlock c db block = .fatal db1))) := by
  refine ⟨fun _ _ _ => single_put_fatal db _ _, fun _ => single_put_fatal db _ _,
    fun _ => single_put_fatal db _ _, fun _ => single_put_fatal db _ _,
    fun _ => single_put_fatal db _ _, writeTd_cases c db, writeReceipts_cases c db,
    fun header => ?_, fun header => ?_, writeMinorBlock_cases c db,
    writeRootBlock_cases c db⟩
  · obtain ⟨h1, h2⟩ := writeMinorBlockHeader_cases c db header
    refine ⟨writeMinorBlockHeader_fatal_iff c db header, fun hw => ?_, fun hw => ?_⟩
    · have := h1 hw
      exact ⟨this, by rw [this]; rfl⟩
    · obtain ⟨db1, h3, h4, _⟩ := h2 hw
      exact ⟨db1, h3, h4⟩
  · obtain ⟨h1, h2⟩ := writeRootBlockHeader_cases c db header
    refine ⟨writeRootBlockHeader_fatal_iff c db header, fun hw => ?_, fun hw => ?_⟩
    · have := h1 hw
      exact ⟨this, by rw [this]; rfl⟩
    · obtain ⟨db1, h3, h4, _⟩ := h2 hw
      exact ⟨db1, h3, h4⟩

/-- C15 on a store that refuses writes to the hash-to-number key of `main0`:
WriteMinorBlockHeader ends in `log.Crit` and the store has no header entry. -/
theorem C15_write_failure_is_fatal_witness :
    (WriteMinorBlockHeader Demo.codec Demo.faultyStore Demo.main0).isFatal = true ∧
      (WriteMinorBlockHeader Demo.codec Demo.faultyStore Demo.main0).state.entries
          (headerKey (Demo.codec.hashMinorHeader Demo.main0)) = none ∧
      (WriteMinorBlockHeader Demo.codec Demo.faultyStore Demo.main1).isFatal = false ∧
      HasHeader (WriteMinorBlockHeader Demo.codec Demo.faultyStore Demo.main0).state
        (Demo.codec.hashMinorHeader Demo.main0) = false :=
  ⟨((C15_write_failure_is_fatal Demo.codec Demo.faultyStore).2.2.2.2.2.2.2.1
      Demo.main0).1.mpr (Or.inl (by decide)),
    (((C15_write_failure_is_fatal Demo.codec Demo.faultyStore).2.2.2.2.2.2.2.1
      Demo.main0).2.1 (by decide)).2,
    by decide, by decide⟩

/-! ## Order of the header operations -/

theorem hin_put_number {db db1 : Database} {x : Hash} {v : Bytes}
    (h : HeaderImpliesNumber db) (hp : db.Put (headerNumberKey x) v = some db1) :
    HeaderImpliesNumber db1 ∧ (db1.entries (headerNumberKey x)).isSome = true := by
  obtain ⟨_, _, he⟩ := put_some hp
  refine ⟨fun hash hh => ?_, by rw [he]; simp⟩
  rw [he] at hh ⊢
  simp only [reduceCtorEq, if_false] at hh
  by_cases hx : hash = x
  · simp [hx]
  · simp only [headerNumberKey.injEq, hx, if_false]
    exact h hash hh

theorem hin_put_header {db db1 : Database} {x : Hash} {v : Bytes}
    (h : HeaderImpliesNumber db) (hn : (db.entries (headerNumberKey x)).isSome = true)
    (hp : db.Put (headerKey x) v = some db1) : HeaderImpliesNumber db1 := by
  obtain ⟨_, _, he⟩ := put_some hp
  intro hash hh
  rw [he] at hh ⊢
  simp only [reduceCtorEq, if_false]
  by_cases hx : hash = x
  · rw [hx]
    exact hn
  · simp only [headerKey.injEq, hx, if_false] at hh
    exact h hash hh

theorem hin_delete_header {db db1 : Database} {x : Hash}
    (h : HeaderImpliesNumber db) (hp : db.Delete (headerKey x) = some db1) :
    HeaderImpliesNumber db1 ∧ db1.entries (headerKey x) = none := by
  obtain ⟨_, _, he⟩ := delete_some hp
  refine ⟨fun hash hh => ?_, by rw [he]; simp⟩
  rw [he] at hh ⊢
  simp only [reduceCtorEq, if_false]
  by_cases hx : hash = x
  · simp [hx] at hh
  · simp only [headerKey.injEq, hx, if_false] at hh
    exact h hash hh

theorem hin_delete_number {db db1 : Database} {x : Hash}
    (h : HeaderImpliesNumber db) (hn : db.entries (headerKey x) = none)
    (hp : db.Delete (headerNumberKey x) = some db1) : HeaderImpliesNumber db1 := by
  obtain ⟨_, _, he⟩ := delete_some hp
  intro hash hh
  rw [he] at hh ⊢
  simp only [reduceCtorEq, if_false] at hh
  by_cases hx : hash = x
  · rw [hx, hn] at hh
    cases hh
  · simp only [headerNumberKey.injEq, hx, if_false]
    exact h hash hh

theorem hin_write_states {db : Database} (h : HeaderImpliesNumber db) (x : Hash)
    (enc : Bytes) (ser : Option Bytes) :
    ∀ s ∈ (match db.Put (headerNumberKey x) enc with
        | none => ([] : List Database)
        | some db1 =>
          db1 ::
            match ser with
            | none => []
            | some data =>
              match db1.Put (headerKey x) data with
              | none => []
              | some db2 => [db2]), HeaderImpliesNumber s := by
  cases h1 : db.Put (headerNumberKey x) enc with
  | none => simp
  | some db1 =>
    obtain ⟨i1, n1⟩ := hin_put_number h h1
    cases ser with
    | none => simpa using i1
    | some data =>
      cases h2 : db1.Put (headerKey x) data with
      | none => simpa [h2] using i1
      | some db2 =>
        have i2 := hin_put_header i1 n1 h2
        simp [h2, i1, i2]

theorem hin_delete_states {db : Database} (h : HeaderImpliesNumber db) (x : Hash) :
    ∀ s ∈ (match db.Delete (headerKey x) with
        | none => ([] : List Database)
        | some db1 =>
          db1 ::
            match db1.Delete (headerNumberKey x) with
            | none => []
            | some db2 => [db2]), HeaderImpliesNumber s := by
  cases h1 : db.Delete (headerKey x) with
  | none => simp
  | some db1 =>
    obtain ⟨i1, n1⟩ := hin_delete_header h h1
    cases h2 : db1.Delete (headerNumberKey x) with
    | none => simpa [h2] using i1
    | some db2 =>
      have i2 := hin_delete_number i1 n1 h2
      simp [h2, i1, i2]

theorem write_states_last (db : Database) (x : Hash) (enc : Bytes) (ser : Option Bytes) :
    (db :: (match db.Put (headerNumberKey x) enc with
        | none => ([] : List Database)
        | some db1 =>
          db1 ::
            match ser with
            | none => []
            | some data =>
              match db1.Put (headerKey x) data with
              | none => []
              | some db2 => [db2])).getLast? =
      some (match db.Put (headerNumberKey x) enc with
        | none => Outcome.fatal db
        | some db1 =>
          match ser with
          | none => Outcome.fatal db1
          | some data =>
            match db1.Put (headerKey x) data with
            | none => Outcome.fatal db1
            | some db2 => Outcome.ok db2).state := by
  cases h1 : db.Put (headerNumberKey x) enc with
  | none => rfl
  | some db1 =>
    cases ser with
    | none => rfl
    | some data => cases h2 : db1.Put (headerKey x) data <;> simp [h2, Outcome.state]

theorem delete_states_last (db : Database) (x : Hash) :
    (db :: (match db.Delete (headerKey x) with
        | none => ([] : List Database)
        | some db1 =>
          db1 ::
            match db1.Delete (headerNumberKey x) with
            | none => []
            | some db2 => [db2])).getLast? =
      some (match db.Delete (headerKey x) with
        | none => Outcome.fatal db
        | some db1 =>
          match db1.Delete (headerNumberKey x) with
          | none => Outcome.fatal db1
          | some db2 => Outcome.ok db2).state := by
  cases h1 : db.Delete (headerKey x) with
  | none => rfl
  | some db1 => cases h2 : db1.Delete (headerNumberKey x) <;> simp [h2, Outcome.state]

/-- C20 (crash-consistent order). From a store in which, under every hash, a header entry
comes with a hash-to-number entry, that still holds in the store after each
single Put or Delete issued by WriteMinorBlockHeader, WriteRootBlockHeader,
DeleteMinorBlockHeader and DeleteRootBlockHeader: the reverse index is written
before the header and deleted after it. The last of these stores is the one
the accessor leaves, whether it returned or ended in `log.Crit`. -/
theorem C20_header_implies_number_at_every_step (c : Codec) (db : Database)
    (h : HeaderImpliesNumber db) :
    (∀ header : MinorBlockHeader,
      (∀ s ∈ WriteMinorBlockHeader.states c db header, HeaderImpliesNumber s) ∧
        (db :: WriteMinorBlockHeader.states c db header).getLast?
          = some (WriteMinorBlockHeader c db header).state) ∧
    (∀ header : RootBlockHeader,
      (∀ s ∈ WriteRootBlockHeader.states c db header, HeaderImpliesNumber s) ∧
        (db :: WriteRootBlockHeader.states c db header).getLast?
          = some (WriteRootBlockHeader c db header).state) ∧
    (∀ hash : Hash,
      (∀ s ∈ DeleteMinorBlockHeader.states db hash, HeaderImpliesNumber s) ∧
        (db :: DeleteMinorBlockHeader.states db hash).getLast?
          = some (DeleteMinorBlockHeader db hash).state) ∧
    (∀ hash : Hash,
      (∀ s ∈ DeleteRootBlockHeader.states db hash, HeaderImpliesNumber s) ∧
        (db :: DeleteRootBlockHeader.states db hash).getLast?
          = some (DeleteRootBlockHeader db hash).state) :=
  ⟨fun _ => ⟨hin_write_states h _ _ _, write_states_last db _ _ _⟩,
    fun _ => ⟨hin_write_states h _ _ _, write_states_last db _ _ _⟩,
    fun hash => ⟨hin_delete_states h hash, delete_states_last db hash⟩,
    fun hash => ⟨hin_delete_states h hash, delete_states_last db hash⟩⟩

theorem hin_empty (w : Key → Bool) : HeaderImpliesNumber (Database.empty w) := by
  intro hash hh
  simp [Database.empty] at hh

/-- C20 on the empty store: WriteMinorBlockHeader issues two Puts there; after the first
the store has the number of `main0` and no header, after the second both. -/
theorem C20_header_implies_number_at_every_step_witness :
    (WriteMinorBlockHeader.states Demo.codec (Database.empty fun _ => false) Demo.main0).length
        = 2 ∧
      (WriteMinorBlockHeader.states Demo.codec (Database.empty fun _ => false) Demo.main0).map
          (fun s => (HasHeader s (Demo.codec.hashMinorHeader Demo.main0),
            ReadHeaderNumber s (Demo.codec.hashMinorHeader Demo.main0)))
        = [(false, some 0), (true, some 0)] ∧
      (∀ s ∈ WriteMinorBlockHeader.states Demo.codec (Database.empty fun _ => false)
          Demo.main0, HeaderImpliesNumber s) ∧
      (∀ s ∈ DeleteMinorBlockHeader.states (Database.empty fun _ => false)
          (Demo.codec.hashMinorHeader Demo.main0), HeaderImpliesNumber s) :=
  ⟨by decide, by decide,
    ((C20_header_implies_number_at_every_step Demo.codec (Database.empty fun _ => false)
      (hin_empty _)).1 Demo.main0).1,
    ((C20_header_implies_number_at_every_step Demo.codec (Database.empty fun _ => false)
      (hin_empty _)).2.2.1 (Demo.codec.hashMinorHeader Demo.main0)).1⟩

end Rawdb

namespace Sync

/-! ## Selection by priority -/

theorem range_some (order : List Task) (r : Task) :
    ∃ t, getNextTask.range order (some r) r.Priority = some t ∧ (t = r ∨ t ∈ order) ∧
      r.Priority ≤ t.Priority ∧ ∀ u ∈ order, u.Priority ≤ t.Priority := by
  induction order generalizing r with
  | nil => exact ⟨r, rfl, Or.inl rfl, le_refl _, by simp⟩
  | cons x rest ih =>
    by_cases hgt : x.Priority > r.Priority
    · obtain ⟨t, h1, h2, h3, h4⟩ := ih x
      refine ⟨t, ?_, ?_, by omega, ?_⟩
      · simp only [getNextTask.range, hgt, or_true, if_true]
        exact h1
      · rcases h2 with h2 | h2
        · exact Or.inr (by simp [h2])
        · exact Or.inr (List.mem_cons_of_mem _ h2)
      · intro u hu
        rcases List.mem_cons.mp hu with rfl | hu
        · exact h3
        · exact h4 u hu
    · obtain ⟨t, h1, h2, h3, h4⟩ := ih r
      refine ⟨t, ?_, ?_, h3, ?_⟩
      · simp only [getNextTask.range, hgt, or_false, if_false]
        simpa using h1
      · rcases h2 with h2 | h2
        · exact Or.inl h2
        · exact Or.inr (List.mem_cons_of_mem _ h2)
      · intro u hu
        rcases List.mem_cons.mp hu with rfl | hu
        · omega
        · exact h4 u hu

theorem getNextTask_max (order : List Task) (hne : order ≠ []) :
    ∃ t, getNextTask order = some t ∧ t ∈ order ∧ ∀ u ∈ order, u.Priority ≤ t.Priority := by
  cases order with
  | nil => exact absurd rfl hne
  | cons x rest =>
    obtain ⟨t, h1, h2, h3, h4⟩ := range_some rest x
    refine ⟨t, ?_, ?_, ?_⟩
    · simpa [getNextTask, getNextTask.range] using h1
    · rcases h2 with h2 | h2
      · simp [h2]
      · exact List.mem_cons_of_mem _ h2
    · intro u hu
      rcases List.mem_cons.mp hu with rfl | hu
      · exact h3
      · exact h4 u hu

theorem getNextTask_mem {order : List Task} {t : Task} (h : getNextTask order = some t) :
    t ∈ order := by
  cases order with
  | nil => simp [getNextTask, getNextTask.range] at h
  | cons x rest =>
    obtain ⟨t2, h1, h2, _⟩ := getNextTask_max (x :: rest) (by simp)
    rw [h] at h1
    cases h1
    exact h2

/-- C5 (priority selection). For every non-empty task map and every order in which
the map is ranged over, getNextTask returns a task of the map whose priority is
at least the priority of every task of the map, and the loop hands that task to
the worker when the send proceeds; with three tasks of priorities
`p1 < p2 < p3` in the map, it is the task of priority `p3`. -/
theorem C5_priority_selection :
    (∀ (taskMap : TaskMap) (order : List Task), taskMap ≠ [] → order.Perm taskMap.tasks →
      ∃ t, getNextTask order = some t ∧ t ∈ taskMap.tasks ∧
        (∀ u ∈ taskMap.tasks, u.Priority ≤ t.Priority) ∧
        loopBody taskMap order .assignCh
          = some (.running (taskMap.delete t.Peer), .dispatch t)) ∧
    (∀ (taskMap : TaskMap) (order : List Task) (t1 t2 t3 : Task),
      taskMap.tasks.Perm [t1, t2, t3] → order.Perm taskMap.tasks →
      t1.Priority < t2.Priority → t2.Priority < t3.Priority →
      getNextTask order = some t3 ∧
        ∀ s e, loopBody taskMap order .assignCh = some (s, e) → e = .dispatch t3) := by
  have main : ∀ (taskMap : TaskMap) (order : List Task), taskMap ≠ [] →
      order.Perm taskMap.tasks →
      ∃ t, getNextTask order = some t ∧ t ∈ taskMap.tasks ∧
        (∀ u ∈ taskMap.tasks, u.Priority ≤ t.Priority) ∧
        loopBody taskMap order .assignCh
          = some (.running (taskMap.delete t.Peer), .dispatch t) := by
    intro taskMap order hne hperm
    have hlen : 0 < taskMap.length := List.length_pos.mpr hne
    have hone : order ≠ [] := by
      intro h
      rw [h] at hperm
      have := hperm.length_eq
      simp [TaskMap.tasks] at this
      omega
    obtain ⟨t, h1, h2, h3⟩ := getNextTask_max order hone
    refine ⟨t, h1, hperm.subset h2, fun u hu => h3 u (hperm.symm.subset hu), ?_⟩
    simp [loopBody, hlen, h1]
  refine ⟨main, ?_⟩
  intro taskMap order t1 t2 t3 hp1 hp2 h12 h23
  have hne : taskMap ≠ [] := by
    intro h
    rw [h] at hp1
    have := hp1.length_eq
    simp [TaskMap.tasks] at this
  obtain ⟨t, h1, h2, h3, h4⟩ := main taskMap order hne hp2
  have ht3 : t3 ∈ taskMap.tasks := hp1.symm.subset (by simp)
  have hle := h3 t3 ht3
  have hmem : t ∈ [t1, t2, t3] := hp1.subset h2
  have ht : t = t3 := by
    simp only [List.mem_cons, List.mem_singleton, List.not_mem_nil, or_false] at hmem
    rcases hmem with rfl | rfl | rfl
    · omega
    · omega
    · rfl
  subst ht
  refine ⟨h1, fun s e hse => ?_⟩
  rw [h4] at hse
  cases hse
  rfl

/-- C5 on three peers with priorities 1, 2 and 3: whatever the order, the task of
priority 3 is selected and handed to the worker. -/
theorem C5_priority_selection_witness :
    getNextTask [⟨"peer1", 1, 10⟩, ⟨"peer3", 3, 30⟩, ⟨"peer2", 2, 20⟩]
        = some ⟨"peer3", 3, 30⟩ ∧
      (∀ s e, loopBody
          [("peer1", ⟨"peer1", 1, 10⟩), ("peer2", ⟨"peer2", 2, 20⟩),
            ("peer3", ⟨"peer3", 3, 30⟩)]
          [⟨"peer1", 1, 10⟩, ⟨"peer3", 3, 30⟩, ⟨"peer2", 2, 20⟩] .assignCh = some (s, e) →
        e = .dispatch ⟨"peer3", 3, 30⟩) ∧
      ∃ t, getNextTask [⟨"peer2", 0, 20⟩, ⟨"peer1", 0, 10⟩] = some t ∧
        t ∈ TaskMap.tasks [("peer1", ⟨"peer1", 0, 10⟩), ("peer2", ⟨"peer2", 0, 20⟩)] ∧
        (∀ u ∈ TaskMap.tasks [("peer1", ⟨"peer1", 0, 10⟩), ("peer2", ⟨"peer2", 0, 20⟩)],
          u.Priority ≤ t.Priority) ∧
        loopBody [("peer1", ⟨"peer1", 0, 10⟩), ("peer2", ⟨"peer2", 0, 20⟩)]
            [⟨"peer2", 0, 20⟩, ⟨"peer1", 0, 10⟩] .assignCh
          = some (.running
              (TaskMap.delete [("peer1", ⟨"peer1", 0, 10⟩), ("peer2", ⟨"peer2", 0, 20⟩)] t.Peer),
            .dispatch t) :=
  ⟨(C5_priority_selection.2
      [("peer1", ⟨"peer1", 1, 10⟩), ("peer2", ⟨"peer2", 2, 20⟩), ("peer3", ⟨"peer3", 3, 30⟩)]
      [⟨"peer1", 1, 10⟩, ⟨"peer3", 3, 30⟩, ⟨"peer2", 2, 20⟩]
      ⟨"peer1", 1, 10⟩ ⟨"peer2", 2, 20⟩ ⟨"peer3", 3, 30⟩
      (List.Perm.refl _) (by decide) (by decide) (by decide)).1,
    (C5_priority_selection.2
      [("peer1", ⟨"peer1", 1, 10⟩), ("peer2", ⟨"peer2", 2, 20⟩), ("peer3", ⟨"peer3", 3, 30⟩)]
      [⟨"peer1", 1, 10⟩, ⟨"peer3", 3, 30⟩, ⟨"peer2", 2, 20⟩]
      ⟨"peer1", 1, 10⟩ ⟨"peer2", 2, 20⟩ ⟨"peer3", 3, 30⟩
      (List.Perm.refl _) (by decide) (by decide) (by decide)).2,
    C5_priority_selection.1
      [("peer1", ⟨"peer1", 0, 10⟩), ("peer2", ⟨"peer2", 0, 20⟩)]
      [⟨"peer2", 0, 20⟩, ⟨"peer1", 0, 10⟩] (by simp) (by decide)⟩


/-! ## The scheduling loop -/

theorem step_cases {s s1 : LoopState} {e : Event} (h : Step s e s1) :
    ∃ m, s = .running m ∧
      ((∃ t, e = .recv t ∧ s1 = .running (m.set t.Peer t)) ∨
        (∃ t, e = .dispatch t ∧ t ∈ m.tasks ∧ s1 = .running (m.delete t.Peer)) ∨
        (e = .abort ∧ s1 = .closed)) := by
  obtain ⟨m, order, sel, rfl, hperm, hbody⟩ := h
  refine ⟨m, rfl, ?_⟩
  cases sel with
  | taskRecvCh task =>
    simp only [loopBody, Option.some.injEq, Prod.mk.injEq] at hbody
    exact Or.inl ⟨task, hbody.2.symm, hbody.1.symm⟩
  | assignCh =>
    simp only [loopBody] at hbody
    split at hbody
    · rename_i hopen
      simp only [gt_iff_lt, decide_eq_true_eq] at hopen
      simp only [gt_iff_lt, hopen, if_true] at hbody
      cases hg : getNextTask order with
      | none => simp [hg] at hbody
      | some t =>
        simp only [hg, Option.some.injEq, Prod.mk.injEq] at hbody
        exact Or.inr (Or.inl ⟨t, hbody.2.symm, hperm.subset (getNextTask_mem hg), hbody.1.symm⟩)
    · cases hbody
  | abortCh =>
    simp only [loopBody, Option.some.injEq, Prod.mk.injEq] at hbody
    exact Or.inr (Or.inr ⟨hbody.2.symm, hbody.1.symm⟩)

theorem no_step_closed {e : Event} {s1 : LoopState} : ¬ Step .closed e s1 := by
  intro h
  obtain ⟨m, h1, _⟩ := step_cases h
  cases h1

theorem trace_closed {es : List Event} {s : LoopState} (h : Trace .closed es s) :
    es = [] ∧ s = .closed := by
  cases h with
  | nil => exact ⟨rfl, rfl⟩
  | cons _ s1 _ e es hstep _ => exact absurd hstep no_step_closed

theorem trace_append {s s2 : LoopState} {es1 es2 : List Event}
    (h : Trace s (es1 ++ es2) s2) : ∃ mid, Trace s es1 mid ∧ Trace mid es2 s2 := by
  induction es1 generalizing s with
  | nil => exact ⟨s, Trace.nil s, h⟩
  | cons e es ih =>
    cases h with
    | cons _ s1 _ _ _ hstep htail =>
      obtain ⟨mid, h1, h2⟩ := ih htail
      exact ⟨mid, Trace.cons s s1 mid e es hstep h1, h2⟩

theorem queue_inv_nil : TaskMap.Inv [] := ⟨by simp, by simp⟩

theorem queue_inv_delete {m : TaskMap} (h : m.Inv) (k : String) : (m.delete k).Inv := by
  refine ⟨?_, fun e he => h.2 e (List.mem_of_mem_filter he)⟩
  exact (h.1.sublist ((List.filter_sublist m).map Prod.fst))

theorem queue_inv_set {m : TaskMap} (h : m.Inv) (t : Task) : (m.set t.Peer t).Inv := by
  have hd := queue_inv_delete h t.Peer
  refine ⟨?_, ?_⟩
  · simp only [TaskMap.set, List.map_cons, List.nodup_cons]
    refine ⟨?_, hd.1⟩
    intro hmem
    obtain ⟨e, he, hk⟩ := List.mem_map.mp hmem
    have := (List.mem_filter.mp he).2
    simp only [ne_eq, decide_not, Bool.not_eq_true', decide_eq_false_iff_not] at this
    exact this hk
  · intro e he
    simp only [TaskMap.set, List.mem_cons] at he
    rcases he with rfl | he
    · rfl
    · exact hd.2 e he

theorem queue_inv_step {m : TaskMap} {e : Event} {s1 : LoopState} (h : m.Inv)
    (hstep : Step (.running m) e s1) : ∀ m1, s1 = .running m1 → m1.Inv := by
  obtain ⟨m0, hm, hc⟩ := step_cases hstep
  cases hm
  intro m1 h1
  rcases hc with ⟨t, _, rfl⟩ | ⟨t, _, _, rfl⟩ | ⟨_, rfl⟩
  · cases h1
    exact queue_inv_set h t
  · cases h1
    exact queue_inv_delete h t.Peer
  · cases h1

theorem queue_inv_trace {s s2 : LoopState} {es : List Event} (ht : Trace s es s2) :
    (∀ m, s = .running m → m.Inv) → ∀ m2, s2 = .running m2 → m2.Inv := by
  induction ht with
  | nil s => exact fun h => h
  | cons s s1 s2 e es hstep _ ih =>
    intro h
    apply ih
    obtain ⟨m, hm, _⟩ := step_cases hstep
    subst hm
    exact queue_inv_step (h m rfl) hstep

theorem queue_inv_reachable {es : List Event} {m : TaskMap}
    (ht : Trace LoopState.init es (.running m)) : m.Inv :=
  queue_inv_trace ht (fun m0 h0 => by cases h0; exact queue_inv_nil) m rfl

theorem queue_inv_unique {m : TaskMap} (h : m.Inv) {k : String} {a b : Task}
    (ha : (k, a) ∈ m) (hb : (k, b) ∈ m) : a = b := by
  have hnd := h.1
  clear h
  induction m with
  | nil => cases ha
  | cons x rest ih =>
    simp only [List.map_cons, List.nodup_cons] at hnd
    rcases List.mem_cons.mp ha with hxa | ha
    · rcases List.mem_cons.mp hb with hxb | hb
      · rw [← hxa] at hxb
        exact (Prod.mk.inj hxb).2.symm
      · have hx : x.1 = k := by rw [← hxa]
        exact absurd (List.mem_map.mpr ⟨(k, b), hb, hx.symm⟩) hnd.1
    · rcases List.mem_cons.mp hb with hxb | hb
      · have hx : x.1 = k := by rw [← hxb]
        exact absurd (List.mem_map.mpr ⟨(k, a), ha, hx.symm⟩) hnd.1
      · exact ih ha hb hnd.2

theorem mem_delete_of_ne {m : TaskMap} {k p : String} {t : Task} (h : (p, t) ∈ m)
    (hne : p ≠ k) : (p, t) ∈ m.delete k := by
  simp only [TaskMap.delete, List.mem_filter]
  exact ⟨h, by simpa using hne⟩

theorem not_mem_delete (m : TaskMap) (p : String) : ∀ e ∈ m.delete p, e.1 ≠ p := by
  intro e he
  have := (List.mem_filter.mp he).2
  simpa using this

/-- From a map with no task of peer `p`, and with no task of `p` received, no task
of `p` is handed to the worker. -/
theorem trace_absent {s s2 : LoopState} {es : List Event} (p : String)
    (ht : Trace s es s2) :
    (∀ m, s = .running m → m.Inv ∧ ∀ e ∈ m, e.1 ≠ p) →
    (∀ t, Event.recv t ∈ es → t.Peer ≠ p) →
    dispatchedOf p es = [] ∧ ∀ m2, s2 = .running m2 → ∀ e ∈ m2, e.1 ≠ p := by
  induction ht with
  | nil s => exact fun h _ => ⟨rfl, fun m2 h2 => (h m2 h2).2⟩
  | cons s s1 s2 e es hstep _ ih =>
    intro h hrecv
    obtain ⟨m, hm, hc⟩ := step_cases hstep
    subst hm
    obtain ⟨hinv, habs⟩ := h m rfl
    have hrecv2 : ∀ t, Event.recv t ∈ es → t.Peer ≠ p :=
      fun t ht => hrecv t (List.mem_cons_of_mem _ ht)
    rcases hc with ⟨t, rfl, rfl⟩ | ⟨t, rfl, htm, rfl⟩ | ⟨rfl, rfl⟩
    · have htp : t.Peer ≠ p := hrecv t (by simp)
      have := ih (fun m1 h1 => by
        cases h1
        refine ⟨queue_inv_set hinv t, ?_⟩
        intro e he
        simp only [TaskMap.set, List.mem_cons] at he
        rcases he with rfl | he
        · exact htp
        · exact habs e (List.mem_of_mem_filter he)) hrecv2
      simpa [dispatchedOf] using this
    · obtain ⟨e0, he0, rfl⟩ := List.mem_map.mp htm
      have hk : e0.1 = e0.2.Peer := hinv.2 e0 he0
      have htp : e0.2.Peer ≠ p := by
        rw [← hk]
        exact habs e0 he0
      have := ih (fun m1 h1 => by
        cases h1
        exact ⟨queue_inv_delete hinv _, fun e he => habs e (List.mem_of_mem_filter he)⟩) hrecv2
      simpa [dispatchedOf, htp] using this
    · have := ih (fun m1 h1 => by cases h1) hrecv2
      simpa [dispatchedOf] using this

/-- From a map in which `t2` is the task of peer `p`, and with no task of `p`
received: either nothing of `p` is handed over and `t2` is still in the map, or
exactly `t2` is handed over, once, and `p` has no task in the map. -/
theorem trace_present {s s2 : LoopState} {es : List Event} (p : String) (t2 : Task)
    (ht : Trace s es s2) :
    (∀ m, s = .running m → m.Inv ∧ (p, t2) ∈ m) →
    (∀ t, Event.recv t ∈ es → t.Peer ≠ p) →
    (dispatchedOf p es = [] ∧ ∀ m2, s2 = .running m2 → (p, t2) ∈ m2) ∨
      (dispatchedOf p es = [t2] ∧ ∀ m2, s2 = .running m2 → ∀ e ∈ m2, e.1 ≠ p) := by
  induction ht with
  | nil s => exact fun h _ => Or.inl ⟨rfl, fun m2 h2 => (h m2 h2).2⟩
  | cons s s1 s2 e es hstep htail ih =>
    intro h hrecv
    obtain ⟨m, hm, hc⟩ := step_cases hstep
    subst hm
    obtain ⟨hinv, hin⟩ := h m rfl
    have hrecv2 : ∀ t, Event.recv t ∈ es → t.Peer ≠ p :=
      fun t ht => hrecv t (List.mem_cons_of_mem _ ht)
    rcases hc with ⟨t, rfl, rfl⟩ | ⟨t, rfl, htm, rfl⟩ | ⟨rfl, rfl⟩
    · have htp : t.Peer ≠ p := hrecv t (by simp)
      have := ih (fun m1 h1 => by
        cases h1
        refine ⟨queue_inv_set hinv t, ?_⟩
        simp only [TaskMap.set, List.mem_cons]
        exact Or.inr (mem_delete_of_ne hin (fun h => htp h.symm))) hrecv2
      simpa [dispatchedOf] using this
    · obtain ⟨e0, he0, rfl⟩ := List.mem_map.mp htm
      have hk : e0.1 = e0.2.Peer := hinv.2 e0 he0
      by_cases htp : e0.2.Peer = p
      · have he1 : (p, e0.2) ∈ m := by
          have : e0 = (p, e0.2) := Prod.ext (by rw [hk, htp]) rfl
          rw [← this]
          exact he0
        have heq : e0.2 = t2 := queue_inv_unique hinv he1 hin
        have := trace_absent p htail (fun m1 h1 => by
          cases h1
          refine ⟨queue_inv_delete hinv _, ?_⟩
          rw [htp]
          exact not_mem_delete m p) hrecv2
        refine Or.inr ⟨?_, this.2⟩
        have htp2 : t2.Peer = p := by rw [← heq]; exact htp
        simp only [dispatchedOf, htp, if_true, this.1, heq]
        simp [htp2]
      · have := ih (fun m1 h1 => by
          cases h1
          exact ⟨queue_inv_delete hinv _, mem_delete_of_ne hin (fun h => htp h.symm)⟩) hrecv2
        simpa [dispatchedOf, htp] using this
    · obtain ⟨rfl, rfl⟩ := trace_closed htail
      exact Or.inl ⟨rfl, fun m2 h2 => by cases h2⟩

theorem dispatchedOf_append (p : String) (es1 es2 : List Event) :
    dispatchedOf p (es1 ++ es2) = dispatchedOf p es1 ++ dispatchedOf p es2 := by
  induction es1 with
  | nil => rfl
  | cons e es ih =>
    cases e with
    | recv t => simpa [dispatchedOf] using ih
    | dispatch t =>
      by_cases h : t.Peer = p <;> simp [dispatchedOf, h, ih]
    | abort => simpa [dispatchedOf] using ih

theorem dispatchedOf_nil_of_none (p : String) (es : List Event)
    (h : ∀ t, Event.dispatch t ∈ es → t.Peer ≠ p) : dispatchedOf p es = [] := by
  induction es with
  | nil => rfl
  | cons e es ih =>
    have ih2 := ih (fun t ht => h t (List.mem_cons_of_mem _ ht))
    cases e with
    | recv t => simpa [dispatchedOf] using ih2
    | dispatch t =>
      have := h t (by simp)
      simp [dispatchedOf, this, ih2]
    | abort => simpa [dispatchedOf] using ih2

/-- C6 (coalescing). In every state reached by the loop the map holds at most one task
per peer identity. If `t1` and then `t2` of the same peer `p` are received with
no task of `p` handed to the worker in between, and no task of `p` is received
afterwards, then from the receipt of `t1` on either no task of `p` has been
handed over and `t2` is in the map, or exactly one has, namely `t2`, and `p`
has no task in the map. -/
theorem C6_coalescing :
    (∀ (es : List Event) (m : TaskMap), Trace LoopState.init es (.running m) →
      (m.map fun e => e.2.Peer).Nodup) ∧
    (∀ (es0 : List Event) (m0 : TaskMap) (t1 t2 : Task) (mid rest : List Event)
      (s : LoopState),
      Trace LoopState.init es0 (.running m0) → t1.Peer = t2.Peer →
      Trace (.running m0) (.recv t1 :: (mid ++ .recv t2 :: rest)) s →
      (∀ t, Event.dispatch t ∈ mid → t.Peer ≠ t2.Peer) →
      (∀ t, Event.recv t ∈ rest → t.Peer ≠ t2.Peer) →
      (dispatchedOf t2.Peer (mid ++ .recv t2 :: rest) = [] ∧
          ∀ m, s = .running m → (t2.Peer, t2) ∈ m) ∨
        (dispatchedOf t2.Peer (mid ++ .recv t2 :: rest) = [t2] ∧
          ∀ m, s = .running m → ∀ e ∈ m, e.2.Peer ≠ t2.Peer)) := by
  constructor
  · intro es m ht
    have hinv := queue_inv_reachable ht
    have : (m.map fun e => e.2.Peer) = m.map Prod.fst :=
      List.map_congr_left (fun e he => (hinv.2 e he).symm)
    rw [this]
    exact hinv.1
  · intro es0 m0 t1 t2 mid rest s ht0 _ ht hmid hrest
    have hinv0 := queue_inv_reachable ht0
    have ht' : Trace (.running m0) ((.recv t1 :: mid) ++ (.recv t2 :: rest)) s := by
      simpa using ht
    obtain ⟨sa, h1, h2⟩ := trace_append ht'
    have hinva := queue_inv_trace h1 (fun m h => by cases h; exact hinv0)
    cases h2 with
    | cons _ sb _ _ _ hstep htail =>
      obtain ⟨ma, hma, hc⟩ := step_cases hstep
      subst hma
      have hsb : sb = .running (ma.set t2.Peer t2) := by
        rcases hc with ⟨t, he, hs⟩ | ⟨t, he, _, _⟩ | ⟨he, _⟩
        · cases he
          exact hs
        · cases he
        · cases he
      subst hsb
      have hinvb := queue_inv_set (hinva ma rfl) t2
      have key := trace_present t2.Peer t2 htail
        (fun m h => by
          cases h
          exact ⟨hinvb, by simp [TaskMap.set]⟩) hrest
      have hd : dispatchedOf t2.Peer (mid ++ .recv t2 :: rest)
          = dispatchedOf t2.Peer rest := by
        rw [dispatchedOf_append, dispatchedOf_nil_of_none _ mid hmid]
        simp [dispatchedOf]
      rw [hd]
      rcases key with ⟨k1, k2⟩ | ⟨k1, k2⟩
      · exact Or.inl ⟨k1, k2⟩
      · refine Or.inr ⟨k1, fun m hm e he => ?_⟩
        have hinvs := queue_inv_trace htail (fun m h => by cases h; exact hinvb) m hm
        rw [← hinvs.2 e he]
        exact k2 m hm e he


theorem step_recv (m : TaskMap) (t : Task) :
    Step (.running m) (.recv t) (.running (m.set t.Peer t)) :=
  ⟨m, m.tasks, .taskRecvCh t, rfl, List.Perm.refl _, rfl⟩

theorem step_dispatch (m : TaskMap) (order : List Task) (t : Task)
    (hperm : order.Perm m.tasks) (hlen : 0 < m.length) (h : getNextTask order = some t) :
    Step (.running m) (.dispatch t) (.running (m.delete t.Peer)) :=
  ⟨m, order, .assignCh, rfl, hperm, by simp [loopBody, hlen, h]⟩

theorem step_abort (m : TaskMap) : Step (.running m) .abort .closed :=
  ⟨m, m.tasks, .abortCh, rfl, List.Perm.refl _, rfl⟩

/-- C6 on a run: a task of peer B is queued; peer A submits a task of priority 1 and
then, after the task of peer B was handed over, a task of priority 5; the one
task of peer A handed to the worker is the second one, and the map is empty
afterwards. -/
theorem C6_coalescing_witness :
    dispatchedOf "peerA"
        ([Event.dispatch ⟨"peerB", 3, 300⟩] ++
          .recv ⟨"peerA", 5, 200⟩ :: [.dispatch ⟨"peerA", 5, 200⟩])
        = [⟨"peerA", 5, 200⟩] ∧
      ((dispatchedOf (Task.mk "peerA" 5 200).Peer
            ([Event.dispatch ⟨"peerB", 3, 300⟩] ++
              .recv ⟨"peerA", 5, 200⟩ :: [.dispatch ⟨"peerA", 5, 200⟩]) = [] ∧
          ∀ m, LoopState.running [] = .running m →
            ((Task.mk "peerA" 5 200).Peer, Task.mk "peerA" 5 200) ∈ m) ∨
        (dispatchedOf (Task.mk "peerA" 5 200).Peer
            ([Event.dispatch ⟨"peerB", 3, 300⟩] ++
              .recv ⟨"peerA", 5, 200⟩ :: [.dispatch ⟨"peerA", 5, 200⟩])
            = [Task.mk "peerA" 5 200] ∧
          ∀ m, LoopState.running [] = .running m →
            ∀ e ∈ m, e.2.Peer ≠ (Task.mk "peerA" 5 200).Peer)) :=
  ⟨by decide,
    C6_coalescing.2 [.recv ⟨"peerB", 3, 300⟩] [("peerB", ⟨"peerB", 3, 300⟩)]
      ⟨"peerA", 1, 100⟩ ⟨"peerA", 5, 200⟩ [.dispatch ⟨"peerB", 3, 300⟩]
      [.dispatch ⟨"peerA", 5, 200⟩] (.running [])
      (Trace.cons _ _ _ _ _ (step_recv [] ⟨"peerB", 3, 300⟩) (Trace.nil _))
      rfl
      (Trace.cons _ _ _ _ _ (step_recv [("peerB", ⟨"peerB", 3, 300⟩)] ⟨"peerA", 1, 100⟩)
        (Trace.cons _ _ _ _ _
          (step_dispatch [("peerA", ⟨"peerA", 1, 100⟩), ("peerB", ⟨"peerB", 3, 300⟩)]
            [⟨"peerA", 1, 100⟩, ⟨"peerB", 3, 300⟩] ⟨"peerB", 3, 300⟩
            (List.Perm.refl _) (by decide) (by decide))
          (Trace.cons _ _ _ _ _ (step_recv [("peerA", ⟨"peerA", 1, 100⟩)] ⟨"peerA", 5, 200⟩)
            (Trace.cons _ _ _ _ _
              (step_dispatch [("peerA", ⟨"peerA", 5, 200⟩)] [⟨"peerA", 5, 200⟩]
                ⟨"peerA", 5, 200⟩ (List.Perm.refl _) (by decide) (by decide))
              (Trace.nil _)))))
      (fun t ht => by
        simp only [List.mem_singleton, Event.dispatch.injEq] at ht
        subst ht
        decide)
      (fun t ht => by simp at ht)⟩

/-! ## Shutdown and ties -/

/-- C11 (shutdown). The abort case can proceed in every running state, whatever the task
map holds, and leads to the closed state; the closed state has no step; so in
every run nothing follows the abort event: no task still in the map is handed
to the worker afterwards. -/
theorem C11_no_dispatch_after_abort :
    (∀ (m : TaskMap) (order : List Task), loopBody m order .abortCh = some (.closed, .abort)) ∧
    (∀ (e : Event) (s1 : LoopState), ¬ Step .closed e s1) ∧
    (∀ (s s2 : LoopState) (before after : List Event),
      Trace s (before ++ .abort :: after) s2 →
      after = [] ∧ s2 = .closed ∧ ∀ t, Event.dispatch t ∉ after) := by
  refine ⟨fun m order => rfl, fun e s1 => no_step_closed, ?_⟩
  intro s s2 before after ht
  obtain ⟨mid, _, h2⟩ := trace_append ht
  cases h2 with
  | cons _ s1 _ _ _ hstep htail =>
    obtain ⟨m, _, hc⟩ := step_cases hstep
    have hs1 : s1 = .closed := by
      rcases hc with ⟨t, he, _⟩ | ⟨t, he, _, _⟩ | ⟨_, hs⟩
      · cases he
      · cases he
      · exact hs
    subst hs1
    obtain ⟨h3, h4⟩ := trace_closed htail
    subst h3
    exact ⟨rfl, h4, fun t ht => by cases ht⟩

/-- C11 on a run: two tasks are received, then the loop is aborted with both still in
the map; the run ends there, in the closed state. -/
theorem C11_no_dispatch_after_abort_witness :
    ([] : List Event) = [] ∧ LoopState.closed = .closed ∧
      ∀ t, Event.dispatch t ∉ ([] : List Event) :=
  C11_no_dispatch_after_abort.2.2 LoopState.init .closed
    [.recv ⟨"peerA", 1, 100⟩, .recv ⟨"peerB", 3, 300⟩] []
    (Trace.cons _ _ _ _ _ (step_recv [] ⟨"peerA", 1, 100⟩)
      (Trace.cons _ _ _ _ _ (step_recv [("peerA", ⟨"peerA", 1, 100⟩)] ⟨"peerB", 3, 300⟩)
        (Trace.cons _ _ _ _ _
          (step_abort [("peerB", ⟨"peerB", 3, 300⟩), ("peerA", ⟨"peerA", 1, 100⟩)])
          (Trace.nil _))))

end Sync
